import Mathlib

/-!
# Mafia game round engine (src/src/main.cpp)

A shallow embedding of the round engine: participants, decision providers,
role behaviour, the day and night phases, the win evaluator, the setup
(`assignRoles`) and the game loop (`runGame`).

Modelling conventions
* A `MySharedPtr<Player>` is a position in the roster `players`; pointer
  comparison (`player.get() != this`) is comparison of positions.
* The class hierarchy `Player > Doctor | Mafia > (Bull | Ninja | Killer) |
  Civilian | Maniac | Commissar` is a role tag; `dynamic_cast<Mafia*>` succeeds
  for the tags Mafia, Bull, Ninja and Killer.
* `std::unordered_map` is an association list with unique keys; the order in
  which a range-for visits it is an arbitrary permutation supplied from outside.
* Random draws (`std::rand`, `uniform_int_distribution`) and console input are
  inputs of the phase; the `int` counters of the phases never exceed the roster
  length, so they are natural numbers.
* The role counters of `assignRoles` are decremented, so they are integers; a
  role draw whose modulus is zero has no defined behaviour and yields `none`.
* The `while` loop of `runGame` is run for a given number of iterations; it
  yields `none` when the loop has not been left by then.
* Log and console output is not modelled.
-/

namespace MafiaGame

/-! ## Data model -/

/-- The dynamic type of a participant object. -/
inductive Role where
  | Civilian
  | Doctor
  | Mafia
  | Bull
  | Ninja
  | Killer
  | Maniac
  | Commissar
deriving DecidableEq, Repr

/-- The dynamic type of the `PlayerStrategy` object a participant owns. -/
inductive StrategyKind where
  | Bot
  | User
deriving DecidableEq, Repr

/-- A participant object: the fields of `Player` plus the private fields of
the derived classes (`Doctor::lastHealed`, `Commissar::checkedPlayers`),
which only an object of that class reads or writes. -/
structure Player where
  playerName : String
  alive : Bool
  strategy : StrategyKind
  role : Role
  lastHealed : String
  checkedPlayers : List (String × Bool)
deriving DecidableEq, Repr

/-- Constructor `Player(name, strategy)` of a derived class: alive, with empty
private state. -/
def Player.new (name : String) (strategy : StrategyKind) (role : Role) : Player :=
  { playerName := name, alive := true, strategy := strategy, role := role,
    lastHealed := "", checkedPlayers := [] }

/-- Test `dynamic_cast<Mafia*>(p) != nullptr`. -/
def Player.isMafia (p : Player) : Bool :=
  match p.role with
  | Role.Mafia => true
  | Role.Bull => true
  | Role.Ninja => true
  | Role.Killer => true
  | _ => false

/-- Test `dynamic_cast<Killer*>(p) != nullptr`. -/
def Player.isKiller (p : Player) : Bool := p.role == Role.Killer

/-- Test `dynamic_cast<Bull*>(p) != nullptr`. -/
def Player.isBull (p : Player) : Bool := p.role == Role.Bull

/-- Test `dynamic_cast<Ninja*>(p) != nullptr`. -/
def Player.isNinja (p : Player) : Bool := p.role == Role.Ninja

/-- Test `dynamic_cast<Maniac*>(p) != nullptr`. -/
def Player.isManiac (p : Player) : Bool := p.role == Role.Maniac

/-- Test `dynamic_cast<Doctor*>(p) != nullptr`. -/
def Player.isDoctor (p : Player) : Bool := p.role == Role.Doctor

/-- Test `dynamic_cast<Commissar*>(p) != nullptr`. -/
def Player.isCommissar (p : Player) : Bool := p.role == Role.Commissar

/-- Method `Player::die`. -/
def Player.die (p : Player) : Player := { p with alive := false }

/-- The members of `GameMaster` (the logger apart). -/
structure GameMaster where
  numPlayers : Nat
  isUserPlayer : Bool
  currentDay : Nat
  players : List Player
  playersToReveal : List String
  healedPlayers : List String
deriving Repr

/-! ## Win evaluator: `GameMaster::isGameOver` -/

/-- The result announced by `isGameOver` when it returns `true`. -/
inductive Winner where
  | MafiaWin
  | CivilianWin
  | ManiacWin
deriving DecidableEq, Repr

/-- Count `numMafia` of `isGameOver`. -/
def mafiaAlive (players : List Player) : Nat :=
  players.countP (fun p => p.alive && p.isMafia)

/-- Count `numCivilians` of `isGameOver`. -/
def otherAlive (players : List Player) : Nat :=
  players.countP (fun p => p.alive && !p.isMafia && !p.isManiac)

/-- Count `numManiac` of `isGameOver`. -/
def maniacAlive (players : List Player) : Nat :=
  players.countP (fun p => p.alive && p.isManiac)

/-- The chain of `if` statements of `isGameOver` on the three counts: the
announced winner, or `none` where the function falls through to `return false`. -/
def winEvaluator (numMafia numCivilians numManiac : Nat) : Option Winner :=
  if numMafia > numCivilians then some Winner.MafiaWin
  else if numMafia = numCivilians ∧ numManiac = 0 then some Winner.MafiaWin
  else if numMafia = 0 ∧ numManiac = 0 then some Winner.CivilianWin
  else if numManiac = 1 ∧ numMafia = 0 ∧ numCivilians = 1 then some Winner.ManiacWin
  else none

/-- The winner `isGameOver` announces for a roster, if any. -/
def announcedWinner (players : List Player) : Option Winner :=
  winEvaluator (mafiaAlive players) (otherAlive players) (maniacAlive players)

/-- Return value of `GameMaster::isGameOver`. -/
def isGameOver (players : List Player) : Bool :=
  match announcedWinner players with
  | some _ => true
  | none => false

/-! ## Containers -/

/-- Statement `m[k]++` on a `std::unordered_map<std::string, int>`: a missing
key is inserted with value 0 and then incremented. -/
def mapIncrement (m : List (String × Nat)) (k : String) : List (String × Nat) :=
  match m with
  | [] => [(k, 1)]
  | e :: rest => if e.1 = k then (e.1, e.2 + 1) :: rest else e :: mapIncrement rest k

/-- Statement `m[k] = v` on a `std::unordered_map<std::string, bool>`. -/
def mapAssign (m : List (String × Bool)) (k : String) (v : Bool) : List (String × Bool) :=
  match m with
  | [] => [(k, v)]
  | e :: rest => if e.1 = k then (e.1, v) :: rest else e :: mapAssign rest k v

/-- Call `m.find(k)`: the mapped value, or `none` for `m.end()`. -/
def mapFind (m : List (String × Bool)) (k : String) : Option Bool :=
  match m with
  | [] => none
  | e :: rest => if e.1 = k then some e.2 else mapFind rest k

/-- Mutation of the object a roster entry points to: apply `f` at position `i`. -/
def updateAt (players : List Player) (i : Nat) (f : Player → Player) : List Player :=
  match players, i with
  | [], _ => []
  | p :: rest, 0 => f p :: rest
  | p :: rest, i + 1 => p :: updateAt rest i f

/-! ## Decision providers -/

/-- What one decision request may consume from outside: the draw of
`getRandomPlayer`, the value of `rand()` in `BotStrategy::chooseAction`, and
the two strings read from the console by `UserStrategy`. -/
structure Choice where
  pick : Nat
  actionRand : Nat
  typedTarget : String
  typedAction : String
deriving Repr

/-- Function `getRandomPlayer`: `nullptr` on an empty list; otherwise the
element at a draw of `uniform_int_distribution(0, size - 1)`, given by
`draw % size`. -/
def getRandomPlayer (candidates : List (Nat × Player)) (draw : Nat) : Option (Nat × Player) :=
  if candidates.isEmpty then none
  else candidates[draw % candidates.length]?

/-- Method `BotStrategy::vote`. -/
def BotStrategy.vote (players : List Player) (targetFilter : Nat × Player → Bool)
    (draw : Nat) : String :=
  let filteredPlayers := players.enum.filter targetFilter
  match getRandomPlayer filteredPlayers draw with
  | some target => target.2.playerName
  | none => ""

/-- Method `BotStrategy::chooseAction`. -/
def BotStrategy.chooseAction (players : List Player) (availableActions : List String)
    (targetFilter : Nat × Player → Bool) (draw r : Nat) : String × String :=
  let filteredPlayers := players.enum.filter targetFilter
  match getRandomPlayer filteredPlayers draw with
  | some target =>
    if !availableActions.isEmpty then
      (availableActions.getD (r % availableActions.length) "", target.2.playerName)
    else ("", "")
  | none => ("", "")

/-- Method `UserStrategy::vote`; `choice` is the string read from the console. -/
def UserStrategy.vote (players : List Player) (targetFilter : Nat × Player → Bool)
    (choice : String) : String :=
  if players.enum.any (fun e => e.2.playerName == choice && targetFilter e) then choice
  else ""

/-- Method `UserStrategy::chooseAction`; `target` and `action` are the strings
read from the console. -/
def UserStrategy.chooseAction (players : List Player) (availableActions : List String)
    (targetFilter : Nat × Player → Bool) (target action : String) : String × String :=
  if players.enum.any (fun e => e.2.playerName == target && targetFilter e)
      && availableActions.contains action then (action, target)
  else ("", "")

/-- Virtual call `strategy->vote(players, targetFilter)`. -/
def strategyVote (k : StrategyKind) (players : List Player)
    (targetFilter : Nat × Player → Bool) (c : Choice) : String :=
  match k with
  | StrategyKind.Bot => BotStrategy.vote players targetFilter c.pick
  | StrategyKind.User => UserStrategy.vote players targetFilter c.typedTarget

/-- Virtual call `strategy->chooseAction(players, actions, targetFilter)`. -/
def strategyChooseAction (k : StrategyKind) (players : List Player)
    (availableActions : List String) (targetFilter : Nat × Player → Bool)
    (c : Choice) : String × String :=
  match k with
  | StrategyKind.Bot =>
    BotStrategy.chooseAction players availableActions targetFilter c.pick c.actionRand
  | StrategyKind.User =>
    UserStrategy.chooseAction players availableActions targetFilter c.typedTarget c.typedAction

/-! ## Role behaviour -/

/-- Method `Mafia::isAlliedWith`. -/
def isAlliedWith (player : Player) : Bool := player.isMafia

/-- Method `Commissar::isCheckedAndInnocent` of the Commissar object `me`. -/
def isCheckedAndInnocent (me : Player) (playerName : String) : Bool :=
  match mapFind me.checkedPlayers playerName with
  | some isMafia => !isMafia
  | none => false

/-- Method `Commissar::addCheckedPlayer` of the Commissar object `me`. -/
def addCheckedPlayer (playerName : String) (isMafia : Bool) (me : Player) : Player :=
  { me with checkedPlayers := mapAssign me.checkedPlayers playerName isMafia }

/-- The `targetFilter` lambda of `vote`, by dynamic type: `Player::vote`
(Civilian, Doctor, Maniac), `Mafia::vote`, `Commissar::vote`. The object is
`me`, at roster position `self`. -/
def voteFilter (self : Nat) (me : Player) (player : Nat × Player) : Bool :=
  match me.role with
  | Role.Civilian | Role.Doctor | Role.Maniac =>
    player.2.alive && player.1 != self
  | Role.Mafia | Role.Bull | Role.Ninja | Role.Killer =>
    player.2.alive && !isAlliedWith player.2 && player.1 != self
  | Role.Commissar =>
    player.2.alive && player.1 != self && !isCheckedAndInnocent me player.2.playerName

/-- Virtual call `player->vote(players)`. -/
def Player.vote (me : Player) (self : Nat) (players : List Player) (c : Choice) : String :=
  strategyVote me.strategy players (voteFilter self me) c

/-- The `actions` vector of `nightAction`, by dynamic type (Civilian builds none). -/
def nightActions (role : Role) : List String :=
  match role with
  | Role.Civilian => []
  | Role.Doctor => ["heal"]
  | Role.Mafia | Role.Bull | Role.Ninja | Role.Killer => ["kill"]
  | Role.Maniac => ["kill"]
  | Role.Commissar => ["check", "kill"]

/-- The `targetFilter` lambda of `nightAction`, by dynamic type (Civilian
builds none). -/
def nightFilter (self : Nat) (me : Player) (player : Nat × Player) : Bool :=
  match me.role with
  | Role.Civilian => false
  | Role.Doctor => player.2.alive && player.2.playerName != me.lastHealed
  | Role.Mafia | Role.Bull | Role.Ninja | Role.Killer =>
    player.2.alive && !isAlliedWith player.2
  | Role.Maniac => player.2.alive && player.1 != self
  | Role.Commissar =>
    player.2.alive && player.1 != self && !isCheckedAndInnocent me player.2.playerName

/-- Virtual call `player->nightAction(players)`: the returned pair and the
object afterwards (`Doctor::nightAction` assigns `lastHealed`). -/
def Player.nightAction (me : Player) (self : Nat) (players : List Player) (c : Choice) :
    (String × String) × Player :=
  match me.role with
  | Role.Civilian => (("", ""), me)
  | Role.Doctor =>
    let r := strategyChooseAction me.strategy players (nightActions me.role)
      (nightFilter self me) c
    if r.1 = "heal" then (r, { me with lastHealed := r.2 }) else (r, me)
  | _ =>
    (strategyChooseAction me.strategy players (nightActions me.role) (nightFilter self me) c, me)

/-! ## Round resolver and orchestrator -/

/-- What one phase consumes from outside: the input of each participant's
decision request (by roster position), the values `rand()` returns in the
tie-break loop (by call number), and the order in which the range-for visits
the entries of the vote-count map. -/
structure Chance where
  choice : Nat → Choice
  coins : Nat → Nat
  order : List (String × Nat) → List (String × Nat)
  order_perm : ∀ m, (order m).Perm m

/-- The variables of the tie-break loop: the running leader (`eliminatedPlayer`
by day, `mafiaVictim` by night), `maxVotes`, and the number of `rand()` calls
made so far. -/
structure Leader where
  name : String
  maxVotes : Nat
  flips : Nat
deriving DecidableEq, Repr

/-- One iteration of the tie-break loop on the entry `(name, count)`. -/
def tieBreakStep (coins : Nat → Nat) (st : Leader) (e : String × Nat) : Leader :=
  if e.2 > st.maxVotes then { st with name := e.1, maxVotes := e.2 }
  else if e.2 = st.maxVotes then
    if coins st.flips % 2 = 0 then { st with name := e.1, flips := st.flips + 1 }
    else { st with flips := st.flips + 1 }
  else st

/-- The tie-break loop of `playDayPhase` (over `voteCount`) and of
`playNightPhase` (over `mafiaVotes`), the same loop in both places; `entries`
are the map entries in the order the range-for visits them. -/
def tieBreak (coins : Nat → Nat) (entries : List (String × Nat)) : Leader :=
  entries.foldl (tieBreakStep coins) { name := "", maxVotes := 0, flips := 0 }

/-- Method `GameMaster::findPlayerByName`: the position of the first
participant with that name, or `none` for `nullptr`. -/
def findPlayerByName (players : List Player) (name : String) : Option Nat :=
  match players with
  | [] => none
  | p :: rest =>
    if p.playerName = name then some 0
    else (findPlayerByName rest name).map (fun i => i + 1)

/-- Method `GameMaster::killPlayer`. -/
def killPlayer (players : List Player) (name : String) : List Player :=
  match findPlayerByName players name with
  | some player => updateAt players player Player.die
  | none => players

/-- Method `GameMaster::addPlayerToReveal`. -/
def addPlayerToReveal (playersToReveal : List String) (playerName : String) : List String :=
  if playerName ∈ playersToReveal then playersToReveal else playersToReveal ++ [playerName]

/-- The view `players | filter(isAlive)`: the living participants in roster
order, each with its roster position. -/
def alivePlayers (players : List Player) : List (Nat × Player) :=
  players.enum.filter (fun e => e.2.alive)

/-- The vector `results` of `playDayPhase`: one vote per living participant,
in roster order. -/
def dayResults (choice : Nat → Choice) (players : List Player) : List String :=
  (alivePlayers players).map (fun e => e.2.vote e.1 players (choice e.1))

/-- The tally loop of `playDayPhase`: `voteCount[target]++` for every
non-empty result. -/
def countVotes (results : List String) : List (String × Nat) :=
  results.foldl
    (fun voteCount target => if target ≠ "" then mapIncrement voteCount target else voteCount) []

/-- Method `GameMaster::playDayPhase`. -/
def playDayPhase (ch : Chance) (s : GameMaster) : GameMaster :=
  let results := dayResults ch.choice s.players
  let voteCount := countVotes results
  let eliminatedPlayer := (tieBreak ch.coins (ch.order voteCount)).name
  if eliminatedPlayer ≠ "" then
    match findPlayerByName s.players eliminatedPlayer with
    | some it => { s with players := updateAt s.players it Player.die }
    | none => s
  else s

/-- The tasks of `playNightPhase` run to completion one after the other, in
the order of `alivePlayers`: the pair each task returns, tagged with the
position of the participant that produced it (`alivePlayers[i]`, `results[i]`),
and the roster after the tasks have run. -/
def collectNight (choice : Nat → Choice) (alive : List Nat) (players : List Player) :
    List (Nat × (String × String)) × List Player :=
  match alive with
  | [] => ([], players)
  | i :: rest =>
    match players[i]? with
    | none => collectNight choice rest players
    | some me =>
      let r := me.nightAction i players (choice i)
      let tail := collectNight choice rest (updateAt players i (fun _ => r.2))
      ((i, r.1) :: tail.1, tail.2)

/-- The local variables of `playNightPhase`. -/
structure NightVars where
  mafiaVictim : String
  killerVictim : String
  maniacVictim : String
  doctorHeal : String
  commissarAction : String
  commissarTarget : String
  commissarPlayer : Option Nat
  mafiaVotes : List (String × Nat)
deriving Repr

/-- The local variables as declared: empty strings, a null pointer, an empty map. -/
def NightVars.init : NightVars :=
  { mafiaVictim := "", killerVictim := "", maniacVictim := "", doctorHeal := "",
    commissarAction := "", commissarTarget := "", commissarPlayer := none, mafiaVotes := [] }

/-- One iteration of the classification loop of `playNightPhase` on
`alivePlayers[i]` and `results[i]`. -/
def classify (players : List Player) (v : NightVars) (entry : Nat × (String × String)) :
    NightVars :=
  match players[entry.1]? with
  | none => v
  | some currentPlayer =>
    let actionType := entry.2.1
    let target := entry.2.2
    if actionType = "kill" then
      if currentPlayer.isMafia && !currentPlayer.isKiller then
        { v with mafiaVotes := mapIncrement v.mafiaVotes target }
      else if currentPlayer.isKiller then
        { v with killerVictim := target }
      else if currentPlayer.isManiac then
        match findPlayerByName players target with
        | some victim =>
          match players[victim]? with
          | some vp => if vp.isBull then v else { v with maniacVictim := target }
          | none => { v with maniacVictim := target }
        | none => { v with maniacVictim := target }
      else if currentPlayer.isCommissar then
        { v with commissarPlayer := some entry.1, commissarAction := actionType,
                 commissarTarget := target }
      else v
    else if actionType = "heal" ∧ currentPlayer.isDoctor = true then
      { v with doctorHeal := target }
    else if actionType = "check" ∧ currentPlayer.isCommissar = true then
      { v with commissarPlayer := some entry.1, commissarAction := actionType,
               commissarTarget := target }
    else v

/-- The block `killPlayer(x); addPlayerToReveal(x);` of `playNightPhase`. -/
def killAndReveal (s : GameMaster) (name : String) : GameMaster :=
  { s with players := killPlayer s.players name,
           playersToReveal := addPlayerToReveal s.playersToReveal name }

/-- The `check` branch of `playNightPhase`: look the target up, compute
`isMafia`, and store it in the map of the Commissar that acted. -/
def commissarCheck (v : NightVars) (s : GameMaster) : GameMaster :=
  match findPlayerByName s.players v.commissarTarget with
  | none => s
  | some targetIdx =>
    match s.players[targetIdx]? with
    | none => s
    | some targetPlayer =>
      let isMafia := targetPlayer.isMafia && !targetPlayer.isNinja
      match v.commissarPlayer with
      | none => s
      | some c =>
        match s.players[c]? with
        | none => s
        | some commissar =>
          if commissar.isCommissar then
            { s with players := updateAt s.players c (addCheckedPlayer v.commissarTarget isMafia) }
          else s

/-- The block of `playNightPhase` that records a save: a non-empty heal target
equal to the mafia, killer or maniac victim is appended to `healedPlayers`. -/
def recordSaved (v : NightVars) (s : GameMaster) : GameMaster :=
  if v.doctorHeal ≠ "" ∧
      (v.mafiaVictim = v.doctorHeal ∨ v.killerVictim = v.doctorHeal
        ∨ v.maniacVictim = v.doctorHeal) then
    { s with healedPlayers := s.healedPlayers ++ [v.doctorHeal] }
  else s

/-- The block `if (!x.empty() && x != doctorHeal) { killPlayer(x);
addPlayerToReveal(x); }`, written three times in `playNightPhase`, for
`mafiaVictim`, `killerVictim` and `maniacVictim`. -/
def killUnlessHealed (v : NightVars) (victim : String) (s : GameMaster) : GameMaster :=
  if victim ≠ "" ∧ victim ≠ v.doctorHeal then killAndReveal s victim else s

/-- The last block of `playNightPhase`: the Commissar's kill or check. -/
def commissarResolve (v : NightVars) (s : GameMaster) : GameMaster :=
  if v.commissarTarget ≠ "" then
    if v.commissarAction = "kill" ∧ v.commissarTarget ≠ v.doctorHeal then
      killAndReveal s v.commissarTarget
    else if v.commissarAction = "check" then commissarCheck v s
    else s
  else s

/-- The part of `playNightPhase` after the tie-break loop: record the save,
apply the deaths of the mafia, killer and maniac victims in this order, then
the Commissar's action. -/
def resolveNight (v : NightVars) (s : GameMaster) : GameMaster :=
  commissarResolve v
    (killUnlessHealed v v.maniacVictim
      (killUnlessHealed v v.killerVictim
        (killUnlessHealed v v.mafiaVictim (recordSaved v s))))

/-- Positions of the living participants, in roster order. -/
def aliveIndices (players : List Player) : List Nat :=
  (alivePlayers players).map Prod.fst

/-- The joined batch of a night: `results[i]` tagged with the position of
`alivePlayers[i]`. -/
def nightDecisions (ch : Chance) (s : GameMaster) : List (Nat × (String × String)) :=
  (collectNight ch.choice (aliveIndices s.players) s.players).1

/-- The roster when all night tasks have completed. -/
def nightRoster (ch : Chance) (s : GameMaster) : List Player :=
  (collectNight ch.choice (aliveIndices s.players) s.players).2

/-- The local variables of `playNightPhase` after the classification loop. -/
def classifiedVars (ch : Chance) (s : GameMaster) : NightVars :=
  (nightDecisions ch s).foldl (classify (nightRoster ch s)) NightVars.init

/-- The local variables of `playNightPhase` after the classification loop and
the tie-break loop over `mafiaVotes`. -/
def nightVars (ch : Chance) (s : GameMaster) : NightVars :=
  { classifiedVars ch s with
    mafiaVictim := (tieBreak ch.coins (ch.order (classifiedVars ch s).mafiaVotes)).name }

/-- Method `GameMaster::playNightPhase`. -/
def playNightPhase (ch : Chance) (s : GameMaster) : GameMaster :=
  resolveNight (nightVars ch s) { s with players := nightRoster ch s }

/-- Method `GameMaster::announceNightResults`: the two lists are printed and
cleared. -/
def announceNightResults (s : GameMaster) : GameMaster :=
  { s with playersToReveal := [], healedPlayers := [] }

/-! ## Sequences of phases -/

/-- A phase of the game with what it consumes from outside. -/
inductive Phase where
  | day (ch : Chance)
  | night (ch : Chance)

/-- One phase as `runGame` runs it: `playDayPhase`, or `playNightPhase`
followed by `announceNightResults` and `++currentDay`. -/
def runPhase (s : GameMaster) (ph : Phase) : GameMaster :=
  match ph with
  | Phase.day ch => playDayPhase ch s
  | Phase.night ch =>
    let s1 := announceNightResults (playNightPhase ch s)
    { s1 with currentDay := s1.currentDay + 1 }

/-- A sequence of phases, in order. -/
def runPhases (s : GameMaster) (phases : List Phase) : GameMaster :=
  phases.foldl runPhase s

/-! ## Setup: `assignRandomRole`, `assignRoles` and the constructor -/

/-- The roster under construction together with the local variables of
`assignRoles` that `assignRandomRole` receives by reference (the `int`
counters and the three flags). The vector `mafiaNames` is only printed and is
left out. Field `moduli` is a record kept for the statements and is never
read: for every draw of a role made so far it holds the modulus of the draw
and `players.size()` at that moment. -/
structure Assigning where
  players : List Player
  numMafia : Int
  numDoctors : Int
  numCommissars : Int
  numManiacs : Int
  numCivilians : Int
  bullAssigned : Bool
  ninjaAssigned : Bool
  killerAssigned : Bool
  moduli : List (Int × Nat)
deriving Repr

/-- The modulus of the role draw:
`numMafia + numDoctors + numCommissars + numManiacs + numCivilians`. -/
def Assigning.remaining (a : Assigning) : Int :=
  a.numMafia + a.numDoctors + a.numCommissars + a.numManiacs + a.numCivilians

/-- Statement `players.push_back(new R(playerName, new S()))`. -/
def Assigning.push (a : Assigning) (playerName : String) (strategy : StrategyKind)
    (role : Role) : Assigning :=
  { a with players := a.players ++ [Player.new playerName strategy role] }

/-- Method `GameMaster::assignRandomRole`; `roleDraw` and `typeDraw` are the
values the two calls of `std::rand()` return (the second is made only in the
mafia branch). The result is `none` where the modulus is zero, for which
`rand() % 0` has no defined behaviour; `%` on `int` truncates, as `Int.tmod`. -/
def assignRandomRole (playerName : String) (roleDraw typeDraw : Nat) (a0 : Assigning) :
    Option Assigning :=
  if a0.remaining = 0 then none
  else
    let randomRole : Int := Int.tmod roleDraw a0.remaining
    let a := { a0 with moduli := a0.moduli ++ [(a0.remaining, a0.players.length)] }
    if randomRole < a.numMafia then
      let mafiaType := typeDraw % 4
      if mafiaType = 0
          ∨ (a.bullAssigned = true ∧ a.ninjaAssigned = true ∧ a.killerAssigned = true) then
        some { a.push playerName StrategyKind.Bot Role.Mafia with numMafia := a.numMafia - 1 }
      else if mafiaType = 1 ∧ a.bullAssigned = false then
        some { a.push playerName StrategyKind.Bot Role.Bull with
               bullAssigned := true, numMafia := a.numMafia - 1 }
      else if mafiaType = 2 ∧ a.ninjaAssigned = false then
        some { a.push playerName StrategyKind.Bot Role.Ninja with
               ninjaAssigned := true, numMafia := a.numMafia - 1 }
      else if mafiaType = 3 ∧ a.killerAssigned = false then
        some { a.push playerName StrategyKind.Bot Role.Killer with
               killerAssigned := true, numMafia := a.numMafia - 1 }
      else
        some { a.push playerName StrategyKind.Bot Role.Mafia with numMafia := a.numMafia - 1 }
    else if randomRole < a.numMafia + a.numDoctors then
      some { a.push playerName StrategyKind.Bot Role.Doctor with numDoctors := a.numDoctors - 1 }
    else if randomRole < a.numMafia + a.numDoctors + a.numCommissars then
      some { a.push playerName StrategyKind.Bot Role.Commissar with
             numCommissars := a.numCommissars - 1 }
    else if randomRole < a.numMafia + a.numDoctors + a.numCommissars + a.numManiacs then
      some { a.push playerName StrategyKind.Bot Role.Maniac with numManiacs := a.numManiacs - 1 }
    else
      some { a.push playerName StrategyKind.Bot Role.Civilian with
             numCivilians := a.numCivilians - 1 }

/-- What `assignRoles` consumes from outside: the names `loadNames` returns,
the permutation `std::shuffle` applies, the two strings read from the console
for the interactive participant, and the values of `std::rand()` in the call
of `assignRandomRole` made when the roster holds `k` participants. -/
structure SetupInput where
  names : List String
  shuffle : List String → List String
  shuffle_perm : ∀ l, (shuffle l).Perm l
  playerName : String
  role : String
  draws : Nat → Nat × Nat

/-- The loop `for (name : names) { assignRandomRole(name, ...);
if (players.size() == numPlayers) break; }` of `assignRoles`. -/
def assignLoop (numPlayers : Nat) (draws : Nat → Nat × Nat) (names : List String)
    (a : Assigning) : Option Assigning :=
  match names with
  | [] => some a
  | name :: rest =>
    match assignRandomRole name (draws a.players.length).1 (draws a.players.length).2 a with
    | none => none
    | some a1 =>
      if a1.players.length = numPlayers then some a1
      else assignLoop numPlayers draws rest a1

/-- The block `if (isUserPlayer) { ... }` of `assignRoles` up to the
statement that erases the typed name from `names`: the interactive
participant gets the typed role with a `UserStrategy`, or a random role by
`assignRandomRole` when the typed string is none of the eight role words. -/
def assignUser (inp : SetupInput) (a : Assigning) : Option Assigning :=
  if inp.role = "mafia" then
    some { a.push inp.playerName StrategyKind.User Role.Mafia with numMafia := a.numMafia - 1 }
  else if inp.role = "bull" ∧ a.bullAssigned = false then
    some { a.push inp.playerName StrategyKind.User Role.Bull with
           bullAssigned := true, numMafia := a.numMafia - 1 }
  else if inp.role = "ninja" ∧ a.ninjaAssigned = false then
    some { a.push inp.playerName StrategyKind.User Role.Ninja with
           ninjaAssigned := true, numMafia := a.numMafia - 1 }
  else if inp.role = "killer" ∧ a.killerAssigned = false then
    some { a.push inp.playerName StrategyKind.User Role.Killer with
           killerAssigned := true, numMafia := a.numMafia - 1 }
  else if inp.role = "doctor" then
    some { a.push inp.playerName StrategyKind.User Role.Doctor with
           numDoctors := a.numDoctors - 1 }
  else if inp.role = "commissar" then
    some { a.push inp.playerName StrategyKind.User Role.Commissar with
           numCommissars := a.numCommissars - 1 }
  else if inp.role = "maniac" then
    some { a.push inp.playerName StrategyKind.User Role.Maniac with
           numManiacs := a.numManiacs - 1 }
  else if inp.role = "civilian" then
    some { a.push inp.playerName StrategyKind.User Role.Civilian with
           numCivilians := a.numCivilians - 1 }
  else
    assignRandomRole inp.playerName (inp.draws a.players.length).1
      (inp.draws a.players.length).2 a

/-- The local variables of `assignRoles` as initialised after the shuffle. -/
def Assigning.init (numPlayers : Nat) : Assigning :=
  { players := [],
    numMafia := max 1 ((numPlayers : Int) / 5),
    numDoctors := 1,
    numCommissars := 1,
    numManiacs := 1,
    numCivilians := (numPlayers : Int) - max 1 ((numPlayers : Int) / 5) - 1 - 1 - 1,
    bullAssigned := false,
    ninjaAssigned := false,
    killerAssigned := false,
    moduli := [] }

/-- The part of `assignRoles` after the test of the number of names. -/
def assignAll (numPlayers : Nat) (isUserPlayer : Bool) (inp : SetupInput) : Option Assigning :=
  let names := inp.shuffle inp.names
  if isUserPlayer then
    match assignUser inp (Assigning.init numPlayers) with
    | none => none
    | some a =>
      assignLoop numPlayers inp.draws (names.filter (fun n => n != inp.playerName)) a
  else assignLoop numPlayers inp.draws names (Assigning.init numPlayers)

/-- Method `GameMaster::assignRoles`: the roster it leaves, which is empty
when it returns early because there are fewer names than `numPlayers`. -/
def assignRoles (numPlayers : Nat) (isUserPlayer : Bool) (inp : SetupInput) :
    Option (List Player) :=
  if inp.names.length < numPlayers then some []
  else (assignAll numPlayers isUserPlayer inp).map (fun a => a.players)

/-- The constructor `GameMaster(numPlayers, isUserPlayer)`, which calls
`assignRoles` on an empty roster with `currentDay` 1. -/
def GameMaster.new (numPlayers : Nat) (isUserPlayer : Bool) (inp : SetupInput) :
    Option GameMaster :=
  (assignRoles numPlayers isUserPlayer inp).map (fun roster =>
    { numPlayers := numPlayers, isUserPlayer := isUserPlayer, currentDay := 1,
      players := roster, playersToReveal := [], healedPlayers := [] })

/-! ## The game loop: `runGame` -/

/-- The loop of `runGame` with `fuel` iterations allowed, entered when `played`
phases have run; phase number `k` of the game consumes `input k`. The result
is the state when the loop is left and the number of phases that have run, or
`none` when the iterations allowed do not suffice. -/
def runGameFrom (input : Nat → Chance) (fuel played : Nat) (s : GameMaster) :
    Option (GameMaster × Nat) :=
  match fuel with
  | 0 => none
  | fuel + 1 =>
    if isGameOver s.players then some (s, played)
    else
      let s1 := runPhase s (Phase.day (input played))
      if isGameOver s1.players then some (s1, played + 1)
      else
        runGameFrom input fuel (played + 2) (runPhase s1 (Phase.night (input (played + 1))))

/-- Method `GameMaster::runGame`. -/
def runGame (fuel : Nat) (input : Nat → Chance) (s : GameMaster) : Option (GameMaster × Nat) :=
  runGameFrom input fuel 0 s

/-! ## Auxiliary notions used in the statements -/

/-- Everything of a participant object except `Doctor::lastHealed`, the only
field a decision request writes. -/
def Player.core (p : Player) : String × Bool × StrategyKind × Role × List (String × Bool) :=
  (p.playerName, p.alive, p.strategy, p.role, p.checkedPlayers)

/-- The names `playNightPhase` passes to `killPlayer`, in the order of the calls. -/
def killList (v : NightVars) : List String :=
  (if v.mafiaVictim ≠ "" ∧ v.mafiaVictim ≠ v.doctorHeal then [v.mafiaVictim] else [])
  ++ (if v.killerVictim ≠ "" ∧ v.killerVictim ≠ v.doctorHeal then [v.killerVictim] else [])
  ++ (if v.maniacVictim ≠ "" ∧ v.maniacVictim ≠ v.doctorHeal then [v.maniacVictim] else [])
  ++ (if v.commissarTarget ≠ "" ∧ v.commissarAction = "kill"
        ∧ v.commissarTarget ≠ v.doctorHeal then [v.commissarTarget] else [])

/-- The roster in which every participant whose name is in the list is dead. -/
def markDead (names : List String) (players : List Player) : List Player :=
  players.map (fun p => if p.playerName ∈ names then p.die else p)

/-- The wording of the night resolution rule: `name` is a non-empty mafia
victim, killer victim, maniac victim or Commissar kill target, and is not the
Doctor's heal target. -/
def queuedDeath (v : NightVars) (name : String) : Prop :=
  name ≠ "" ∧ name ≠ v.doctorHeal
    ∧ (name = v.mafiaVictim ∨ name = v.killerVictim ∨ name = v.maniacVictim
        ∨ (v.commissarAction = "kill" ∧ name = v.commissarTarget))

instance (v : NightVars) (name : String) : Decidable (queuedDeath v name) :=
  inferInstanceAs (Decidable (name ≠ "" ∧ name ≠ v.doctorHeal
    ∧ (name = v.mafiaVictim ∨ name = v.killerVictim ∨ name = v.maniacVictim
        ∨ (v.commissarAction = "kill" ∧ name = v.commissarTarget))))

/-- Value `m[k]` of a vote-count map, 0 for a missing key. -/
def mapCount (m : List (String × Nat)) (k : String) : Nat :=
  match m with
  | [] => 0
  | e :: rest => if e.1 = k then e.2 else mapCount rest k

/-- The test under which the classification loop executes `mafiaVotes[target]++`:
the action is `kill` and `alivePlayers[i]` is a `Mafia` but not a `Killer`. -/
def isMafiaKill (players : List Player) (e : Nat × (String × String)) : Bool :=
  match players[e.1]? with
  | some currentPlayer => e.2.1 == "kill" && (currentPlayer.isMafia && !currentPlayer.isKiller)
  | none => false

/-- The wording of the mafia tally rule: the targets of the `kill` decisions of
the batch made by participants whose role is Mafia, Bull or Ninja, in order. -/
def mafiaKillTargets (players : List Player) (batch : List (Nat × (String × String))) :
    List String :=
  (batch.filter (fun e =>
    match players[e.1]? with
    | some p => e.2.1 == "kill"
        && (p.role == Role.Mafia || p.role == Role.Bull || p.role == Role.Ninja)
    | none => false)).map (fun e => e.2.2)

/-- The value the `check` branch of `playNightPhase` computes for a name on a
roster: `isMafia` of the first participant of that name, if there is one. -/
def checkValue (players : List Player) (name : String) : Option Bool :=
  match findPlayerByName players name with
  | some t =>
    match players[t]? with
    | some targetPlayer => some (targetPlayer.isMafia && !targetPlayer.isNinja)
    | none => none
  | none => none

/-- Every entry of every knowledge map of the roster is what a check of that
name computes on the roster. -/
def knowledgeSound (players : List Player) : Prop :=
  ∀ (c : Nat) (cp : Player) (name : String) (b : Bool), players[c]? = some cp →
    mapFind cp.checkedPlayers name = some b → checkValue players name = some b

/-- The wording of one-way liveness, for a participant before a phase (`p`) and
the same participant after it (`p'`): the name and the role are the same, and
the participant is alive afterwards only if it was alive before. -/
def Player.later (p p' : Player) : Prop :=
  p'.playerName = p.playerName ∧ p'.role = p.role ∧ (p'.alive = true → p.alive = true)

instance (p p' : Player) : Decidable (Player.later p p') :=
  inferInstanceAs (Decidable (p'.playerName = p.playerName ∧ p'.role = p.role
    ∧ (p'.alive = true → p.alive = true)))

/-- The state of `playNightPhase` when the deaths of the mafia, killer and
maniac victims have been applied and the Commissar's block has not yet run. -/
def beforeCommissar (ch : Chance) (s : GameMaster) : GameMaster :=
  killUnlessHealed (nightVars ch s) (nightVars ch s).maniacVictim
    (killUnlessHealed (nightVars ch s) (nightVars ch s).killerVictim
      (killUnlessHealed (nightVars ch s) (nightVars ch s).mafiaVictim
        (recordSaved (nightVars ch s) { s with players := nightRoster ch s })))

/-- The effect common to the branches of `assignRandomRole` and `assignRoles`
that create a participant of a given role: the participant is pushed, the
counter of its family is decremented and the flag of its subtype is set. -/
def Assigning.take (a : Assigning) (playerName : String) (strategy : StrategyKind)
    (role : Role) : Assigning :=
  match role with
  | Role.Mafia => { a.push playerName strategy role with numMafia := a.numMafia - 1 }
  | Role.Bull =>
    { a.push playerName strategy role with bullAssigned := true, numMafia := a.numMafia - 1 }
  | Role.Ninja =>
    { a.push playerName strategy role with ninjaAssigned := true, numMafia := a.numMafia - 1 }
  | Role.Killer =>
    { a.push playerName strategy role with killerAssigned := true, numMafia := a.numMafia - 1 }
  | Role.Doctor => { a.push playerName strategy role with numDoctors := a.numDoctors - 1 }
  | Role.Commissar =>
    { a.push playerName strategy role with numCommissars := a.numCommissars - 1 }
  | Role.Maniac => { a.push playerName strategy role with numManiacs := a.numManiacs - 1 }
  | Role.Civilian => { a.push playerName strategy role with numCivilians := a.numCivilians - 1 }

/-- The counter that a participant of the given role is taken from. -/
def Assigning.budget (a : Assigning) (role : Role) : Int :=
  match role with
  | Role.Mafia | Role.Bull | Role.Ninja | Role.Killer => a.numMafia
  | Role.Doctor => a.numDoctors
  | Role.Commissar => a.numCommissars
  | Role.Maniac => a.numManiacs
  | Role.Civilian => a.numCivilians

/-- The flag of the role's subtype is not yet set (always true of a role
without a flag). -/
def Assigning.free (a : Assigning) (role : Role) : Prop :=
  match role with
  | Role.Bull => a.bullAssigned = false
  | Role.Ninja => a.ninjaAssigned = false
  | Role.Killer => a.killerAssigned = false
  | _ => True

/-- The loop invariant of `assignRoles` for a game of `numPlayers`: no counter
is negative; the participants created so far and the counters add up, family
by family, to the initial numbers; all participants are alive; every subtype
flag that is not set has no participant and no subtype has more than one; and
every recorded draw had the number of participants still to be created as its
modulus, which was not zero. -/
structure Assigning.Sound (numPlayers : Nat) (a : Assigning) : Prop where
  mafia_nonneg : 0 ≤ a.numMafia
  doctors_nonneg : 0 ≤ a.numDoctors
  commissars_nonneg : 0 ≤ a.numCommissars
  maniacs_nonneg : 0 ≤ a.numManiacs
  civilians_nonneg : 0 ≤ a.numCivilians
  mafia_sum : (a.players.countP Player.isMafia : Int) + a.numMafia
    = max 1 ((numPlayers : Int) / 5)
  doctors_sum : (a.players.countP Player.isDoctor : Int) + a.numDoctors = 1
  commissars_sum : (a.players.countP Player.isCommissar : Int) + a.numCommissars = 1
  maniacs_sum : (a.players.countP Player.isManiac : Int) + a.numManiacs = 1
  civilians_sum : (a.players.countP (fun p => p.role == Role.Civilian) : Int) + a.numCivilians
    = (numPlayers : Int) - max 1 ((numPlayers : Int) / 5) - 3
  length_sum : (a.players.length : Int) + a.remaining = numPlayers
  all_alive : ∀ p ∈ a.players, p.alive = true
  bull_le : a.players.countP Player.isBull ≤ 1
  bull_flag : a.bullAssigned = false → a.players.countP Player.isBull = 0
  ninja_le : a.players.countP Player.isNinja ≤ 1
  ninja_flag : a.ninjaAssigned = false → a.players.countP Player.isNinja = 0
  killer_le : a.players.countP Player.isKiller ≤ 1
  killer_flag : a.killerAssigned = false → a.players.countP Player.isKiller = 0
  moduli_ok : ∀ e ∈ a.moduli, e.1 = (numPlayers : Int) - e.2 ∧ e.1 ≠ 0

/-! ## Sample games and inputs -/

/-- A roster of living bot participants with the given names and roles. -/
def rosterOf (entries : List (String × Role)) : List Player :=
  entries.map (fun e => Player.new e.1 StrategyKind.Bot e.2)

/-- Three living Mafia-family members, two others, no Maniac. -/
def sampleMafiaWin : List Player :=
  rosterOf [("A", Role.Mafia), ("B", Role.Bull), ("C", Role.Killer), ("D", Role.Doctor),
    ("E", Role.Civilian)]

/-- No Mafia, no Maniac, two others alive and a dead Mafia member. -/
def sampleCivilianWin : List Player :=
  (Player.new "A" StrategyKind.Bot Role.Mafia).die
    :: rosterOf [("D", Role.Doctor), ("E", Role.Civilian)]

/-- One Maniac and one other. -/
def sampleManiacWin : List Player :=
  rosterOf [("M", Role.Maniac), ("E", Role.Commissar)]

/-- One Mafia, three others, one Maniac. -/
def sampleContinue : List Player :=
  rosterOf [("A", Role.Ninja), ("M", Role.Maniac), ("D", Role.Doctor), ("E", Role.Civilian),
    ("F", Role.Commissar)]

/-- The order that visits a vote-count map as it is stored. -/
def storedOrder (choice : Nat → Choice) (coins : Nat → Nat) : Chance :=
  { choice := choice, coins := coins, order := fun m => m,
    order_perm := fun m => List.Perm.refl m }

/-- The five-participant scenario: P1 Mafia, P2 Doctor, P3 Commissar (the
interactive participant), P4 Maniac, P5 Civilian, all alive, first night. -/
def scenarioGame : GameMaster :=
  { numPlayers := 5, isUserPlayer := true, currentDay := 1,
    players := [Player.new "P1" StrategyKind.Bot Role.Mafia,
      Player.new "P2" StrategyKind.Bot Role.Doctor,
      Player.new "P3" StrategyKind.User Role.Commissar,
      Player.new "P4" StrategyKind.Bot Role.Maniac,
      Player.new "P5" StrategyKind.Bot Role.Civilian],
    playersToReveal := [], healedPlayers := [] }

/-- Inputs under which the scenario's decisions are produced: P1 draws P5
among its four candidates, P2 draws P5 among its five, P4 draws P3 among its
four, and the console supplies a name that matches nobody for P3. -/
def scenarioChance : Chance :=
  storedOrder (fun i =>
    match i with
    | 0 => { pick := 3, actionRand := 0, typedTarget := "", typedAction := "" }
    | 1 => { pick := 4, actionRand := 0, typedTarget := "", typedAction := "" }
    | 2 => { pick := 0, actionRand := 0, typedTarget := "nobody", typedAction := "check" }
    | 3 => { pick := 2, actionRand := 0, typedTarget := "", typedAction := "" }
    | _ => { pick := 0, actionRand := 0, typedTarget := "", typedAction := "" })
    (fun _ => 0)

/-- A game of five automated participants: P1 Mafia, P2 Doctor, P3 Commissar,
P4 Maniac, P5 Civilian, all alive, first night. -/
def botGame : GameMaster :=
  { numPlayers := 5, isUserPlayer := false, currentDay := 1,
    players := rosterOf [("P1", Role.Mafia), ("P2", Role.Doctor), ("P3", Role.Commissar),
      ("P4", Role.Maniac), ("P5", Role.Civilian)],
    playersToReveal := [], healedPlayers := [] }

/-- Draws under which P1 decides (kill, P2), P2 decides (heal, P5), P3 decides
(kill, P5) and P4 decides (kill, P1). -/
def commissarKillChance : Chance :=
  storedOrder (fun i =>
    match i with
    | 0 => { pick := 0, actionRand := 0, typedTarget := "", typedAction := "" }
    | 1 => { pick := 4, actionRand := 0, typedTarget := "", typedAction := "" }
    | 2 => { pick := 3, actionRand := 1, typedTarget := "", typedAction := "" }
    | 3 => { pick := 0, actionRand := 0, typedTarget := "", typedAction := "" }
    | _ => { pick := 0, actionRand := 0, typedTarget := "", typedAction := "" })
    (fun _ => 0)

/-- A game of four automated participants in which the Maniac can meet a Bull:
B Bull, M Maniac, D Doctor, C Civilian, all alive. -/
def bullGame : GameMaster :=
  { numPlayers := 4, isUserPlayer := false, currentDay := 1,
    players := rosterOf [("B", Role.Bull), ("M", Role.Maniac), ("D", Role.Doctor),
      ("C", Role.Civilian)],
    playersToReveal := [], healedPlayers := [] }

/-- Draws under which B decides (kill, M), M decides (kill, B) and D decides
(heal, D). -/
def bullChance : Chance :=
  storedOrder (fun i =>
    match i with
    | 0 => { pick := 0, actionRand := 0, typedTarget := "", typedAction := "" }
    | 1 => { pick := 0, actionRand := 0, typedTarget := "", typedAction := "" }
    | _ => { pick := 2, actionRand := 0, typedTarget := "", typedAction := "" })
    (fun _ => 0)

/-- A game of four automated participants: C Commissar, N Ninja, D Doctor,
V Civilian, all alive. -/
def ninjaGame : GameMaster :=
  { numPlayers := 4, isUserPlayer := false, currentDay := 1,
    players := rosterOf [("C", Role.Commissar), ("N", Role.Ninja), ("D", Role.Doctor),
      ("V", Role.Civilian)],
    playersToReveal := [], healedPlayers := [] }

/-- Draws under which C decides (check, N), N decides (kill, D) and D decides
(heal, C). -/
def ninjaChance : Chance :=
  storedOrder (fun i =>
    match i with
    | 0 => { pick := 0, actionRand := 0, typedTarget := "", typedAction := "" }
    | 1 => { pick := 1, actionRand := 0, typedTarget := "", typedAction := "" }
    | _ => { pick := 0, actionRand := 0, typedTarget := "", typedAction := "" })
    (fun _ => 0)

/-- The state of `ninjaGame` after its first night, in which C has checked N. -/
def checkedGame : GameMaster := runPhase ninjaGame (Phase.night ninjaChance)

/-- A game in which only the Maniac M is left alive; the Commissar C and the
Doctor D are dead. -/
def loneGame : GameMaster :=
  { numPlayers := 3, isUserPlayer := false, currentDay := 3,
    players := [Player.new "M" StrategyKind.Bot Role.Maniac,
      (Player.new "C" StrategyKind.Bot Role.Commissar).die,
      (Player.new "D" StrategyKind.Bot Role.Doctor).die],
    playersToReveal := [], healedPlayers := [] }

/-- A game of five automated participants with a Killer: K Killer, M Mafia,
D Doctor, C Civilian, V Civilian, all alive. -/
def killerGame : GameMaster :=
  { numPlayers := 5, isUserPlayer := false, currentDay := 1,
    players := rosterOf [("K", Role.Killer), ("M", Role.Mafia), ("D", Role.Doctor),
      ("C", Role.Civilian), ("V", Role.Civilian)],
    playersToReveal := [], healedPlayers := [] }

/-- Draws under which K decides (kill, V), M decides (kill, C) and D decides
(heal, D). -/
def killerChance : Chance :=
  storedOrder (fun i =>
    match i with
    | 0 => { pick := 2, actionRand := 0, typedTarget := "", typedAction := "" }
    | 1 => { pick := 1, actionRand := 0, typedTarget := "", typedAction := "" }
    | _ => { pick := 2, actionRand := 0, typedTarget := "", typedAction := "" })
    (fun _ => 0)

/-- Draws under which every kill source of `botGame` targets the Doctor P2 and
P2 heals itself: P1 decides (kill, P2), P2 decides (heal, P2), P3 decides
(kill, P2) and P4 decides (kill, P2). -/
def healChance : Chance :=
  storedOrder (fun i =>
    match i with
    | 0 => { pick := 0, actionRand := 0, typedTarget := "", typedAction := "" }
    | 2 => { pick := 1, actionRand := 1, typedTarget := "", typedAction := "" }
    | _ => { pick := 1, actionRand := 0, typedTarget := "", typedAction := "" })
    (fun _ => 0)

/-- A setup of six automated participants: the names A to F, kept in this
order by the shuffle, with every `std::rand()` returning 0. The roster it
yields is A Mafia, B Doctor, C Commissar, D Maniac, E Civilian, F Civilian. -/
def sixSetup : SetupInput :=
  { names := ["A", "B", "C", "D", "E", "F"], shuffle := fun l => l,
    shuffle_perm := fun l => List.Perm.refl l, playerName := "", role := "",
    draws := fun _ => (0, 0) }

/-- A game in which the Maniac M, the Commissar C and the Doctor D are the
living participants. -/
def trioGame : GameMaster :=
  { numPlayers := 3, isUserPlayer := false, currentDay := 2,
    players := rosterOf [("M", Role.Maniac), ("C", Role.Commissar), ("D", Role.Doctor)],
    playersToReveal := [], healedPlayers := [] }

/-- Draws under which M decides (kill, C), C decides (kill, D) and D decides
(heal, M). -/
def trioChance : Chance :=
  storedOrder (fun i =>
    match i with
    | 0 => { pick := 0, actionRand := 0, typedTarget := "", typedAction := "" }
    | 1 => { pick := 1, actionRand := 1, typedTarget := "", typedAction := "" }
    | _ => { pick := 0, actionRand := 0, typedTarget := "", typedAction := "" })
    (fun _ => 0)

/-- The game the constructor builds from `sixSetup`. -/
def sixGame : GameMaster :=
  { numPlayers := 6, isUserPlayer := false, currentDay := 1,
    players := rosterOf [("A", Role.Mafia), ("B", Role.Doctor), ("C", Role.Commissar),
      ("D", Role.Maniac), ("E", Role.Civilian), ("F", Role.Civilian)],
    playersToReveal := [], healedPlayers := [] }

/-- Inputs of the phases of a game on `sixGame`. Day 1: everybody but A draws
A, so A is eliminated. Night 1: B decides (heal, B), C decides (check, F) and
D decides (kill, E). Day 2: B and D draw F, C draws D and F draws B, so F is
eliminated. Night 2: B decides (heal, D), C decides (kill, B) and D decides
(kill, C). Every later draw is 0. -/
def sixInput (k : Nat) : Chance :=
  storedOrder (fun i =>
    match k, i with
    | 1, 2 => { pick := 3, actionRand := 0, typedTarget := "", typedAction := "" }
    | 1, 3 => { pick := 2, actionRand := 0, typedTarget := "", typedAction := "" }
    | 2, 1 => { pick := 2, actionRand := 0, typedTarget := "", typedAction := "" }
    | 2, 2 => { pick := 1, actionRand := 0, typedTarget := "", typedAction := "" }
    | 2, 3 => { pick := 2, actionRand := 0, typedTarget := "", typedAction := "" }
    | 3, 1 => { pick := 1, actionRand := 0, typedTarget := "", typedAction := "" }
    | 3, 2 => { pick := 0, actionRand := 1, typedTarget := "", typedAction := "" }
    | 3, 3 => { pick := 1, actionRand := 0, typedTarget := "", typedAction := "" }
    | _, _ => { pick := 0, actionRand := 0, typedTarget := "", typedAction := "" })
    (fun _ => 0)

/-- The state of the game on `sixGame` after its first two days and nights. -/
def sixStuck : GameMaster :=
  runPhases sixGame [Phase.day (sixInput 0), Phase.night (sixInput 1),
    Phase.day (sixInput 2), Phase.night (sixInput 3)]

/-- Inputs of a phase in which every participant draws `pick`, with the action
draw `actionRand` and nothing typed. -/
def uniformChoice (pick actionRand : Nat) : Choice :=
  { pick := pick, actionRand := actionRand, typedTarget := "", typedAction := "" }

/-- A setup of five participants in which the console is at end of input: the
typed name and the typed role are empty, so the interactive participant is
created by `assignRandomRole` under the empty name. The names A to D are kept
in this order; the first role draw is 4 and every other draw is 0. The roster
it yields is the nameless Civilian, A Mafia, B Doctor, C Commissar, D Maniac. -/
def eofSetup : SetupInput :=
  { names := ["A", "B", "C", "D", "E"], shuffle := fun l => l,
    shuffle_perm := fun l => List.Perm.refl l, playerName := "", role := "",
    draws := fun k => if k = 0 then (4, 0) else (0, 0) }

/-- The game the constructor builds from `eofSetup`. -/
def eofStart : GameMaster :=
  { numPlayers := 5, isUserPlayer := true, currentDay := 1,
    players := rosterOf [("", Role.Civilian), ("A", Role.Mafia), ("B", Role.Doctor),
      ("C", Role.Commissar), ("D", Role.Maniac)],
    playersToReveal := [], healedPlayers := [] }

/-- Draws of the first day on `eofStart`: everybody but D draws D, so D is
eliminated. -/
def eofDay : Chance := storedOrder (fun _ => uniformChoice 3 0) (fun _ => 0)

/-- The state of the game on `eofStart` at its first night. -/
def eofGame : GameMaster := runPhase eofStart (Phase.day eofDay)

/-- Draws of the first night on `eofGame`: A decides (kill, nameless), B
decides (heal, B) and C decides (check, nameless). -/
def eofNight : Chance :=
  storedOrder (fun i => if i = 2 then uniformChoice 1 0 else uniformChoice 0 0) (fun _ => 0)

/-- A setup of five automated participants from a name source that holds the
name X twice. The roster it yields is X Civilian, X Bull, M Maniac, D Doctor,
C Commissar. -/
def dupSetup : SetupInput :=
  { names := ["X", "X", "M", "D", "C"], shuffle := fun l => l,
    shuffle_perm := fun l => List.Perm.refl l, playerName := "", role := "",
    draws := fun k =>
      match k with
      | 0 => (4, 0)
      | 1 => (0, 1)
      | 2 => (2, 0)
      | _ => (0, 0) }

/-- The game the constructor builds from `dupSetup`. -/
def dupStart : GameMaster :=
  { numPlayers := 5, isUserPlayer := false, currentDay := 1,
    players := rosterOf [("X", Role.Civilian), ("X", Role.Bull), ("M", Role.Maniac),
      ("D", Role.Doctor), ("C", Role.Commissar)],
    playersToReveal := [], healedPlayers := [] }

/-- Draws of the first day on `dupStart`: everybody but C draws C, so C is
eliminated. -/
def dupDay : Chance := storedOrder (fun _ => uniformChoice 3 0) (fun _ => 0)

/-- The state of the game on `dupStart` at its first night. -/
def dupGame : GameMaster := runPhase dupStart (Phase.day dupDay)

/-- Draws of the first night on `dupGame`: the Bull decides (kill, D), the
Maniac draws the Bull and decides (kill, X), and D decides (heal, D). -/
def dupNight : Chance :=
  storedOrder (fun i =>
    match i with
    | 1 => uniformChoice 2 0
    | 2 => uniformChoice 1 0
    | _ => uniformChoice 3 0)
    (fun _ => 0)

/-- A setup of five automated participants from a name source that holds the
name X twice. The roster it yields is X Civilian, X Commissar, K Killer,
D Doctor, M Maniac. -/
def twinSetup : SetupInput :=
  { names := ["X", "X", "K", "D", "M"], shuffle := fun l => l,
    shuffle_perm := fun l => List.Perm.refl l, playerName := "", role := "",
    draws := fun k =>
      match k with
      | 0 => (4, 0)
      | 1 => (2, 0)
      | 2 => (0, 3)
      | _ => (0, 0) }

/-- The game the constructor builds from `twinSetup`. -/
def twinStart : GameMaster :=
  { numPlayers := 5, isUserPlayer := false, currentDay := 1,
    players := rosterOf [("X", Role.Civilian), ("X", Role.Commissar), ("K", Role.Killer),
      ("D", Role.Doctor), ("M", Role.Maniac)],
    playersToReveal := [], healedPlayers := [] }

/-- Draws of the first day on `twinStart`: every vote is for the name X, so
the first participant of that name, the Civilian, is eliminated. -/
def twinDay : Chance := storedOrder (fun _ => uniformChoice 0 0) (fun _ => 0)

/-- The state of the game on `twinStart` at its first night. -/
def twinGame : GameMaster := runPhase twinStart (Phase.day twinDay)

/-- Draws of the first night on `twinGame`: the Commissar X decides
(check, K), the Killer draws the Commissar and decides (kill, X), D decides
(heal, D) and M decides (kill, D). -/
def twinNight : Chance :=
  storedOrder (fun i =>
    match i with
    | 1 => uniformChoice 0 0
    | 2 => uniformChoice 0 0
    | _ => uniformChoice 2 0)
    (fun _ => 0)

/-! # Verified properties -/

/-! ## Win evaluator -/

theorem mafiaAlive_eq_length_filter (players : List Player) :
    mafiaAlive players = (players.filter (fun p => p.alive &&
      (p.role == Role.Mafia || p.role == Role.Bull || p.role == Role.Ninja
        || p.role == Role.Killer))).length := by
  unfold mafiaAlive
  rw [List.countP_eq_length_filter]
  congr 2
  funext p
  cases hr : p.role <;> simp [Player.isMafia, hr]

theorem otherAlive_eq_length_filter (players : List Player) :
    otherAlive players = (players.filter (fun p => p.alive &&
      (p.role == Role.Civilian || p.role == Role.Doctor || p.role == Role.Commissar))).length := by
  unfold otherAlive
  rw [List.countP_eq_length_filter]
  congr 2
  funext p
  cases hr : p.role <;> simp [Player.isMafia, Player.isManiac, hr]

theorem maniacAlive_eq_length_filter (players : List Player) :
    maniacAlive players
      = (players.filter (fun p => p.alive && (p.role == Role.Maniac))).length := by
  unfold maniacAlive
  rw [List.countP_eq_length_filter]
  rfl

theorem winEvaluator_mafia (m o n : Nat) :
    winEvaluator m o n = some Winner.MafiaWin ↔ (m > o ∨ (m = o ∧ n = 0)) := by
  unfold winEvaluator
  split_ifs <;> simp_all

theorem winEvaluator_civilian (m o n : Nat) :
    winEvaluator m o n = some Winner.CivilianWin ↔
      (¬ m > o ∧ ¬ (m = o ∧ n = 0) ∧ m = 0 ∧ n = 0) := by
  unfold winEvaluator
  split_ifs <;> simp_all

theorem winEvaluator_maniac (m o n : Nat) :
    winEvaluator m o n = some Winner.ManiacWin ↔
      (¬ m > o ∧ ¬ (m = o ∧ n = 0) ∧ ¬ (m = 0 ∧ n = 0) ∧ n = 1 ∧ m = 0 ∧ o = 1) := by
  unfold winEvaluator
  split_ifs <;> simp_all

theorem winEvaluator_none (m o n : Nat) :
    winEvaluator m o n = none ↔
      (¬ m > o ∧ ¬ (m = o ∧ n = 0) ∧ ¬ (m = 0 ∧ n = 0) ∧ ¬ (n = 1 ∧ m = 0 ∧ o = 1)) := by
  unfold winEvaluator
  split_ifs <;> simp_all

theorem isGameOver_eq_true (players : List Player) :
    isGameOver players = true ↔ announcedWinner players ≠ none := by
  unfold isGameOver
  cases announcedWinner players <;> simp

/-- C1: `isGameOver` counts the living Mafia-family participants (Mafia, Bull,
Ninja, Killer), the living Maniacs and the other living participants from the
current liveness flags and applies the four win rules in order, first match
wins: Mafia if `mafiaAlive > otherAlive`; else Mafia if the two are equal and
no Maniac lives; else Civilians if no Mafia and no Maniac lives; else Maniac if
exactly one Maniac, no Mafia and one other live; else no winner. It returns
`true` exactly when one of the four rules matches. -/
theorem isGameOver_first_match (players : List Player) :
    (mafiaAlive players = (players.filter (fun p => p.alive &&
        (p.role == Role.Mafia || p.role == Role.Bull || p.role == Role.Ninja
          || p.role == Role.Killer))).length
      ∧ maniacAlive players
        = (players.filter (fun p => p.alive && (p.role == Role.Maniac))).length
      ∧ otherAlive players = (players.filter (fun p => p.alive &&
        (p.role == Role.Civilian || p.role == Role.Doctor
          || p.role == Role.Commissar))).length)
    ∧ (announcedWinner players = some Winner.MafiaWin ↔
        (mafiaAlive players > otherAlive players
          ∨ (mafiaAlive players = otherAlive players ∧ maniacAlive players = 0)))
    ∧ (announcedWinner players = some Winner.CivilianWin ↔
        (¬ mafiaAlive players > otherAlive players
          ∧ ¬ (mafiaAlive players = otherAlive players ∧ maniacAlive players = 0)
          ∧ mafiaAlive players = 0 ∧ maniacAlive players = 0))
    ∧ (announcedWinner players = some Winner.ManiacWin ↔
        (¬ mafiaAlive players > otherAlive players
          ∧ ¬ (mafiaAlive players = otherAlive players ∧ maniacAlive players = 0)
          ∧ ¬ (mafiaAlive players = 0 ∧ maniacAlive players = 0)
          ∧ maniacAlive players = 1 ∧ mafiaAlive players = 0 ∧ otherAlive players = 1))
    ∧ (announcedWinner players = none ↔
        (¬ mafiaAlive players > otherAlive players
          ∧ ¬ (mafiaAlive players = otherAlive players ∧ maniacAlive players = 0)
          ∧ ¬ (mafiaAlive players = 0 ∧ maniacAlive players = 0)
          ∧ ¬ (maniacAlive players = 1 ∧ mafiaAlive players = 0 ∧ otherAlive players = 1)))
    ∧ (isGameOver players = false ↔ announcedWinner players = none)
    ∧ (isGameOver players = true ↔
        (mafiaAlive players > otherAlive players
          ∨ (mafiaAlive players = otherAlive players ∧ maniacAlive players = 0)
          ∨ (mafiaAlive players = 0 ∧ maniacAlive players = 0)
          ∨ (maniacAlive players = 1 ∧ mafiaAlive players = 0 ∧ otherAlive players = 1))) := by
  refine ⟨⟨mafiaAlive_eq_length_filter players, maniacAlive_eq_length_filter players,
    otherAlive_eq_length_filter players⟩, winEvaluator_mafia _ _ _, winEvaluator_civilian _ _ _,
    winEvaluator_maniac _ _ _, winEvaluator_none _ _ _, ?_, ?_⟩
  · have h := isGameOver_eq_true players
    cases hg : isGameOver players <;> simp_all
  · rw [isGameOver_eq_true, Ne, show announcedWinner players = none ↔ _ from
      winEvaluator_none _ _ _]
    omega

/-- C2: the outcomes of the win evaluator at the four sample counts. Every
roster with 3 living Mafia, 2 others and no Maniac is a Mafia win; every roster
with no Mafia, no Maniac and at least one other is a Civilian win; every roster
with one Maniac, no Mafia and one other is a Maniac win; every roster with one
Mafia, three others and one Maniac has no winner and the game continues. -/
theorem winEvaluator_samples :
    (∀ players : List Player, mafiaAlive players = 3 → otherAlive players = 2 →
        maniacAlive players = 0 →
        announcedWinner players = some Winner.MafiaWin ∧ isGameOver players = true)
    ∧ (∀ players : List Player, mafiaAlive players = 0 → maniacAlive players = 0 →
        1 ≤ otherAlive players →
        announcedWinner players = some Winner.CivilianWin ∧ isGameOver players = true)
    ∧ (∀ players : List Player, maniacAlive players = 1 → mafiaAlive players = 0 →
        otherAlive players = 1 →
        announcedWinner players = some Winner.ManiacWin ∧ isGameOver players = true)
    ∧ (∀ players : List Player, mafiaAlive players = 1 → otherAlive players = 3 →
        maniacAlive players = 1 →
        announcedWinner players = none ∧ isGameOver players = false) := by
  refine ⟨?_, ?_, ?_, ?_⟩
  · intro players hm ho hn
    have h : announcedWinner players = some Winner.MafiaWin := by
      unfold announcedWinner; rw [hm, ho, hn]; rfl
    exact ⟨h, by unfold isGameOver; rw [h]⟩
  · intro players hm hn ho
    have h : announcedWinner players = some Winner.CivilianWin := by
      unfold announcedWinner
      rw [winEvaluator_civilian]
      omega
    exact ⟨h, by unfold isGameOver; rw [h]⟩
  · intro players hn hm ho
    have h : announcedWinner players = some Winner.ManiacWin := by
      unfold announcedWinner; rw [hm, ho, hn]; rfl
    exact ⟨h, by unfold isGameOver; rw [h]⟩
  · intro players hm ho hn
    have h : announcedWinner players = none := by
      unfold announcedWinner; rw [hm, ho, hn]; rfl
    exact ⟨h, by unfold isGameOver; rw [h]⟩

/-- Witness for C2: the four sample outcomes on concrete rosters. -/
theorem winEvaluator_samples_witness :
    (announcedWinner sampleMafiaWin = some Winner.MafiaWin ∧ isGameOver sampleMafiaWin = true)
    ∧ (announcedWinner sampleCivilianWin = some Winner.CivilianWin
        ∧ isGameOver sampleCivilianWin = true)
    ∧ (announcedWinner sampleManiacWin = some Winner.ManiacWin
        ∧ isGameOver sampleManiacWin = true)
    ∧ (announcedWinner sampleContinue = none ∧ isGameOver sampleContinue = false) :=
  ⟨winEvaluator_samples.1 sampleMafiaWin (by decide) (by decide) (by decide),
   winEvaluator_samples.2.1 sampleCivilianWin (by decide) (by decide) (by decide),
   winEvaluator_samples.2.2.1 sampleManiacWin (by decide) (by decide) (by decide),
   winEvaluator_samples.2.2.2 sampleContinue (by decide) (by decide) (by decide)⟩

/-! ## Tie-break -/

theorem tieBreakStep_maxVotes_le (coins : Nat → Nat) (st : Leader) (e : String × Nat) :
    st.maxVotes ≤ (tieBreakStep coins st e).maxVotes ∧ e.2 ≤ (tieBreakStep coins st e).maxVotes := by
  unfold tieBreakStep
  split_ifs <;> simp <;> omega

theorem tieBreakStep_name (coins : Nat → Nat) (st : Leader) (e : String × Nat) :
    ((tieBreakStep coins st e).name = st.name ∧ (tieBreakStep coins st e).maxVotes = st.maxVotes)
      ∨ ((tieBreakStep coins st e).name = e.1 ∧ (tieBreakStep coins st e).maxVotes = e.2) := by
  unfold tieBreakStep
  split_ifs with h1 h2 h3 <;> simp
  exact Or.inr h2.symm

/-- Invariant of the tie-break loop from any starting state: the leader is the
starting leader with the starting maximum, or an entry of the list carrying the
current maximum; the maximum bounds the starting maximum and every entry. -/
theorem foldl_tieBreakStep (coins : Nat → Nat) (entries : List (String × Nat)) :
    ∀ st : Leader,
      (((entries.foldl (tieBreakStep coins) st).name = st.name
          ∧ (entries.foldl (tieBreakStep coins) st).maxVotes = st.maxVotes)
        ∨ ((entries.foldl (tieBreakStep coins) st).name,
            (entries.foldl (tieBreakStep coins) st).maxVotes) ∈ entries)
      ∧ st.maxVotes ≤ (entries.foldl (tieBreakStep coins) st).maxVotes
      ∧ ∀ e ∈ entries, e.2 ≤ (entries.foldl (tieBreakStep coins) st).maxVotes := by
  induction entries with
  | nil => intro st; simp
  | cons e rest ih =>
    intro st
    simp only [List.foldl_cons]
    obtain ⟨h1, h2, h3⟩ := ih (tieBreakStep coins st e)
    obtain ⟨hs1, hs2⟩ := tieBreakStep_maxVotes_le coins st e
    refine ⟨?_, by omega, ?_⟩
    · rcases h1 with ⟨hn, hm⟩ | hmem
      · rcases tieBreakStep_name coins st e with ⟨hn', hm'⟩ | ⟨hn', hm'⟩
        · left; exact ⟨hn.trans hn', hm.trans hm'⟩
        · right
          rw [hn, hm, hn', hm']
          exact List.mem_cons_self _ _
      · right; exact List.mem_cons_of_mem _ hmem
    · intro x hx
      rcases List.mem_cons.1 hx with rfl | hx
      · omega
      · exact h3 x hx

/-- The tie-break loop over a list of entries: the result is the untouched
start (no name, maximum 0) or an entry of the list, and its maximum bounds
every count. -/
theorem tieBreak_result (coins : Nat → Nat) (entries : List (String × Nat)) :
    (((tieBreak coins entries).name = "" ∧ (tieBreak coins entries).maxVotes = 0)
      ∨ ((tieBreak coins entries).name, (tieBreak coins entries).maxVotes) ∈ entries)
    ∧ ∀ e ∈ entries, e.2 ≤ (tieBreak coins entries).maxVotes := by
  have h := foldl_tieBreakStep coins entries { name := "", maxVotes := 0, flips := 0 }
  exact ⟨h.1, h.2.2⟩

/-- The leader of a tie-break is the empty string or a key of the map. -/
theorem tieBreak_name_mem (coins : Nat → Nat) (entries : List (String × Nat)) :
    (tieBreak coins entries).name = "" ∨ (tieBreak coins entries).name ∈ entries.map Prod.fst := by
  rcases (tieBreak_result coins entries).1 with h | h
  · exact Or.inl h.1
  · exact Or.inr (List.mem_map_of_mem Prod.fst h)

/-- C3, amended: for a non-empty vote-count map `m` with every count at least
1, visited in any order `visit` (a permutation of its entries) with any values
`coins` of the coin flips, the tie-break loop selects a key of the map whose
count is the maximum count: the selected entry is in the map, no entry has a
larger count, the selected name carries no lower count, and the selected name
is not empty when no key of the map is empty. -/
theorem tieBreak_selects_top (m visit : List (String × Nat)) (coins : Nat → Nat)
    (hvisit : visit.Perm m) (hne : m ≠ []) (hpos : ∀ e ∈ m, 1 ≤ e.2)
    (hkeys : (m.map Prod.fst).Nodup) :
    ((tieBreak coins visit).name, (tieBreak coins visit).maxVotes) ∈ m
    ∧ (∀ e ∈ m, e.2 ≤ (tieBreak coins visit).maxVotes)
    ∧ (∀ e ∈ m, e.1 = (tieBreak coins visit).name → e.2 = (tieBreak coins visit).maxVotes)
    ∧ ((∀ e ∈ m, e.1 ≠ "") → (tieBreak coins visit).name ≠ "") := by
  obtain ⟨h1, h2⟩ := tieBreak_result coins visit
  have hbound : ∀ e ∈ m, e.2 ≤ (tieBreak coins visit).maxVotes :=
    fun e he => h2 e (hvisit.mem_iff.2 he)
  have hmem : ((tieBreak coins visit).name, (tieBreak coins visit).maxVotes) ∈ m := by
    rcases h1 with ⟨_, hz⟩ | h
    · obtain ⟨e, he⟩ := List.exists_mem_of_ne_nil m hne
      have := hpos e he
      have := hbound e he
      omega
    · exact hvisit.mem_iff.1 h
  refine ⟨hmem, hbound, ?_, ?_⟩
  · intro e he hname
    have := List.inj_on_of_nodup_map hkeys he hmem hname
    rw [this]
  · intro hk
    exact hk _ hmem

/-- Witness for C3: two names tied at two votes and one name with one vote,
visited in reverse order, every coin flip a win. -/
theorem tieBreak_selects_top_witness :
    ((tieBreak (fun _ => 0) [("C", 1), ("B", 2), ("A", 2)]).name,
        (tieBreak (fun _ => 0) [("C", 1), ("B", 2), ("A", 2)]).maxVotes)
      ∈ [("A", 2), ("B", 2), ("C", 1)]
    ∧ (∀ e ∈ [("A", 2), ("B", 2), ("C", 1)],
        e.2 ≤ (tieBreak (fun _ => 0) [("C", 1), ("B", 2), ("A", 2)]).maxVotes)
    ∧ (∀ e ∈ [("A", 2), ("B", 2), ("C", 1)],
        e.1 = (tieBreak (fun _ => 0) [("C", 1), ("B", 2), ("A", 2)]).name →
        e.2 = (tieBreak (fun _ => 0) [("C", 1), ("B", 2), ("A", 2)]).maxVotes)
    ∧ (tieBreak (fun _ => 0) [("C", 1), ("B", 2), ("A", 2)]).name ≠ "" :=
  have h := tieBreak_selects_top [("A", 2), ("B", 2), ("C", 1)] [("C", 1), ("B", 2), ("A", 2)]
    (fun _ => 0) (by decide) (by decide) (by decide) (by decide)
  ⟨h.1, h.2.1, h.2.2.1, h.2.2.2 (by decide)⟩

/-! ## Containers and roster updates -/

theorem length_updateAt (players : List Player) (i : Nat) (f : Player → Player) :
    (updateAt players i f).length = players.length := by
  induction players generalizing i with
  | nil => simp [updateAt]
  | cons p rest ih => cases i <;> simp [updateAt, ih]

theorem getElem?_updateAt (players : List Player) (i j : Nat) (f : Player → Player) :
    (updateAt players i f)[j]? = if j = i then players[j]?.map f else players[j]? := by
  induction players generalizing i j with
  | nil => simp [updateAt]
  | cons p rest ih =>
    cases i with
    | zero => cases j <;> simp [updateAt]
    | succ i => cases j <;> simp [updateAt, ih]

theorem map_updateAt {β : Type} (g : Player → β) (players : List Player) (i : Nat)
    (f : Player → Player) (h : ∀ p, g (f p) = g p) :
    (updateAt players i f).map g = players.map g := by
  induction players generalizing i with
  | nil => simp [updateAt]
  | cons p rest ih => cases i <;> simp [updateAt, ih, h]

theorem updateAt_congr (players : List Player) (i : Nat) (f g : Player → Player) (me : Player)
    (hme : players[i]? = some me) (h : f me = g me) :
    updateAt players i f = updateAt players i g := by
  induction players generalizing i with
  | nil => simp at hme
  | cons p rest ih =>
    cases i with
    | zero =>
      simp at hme
      subst hme
      simp [updateAt, h]
    | succ i =>
      simp at hme
      simp [updateAt, ih i hme]

theorem findPlayerByName_some {players : List Player} {name : String} {i : Nat}
    (h : findPlayerByName players name = some i) :
    ∃ p, players[i]? = some p ∧ p.playerName = name := by
  induction players generalizing i with
  | nil => simp [findPlayerByName] at h
  | cons p rest ih =>
    unfold findPlayerByName at h
    split_ifs at h with hp
    · simp at h
      subst h
      exact ⟨p, by simp, hp⟩
    · simp at h
      obtain ⟨j, hj, rfl⟩ := h
      obtain ⟨q, hq, hn⟩ := ih hj
      exact ⟨q, by simpa using hq, hn⟩

theorem findPlayerByName_none {players : List Player} {name : String} :
    findPlayerByName players name = none ↔ ∀ p ∈ players, p.playerName ≠ name := by
  induction players with
  | nil => simp [findPlayerByName]
  | cons p rest ih =>
    unfold findPlayerByName
    split_ifs with hp
    · simp [hp]
    · simp [ih, hp]

theorem findPlayerByName_map_eq (players players' : List Player) (name : String)
    (h : players.map Player.playerName = players'.map Player.playerName) :
    findPlayerByName players name = findPlayerByName players' name := by
  induction players generalizing players' with
  | nil =>
    cases players' with
    | nil => rfl
    | cons q rest' => simp at h
  | cons p rest ih =>
    cases players' with
    | nil => simp at h
    | cons q rest' =>
      simp at h
      unfold findPlayerByName
      rw [h.1, ih rest' h.2]

theorem findPlayerByName_of_nodup {players : List Player}
    (hnd : (players.map Player.playerName).Nodup) {i : Nat} {p : Player}
    (hp : players[i]? = some p) : findPlayerByName players p.playerName = some i := by
  induction players generalizing i with
  | nil => simp at hp
  | cons q rest ih =>
    simp at hnd
    cases i with
    | zero =>
      simp at hp
      subst hp
      simp [findPlayerByName]
    | succ i =>
      simp at hp
      have hmem : p ∈ rest := List.getElem?_mem hp
      have hne : q.playerName ≠ p.playerName := fun h => hnd.1 p hmem h.symm
      unfold findPlayerByName
      rw [if_neg hne, ih hnd.2 hp]
      rfl

theorem killPlayer_cons (p : Player) (rest : List Player) (name : String) :
    killPlayer (p :: rest) name =
      if p.playerName = name then p.die :: rest else p :: killPlayer rest name := by
  by_cases hp : p.playerName = name
  · simp [killPlayer, findPlayerByName, hp, updateAt]
  · simp only [killPlayer, findPlayerByName, if_neg hp]
    cases findPlayerByName rest name <;> simp [updateAt]

/-- With unique names, `killPlayer` marks dead exactly the participants of
that name. -/
theorem killPlayer_eq_map (players : List Player) (name : String)
    (hnd : (players.map Player.playerName).Nodup) :
    killPlayer players name
      = players.map (fun p => if p.playerName = name then p.die else p) := by
  induction players with
  | nil => rfl
  | cons p rest ih =>
    simp at hnd
    rw [killPlayer_cons]
    split_ifs with hp
    · simp only [List.map_cons, if_pos hp]
      congr 1
      symm
      conv_rhs => rw [← List.map_id rest]
      apply List.map_congr_left
      intro q hq
      have : q.playerName ≠ name := fun h => hnd.1 q hq (h.trans hp.symm)
      simp [this]
    · simp only [List.map_cons, if_neg hp, ih hnd.2]

theorem map_killPlayer {β : Type} (g : Player → β) (players : List Player) (name : String)
    (h : ∀ p, g p.die = g p) : (killPlayer players name).map g = players.map g := by
  unfold killPlayer
  cases findPlayerByName players name with
  | none => rfl
  | some i => exact map_updateAt g players i Player.die h

theorem mem_addPlayerToReveal (l : List String) (name x : String) :
    x ∈ addPlayerToReveal l name ↔ x ∈ l ∨ x = name := by
  unfold addPlayerToReveal
  split_ifs with h
  · constructor
    · exact Or.inl
    · rintro (h' | rfl)
      · exact h'
      · exact h
  · simp

theorem nodup_addPlayerToReveal (l : List String) (name : String) (h : l.Nodup) :
    (addPlayerToReveal l name).Nodup := by
  unfold addPlayerToReveal
  split_ifs with hm
  · exact h
  · rw [List.nodup_append]
    refine ⟨h, List.nodup_singleton _, ?_⟩
    intro a ha hb
    simp at hb
    subst hb
    exact hm ha

theorem mapIncrement_keys (m : List (String × Nat)) (k x : String) :
    x ∈ (mapIncrement m k).map Prod.fst ↔ x ∈ m.map Prod.fst ∨ x = k := by
  induction m with
  | nil => simp [mapIncrement]
  | cons e rest ih =>
    unfold mapIncrement
    split_ifs with he
    · simp only [List.map_cons, List.mem_cons]
      constructor
      · rintro (h | h)
        · exact Or.inl (Or.inl h)
        · exact Or.inl (Or.inr h)
      · rintro ((h | h) | h)
        · exact Or.inl h
        · exact Or.inr h
        · exact Or.inl (h.trans he.symm)
    · simp only [List.map_cons, List.mem_cons, ih]
      tauto

/-! ## Decision providers obey the filter -/

theorem getRandomPlayer_mem {candidates : List (Nat × Player)} {draw : Nat} {t : Nat × Player}
    (h : getRandomPlayer candidates draw = some t) : t ∈ candidates := by
  unfold getRandomPlayer at h
  split_ifs at h
  exact List.getElem?_mem h

theorem strategyVote_spec (k : StrategyKind) (players : List Player)
    (targetFilter : Nat × Player → Bool) (c : Choice) :
    strategyVote k players targetFilter c = ""
      ∨ ∃ e ∈ players.enum, targetFilter e = true
          ∧ e.2.playerName = strategyVote k players targetFilter c := by
  cases k with
  | Bot =>
    simp only [strategyVote, BotStrategy.vote]
    cases h : getRandomPlayer (List.filter targetFilter players.enum) c.pick with
    | none => left; rfl
    | some t =>
      right
      have hm := getRandomPlayer_mem h
      rw [List.mem_filter] at hm
      exact ⟨t, hm.1, hm.2, rfl⟩
  | User =>
    simp only [strategyVote, UserStrategy.vote]
    split_ifs with h
    · right
      rw [List.any_eq_true] at h
      obtain ⟨e, he, hc⟩ := h
      simp only [Bool.and_eq_true, beq_iff_eq] at hc
      exact ⟨e, he, hc.2, hc.1⟩
    · left; rfl

theorem strategyChooseAction_spec (k : StrategyKind) (players : List Player)
    (availableActions : List String) (targetFilter : Nat × Player → Bool) (c : Choice) :
    strategyChooseAction k players availableActions targetFilter c = ("", "")
      ∨ ((strategyChooseAction k players availableActions targetFilter c).1 ∈ availableActions
          ∧ ∃ e ∈ players.enum, targetFilter e = true
              ∧ e.2.playerName
                = (strategyChooseAction k players availableActions targetFilter c).2) := by
  cases k with
  | Bot =>
    simp only [strategyChooseAction, BotStrategy.chooseAction]
    cases h : getRandomPlayer (List.filter targetFilter players.enum) c.pick with
    | none => left; rfl
    | some t =>
      have hm := getRandomPlayer_mem h
      rw [List.mem_filter] at hm
      cases hacts : availableActions with
      | nil => left; rfl
      | cons a rest =>
        right
        simp only [List.isEmpty_cons, Bool.not_false, if_true]
        refine ⟨?_, t, hm.1, hm.2, rfl⟩
        have hlt : c.actionRand % (a :: rest).length < (a :: rest).length :=
          Nat.mod_lt _ (by simp)
        rw [List.getD_eq_getElem _ _ hlt]
        exact List.getElem_mem _
  | User =>
    simp only [strategyChooseAction, UserStrategy.chooseAction]
    split_ifs with h
    · right
      simp only [Bool.and_eq_true, List.any_eq_true, beq_iff_eq, List.contains_iff_exists_mem_beq] at h
      obtain ⟨⟨e, he, hn, hf⟩, a, ha, hb⟩ := h
      rw [hb]
      exact ⟨ha, e, he, hf, hn⟩
    · left; rfl

/-- A night decision is the abstention or an action of the role's vocabulary
on the name of a roster participant that passes the role's night filter. -/
theorem nightAction_decision (me : Player) (self : Nat) (players : List Player) (c : Choice) :
    (me.nightAction self players c).1 = ("", "")
      ∨ ((me.nightAction self players c).1.1 ∈ nightActions me.role
          ∧ ∃ j q, players[j]? = some q ∧ nightFilter self me (j, q) = true
              ∧ q.playerName = (me.nightAction self players c).1.2) := by
  have key := strategyChooseAction_spec me.strategy players (nightActions me.role)
    (nightFilter self me) c
  have conv : (∃ e ∈ players.enum, nightFilter self me e = true ∧ e.2.playerName
      = (strategyChooseAction me.strategy players (nightActions me.role)
          (nightFilter self me) c).2) →
      ∃ j q, players[j]? = some q ∧ nightFilter self me (j, q) = true ∧ q.playerName
        = (strategyChooseAction me.strategy players (nightActions me.role)
            (nightFilter self me) c).2 := by
    rintro ⟨⟨j, q⟩, he, hf, hn⟩
    exact ⟨j, q, List.mk_mem_enum_iff_getElem?.1 he, hf, hn⟩
  unfold Player.nightAction
  cases hr : me.role with
  | Civilian => left; rfl
  | Doctor =>
    simp only
    rw [hr] at key conv
    split_ifs
    · rcases key with h | ⟨h1, h2⟩
      · left; exact h
      · right; exact ⟨h1, conv h2⟩
    · rcases key with h | ⟨h1, h2⟩
      · left; exact h
      · right; exact ⟨h1, conv h2⟩
  | _ =>
    simp only
    rw [hr] at key conv
    rcases key with h | ⟨h1, h2⟩
    · left; exact h
    · right; exact ⟨h1, conv h2⟩

/-- The only field a night decision request writes is `lastHealed`, of a Doctor
whose returned action is `heal`. -/
theorem nightAction_object (me : Player) (self : Nat) (players : List Player) (c : Choice) :
    (me.nightAction self players c).2 =
      if me.role = Role.Doctor ∧ (me.nightAction self players c).1.1 = "heal"
      then { me with lastHealed := (me.nightAction self players c).1.2 } else me := by
  unfold Player.nightAction
  cases hr : me.role <;> simp
  split_ifs <;> simp_all

theorem nightAction_core (me : Player) (self : Nat) (players : List Player) (c : Choice) :
    (me.nightAction self players c).2.core = me.core := by
  rw [nightAction_object]
  split_ifs <;> rfl

theorem nightFilter_core (self : Nat) (me : Player) (j : Nat) (q q0 : Player)
    (h : q.core = q0.core) : nightFilter self me (j, q) = nightFilter self me (j, q0) := by
  simp only [Player.core, Prod.mk.injEq] at h
  obtain ⟨hn, ha, _, hr, _⟩ := h
  unfold nightFilter isAlliedWith Player.isMafia
  simp only [hn, ha, hr]

/-! ## Collecting the night decisions -/

theorem map_updateAt_at {β : Type} (g : Player → β) (players : List Player) (i : Nat)
    (f : Player → Player) (me : Player) (hme : players[i]? = some me) (h : g (f me) = g me) :
    (updateAt players i f).map g = players.map g := by
  induction players generalizing i with
  | nil => simp [updateAt]
  | cons p rest ih =>
    cases i with
    | zero =>
      simp at hme
      subst hme
      simp [updateAt, h]
    | succ i =>
      simp at hme
      simp [updateAt, ih i hme]

theorem getElem?_of_map_core {players players' : List Player}
    (h : players'.map Player.core = players.map Player.core) {j : Nat} {q : Player}
    (hq : players'[j]? = some q) : ∃ q0, players[j]? = some q0 ∧ q.core = q0.core := by
  have h1 : (players'.map Player.core)[j]? = some q.core := by
    rw [List.getElem?_map, hq]; rfl
  rw [h, List.getElem?_map] at h1
  cases h0 : players[j]? with
  | none => rw [h0] at h1; simp at h1
  | some q0 =>
    rw [h0] at h1
    simp at h1
    exact ⟨q0, rfl, h1.symm⟩

theorem collectNight_core (choice : Nat → Choice) (alive : List Nat) :
    ∀ players : List Player,
      (collectNight choice alive players).2.map Player.core = players.map Player.core := by
  induction alive with
  | nil => intro players; rfl
  | cons i rest ih =>
    intro players
    unfold collectNight
    cases hme : players[i]? with
    | none => exact ih players
    | some me =>
      simp only
      rw [ih]
      exact map_updateAt_at Player.core players i _ me hme (nightAction_core me i players _)

theorem collectNight_fst (choice : Nat → Choice) (alive : List Nat) :
    ∀ (players : List Player) (e : Nat × (String × String)),
      e ∈ (collectNight choice alive players).1 → e.1 ∈ alive := by
  induction alive with
  | nil => intro players e h; simp [collectNight] at h
  | cons i rest ih =>
    intro players e h
    unfold collectNight at h
    cases hme : players[i]? with
    | none =>
      rw [hme] at h
      exact List.mem_cons_of_mem _ (ih players e h)
    | some me =>
      rw [hme] at h
      simp only [List.mem_cons] at h
      rcases h with rfl | h
      · exact List.mem_cons_self _ _
      · exact List.mem_cons_of_mem _ (ih _ e h)

/-- One decision per requested position, in the order of the requests. -/
theorem collectNight_positions (choice : Nat → Choice) (alive : List Nat) :
    ∀ players : List Player, (∀ i ∈ alive, i < players.length) →
      (collectNight choice alive players).1.map Prod.fst = alive := by
  induction alive with
  | nil => intro players _; rfl
  | cons i rest ih =>
    intro players hlt
    unfold collectNight
    have hi : i < players.length := hlt i (List.mem_cons_self _ _)
    rw [List.getElem?_eq_getElem hi]
    simp only [List.map_cons]
    rw [ih]
    intro j hj
    rw [length_updateAt]
    exact hlt j (List.mem_cons_of_mem _ hj)

/-- Every collected night decision is the abstention or, for the participant
that made it (as it was before the phase), an action of its vocabulary on the
name of a participant of the pre-phase roster that passes its night filter. -/
theorem collectNight_valid (choice : Nat → Choice) (alive : List Nat) :
    ∀ (players : List Player), alive.Nodup → ∀ (e : Nat × (String × String)),
      e ∈ (collectNight choice alive players).1 →
      ∃ p0, players[e.1]? = some p0
        ∧ (e.2 = ("", "")
            ∨ (e.2.1 ∈ nightActions p0.role
                ∧ ∃ j q, players[j]? = some q ∧ nightFilter e.1 p0 (j, q) = true
                    ∧ q.playerName = e.2.2)) := by
  induction alive with
  | nil => intro players _ e h; simp [collectNight] at h
  | cons i rest ih =>
    intro players hnd e h
    rw [List.nodup_cons] at hnd
    unfold collectNight at h
    cases hme : players[i]? with
    | none =>
      rw [hme] at h
      exact ih players hnd.2 e h
    | some me =>
      rw [hme] at h
      simp only [List.mem_cons] at h
      rcases h with rfl | h
      · exact ⟨me, hme, nightAction_decision me i players (choice i)⟩
      · have hcore : (updateAt players i
            (fun _ => (me.nightAction i players (choice i)).2)).map Player.core
              = players.map Player.core :=
          map_updateAt_at Player.core players i _ me hme (nightAction_core me i players _)
        have hne : e.1 ≠ i := by
          intro heq
          exact hnd.1 (heq ▸ collectNight_fst choice rest _ e h)
        obtain ⟨p1, hp1, hd⟩ := ih _ hnd.2 e h
        rw [getElem?_updateAt, if_neg hne] at hp1
        refine ⟨p1, hp1, ?_⟩
        rcases hd with hd | ⟨ha, j, q, hq, hf, hn⟩
        · exact Or.inl hd
        · obtain ⟨q0, hq0, hqc⟩ := getElem?_of_map_core hcore hq
          refine Or.inr ⟨ha, j, q0, hq0, ?_, ?_⟩
          · rw [← nightFilter_core e.1 p1 j q q0 hqc]; exact hf
          · rw [← hn]
            have := congrArg Prod.fst hqc
            exact this.symm

/-- After the night tasks have run, a participant that returned a decision has
`lastHealed` set to the target if it is a Doctor that returned `heal`, and is
otherwise unchanged; a participant that was not asked is unchanged. -/
theorem collectNight_object (choice : Nat → Choice) (alive : List Nat) :
    ∀ (players : List Player), alive.Nodup → ∀ (i : Nat) (p0 : Player),
      players[i]? = some p0 →
      (∀ d, (i, d) ∈ (collectNight choice alive players).1 →
        (collectNight choice alive players).2[i]? = some
          (if p0.role = Role.Doctor ∧ d.1 = "heal" then { p0 with lastHealed := d.2 } else p0))
      ∧ (i ∉ alive → (collectNight choice alive players).2[i]? = some p0) := by
  induction alive with
  | nil =>
    intro players _ i p0 hp0
    simp [collectNight, hp0]
  | cons k rest ih =>
    intro players hnd i p0 hp0
    rw [List.nodup_cons] at hnd
    unfold collectNight
    cases hme : players[k]? with
    | none =>
      simp only
      obtain ⟨h1, h2⟩ := ih players hnd.2 i p0 hp0
      exact ⟨h1, fun hni => h2 (fun hm => hni (List.mem_cons_of_mem _ hm))⟩
    | some me =>
      simp only
      constructor
      · intro d hd
        rw [List.mem_cons] at hd
        rcases hd with heq | hd
        · simp only [Prod.mk.injEq] at heq
          obtain ⟨rfl, rfl⟩ := heq
          rw [hme] at hp0
          simp only [Option.some.injEq] at hp0
          subst hp0
          have hk : (updateAt players i
              (fun _ => (me.nightAction i players (choice i)).2))[i]?
                = some (me.nightAction i players (choice i)).2 := by
            rw [getElem?_updateAt, if_pos rfl, hme]; rfl
          rw [(ih _ hnd.2 i _ hk).2 hnd.1]
          rw [nightAction_object]
        · have hik : i ≠ k := by
            intro h
            subst h
            exact hnd.1 (collectNight_fst choice rest _ _ hd)
          have hk : (updateAt players k
              (fun _ => (me.nightAction k players (choice k)).2))[i]? = some p0 := by
            rw [getElem?_updateAt, if_neg hik, hp0]
          exact (ih _ hnd.2 i p0 hk).1 d hd
      · intro hni
        rw [List.mem_cons, not_or] at hni
        have hk : (updateAt players k
            (fun _ => (me.nightAction k players (choice k)).2))[i]? = some p0 := by
          rw [getElem?_updateAt, if_neg hni.1, hp0]
        exact (ih _ hnd.2 i p0 hk).2 hni.2

theorem mem_aliveIndices (players : List Player) (i : Nat) :
    i ∈ aliveIndices players ↔ ∃ p, players[i]? = some p ∧ p.alive = true := by
  unfold aliveIndices alivePlayers
  simp only [List.mem_map, List.mem_filter]
  constructor
  · rintro ⟨⟨j, p⟩, ⟨he, ha⟩, rfl⟩
    exact ⟨p, List.mk_mem_enum_iff_getElem?.1 he, ha⟩
  · rintro ⟨p, hp, ha⟩
    exact ⟨(i, p), ⟨List.mk_mem_enum_iff_getElem?.2 hp, ha⟩, rfl⟩

theorem nodup_aliveIndices (players : List Player) : (aliveIndices players).Nodup := by
  unfold aliveIndices alivePlayers
  have h : (players.enum.map Prod.fst).Nodup := by
    rw [List.enum_map_fst]
    exact List.nodup_range _
  exact ((List.filter_sublist _).map Prod.fst).nodup h

/-! ## Classification of the night decisions -/

/-- The effect of one classification step: nothing changes, or exactly one of
the five assignments of the loop body is made, under the tests that guard it. -/
theorem classify_cases (players : List Player) (v : NightVars) (e : Nat × (String × String)) :
    classify players v e = v
    ∨ ∃ me, players[e.1]? = some me ∧
      ((e.2.1 = "kill" ∧ me.isMafia = true ∧ me.isKiller = false
          ∧ classify players v e = { v with mafiaVotes := mapIncrement v.mafiaVotes e.2.2 })
      ∨ (e.2.1 = "kill" ∧ me.isKiller = true
          ∧ classify players v e = { v with killerVictim := e.2.2 })
      ∨ (e.2.1 = "kill" ∧ me.isManiac = true
          ∧ (∀ i p, findPlayerByName players e.2.2 = some i → players[i]? = some p →
              p.isBull = false)
          ∧ classify players v e = { v with maniacVictim := e.2.2 })
      ∨ ((e.2.1 = "kill" ∨ e.2.1 = "check") ∧ me.isCommissar = true
          ∧ classify players v e =
              { v with commissarPlayer := some e.1, commissarAction := e.2.1,
                       commissarTarget := e.2.2 })
      ∨ (e.2.1 = "heal" ∧ me.isDoctor = true
          ∧ classify players v e = { v with doctorHeal := e.2.2 })) := by
  unfold classify
  cases hme : players[e.1]? with
  | none => left; rfl
  | some me =>
    simp only
    by_cases hk : e.2.1 = "kill"
    · rw [if_pos hk]
      by_cases h1 : (me.isMafia && !me.isKiller) = true
      · rw [if_pos h1]
        simp only [Bool.and_eq_true, Bool.not_eq_true'] at h1
        exact Or.inr ⟨me, rfl, Or.inl ⟨hk, h1.1, h1.2, rfl⟩⟩
      · rw [if_neg h1]
        by_cases h2 : me.isKiller = true
        · rw [if_pos h2]
          exact Or.inr ⟨me, rfl, Or.inr (Or.inl ⟨hk, h2, rfl⟩)⟩
        · rw [if_neg h2]
          by_cases h3 : me.isManiac = true
          · rw [if_pos h3]
            cases hf : findPlayerByName players e.2.2 with
            | none =>
              exact Or.inr ⟨me, rfl, Or.inr (Or.inr (Or.inl ⟨hk, h3, by simp, rfl⟩))⟩
            | some victim =>
              simp only
              cases hv : players[victim]? with
              | none =>
                refine Or.inr ⟨me, rfl, Or.inr (Or.inr (Or.inl ⟨hk, h3, ?_, rfl⟩))⟩
                intro i p hi hp
                simp only [Option.some.injEq] at hi
                subst hi
                rw [hv] at hp
                simp at hp
              | some vp =>
                simp only
                by_cases hb : vp.isBull = true
                · rw [if_pos hb]; left; rfl
                · rw [if_neg hb]
                  refine Or.inr ⟨me, rfl, Or.inr (Or.inr (Or.inl ⟨hk, h3, ?_, rfl⟩))⟩
                  intro i p hi hp
                  simp only [Option.some.injEq] at hi
                  subst hi
                  rw [hv] at hp
                  simp only [Option.some.injEq] at hp
                  subst hp
                  simpa using hb
          · rw [if_neg h3]
            by_cases h4 : me.isCommissar = true
            · rw [if_pos h4]
              exact Or.inr ⟨me, rfl, Or.inr (Or.inr (Or.inr (Or.inl ⟨Or.inl hk, h4, rfl⟩)))⟩
            · rw [if_neg h4]; left; rfl
    · rw [if_neg hk]
      by_cases h5 : e.2.1 = "heal" ∧ me.isDoctor = true
      · rw [if_pos h5]
        exact Or.inr ⟨me, rfl, Or.inr (Or.inr (Or.inr (Or.inr ⟨h5.1, h5.2, rfl⟩)))⟩
      · rw [if_neg h5]
        by_cases h6 : e.2.1 = "check" ∧ me.isCommissar = true
        · rw [if_pos h6]
          exact Or.inr ⟨me, rfl, Or.inr (Or.inr (Or.inr (Or.inl ⟨Or.inr h6.1, h6.2, rfl⟩)))⟩
        · rw [if_neg h6]; left; rfl

/-- Induction principle for the classification loop: a property of the local
variables that holds initially and is kept by the step on every entry of the
batch holds at the end. -/
theorem foldl_classify_induction (players : List Player) (P : NightVars → Prop)
    (batch : List (Nat × (String × String)))
    (hstep : ∀ v e, e ∈ batch → P v → P (classify players v e)) :
    ∀ v0, P v0 → P (batch.foldl (classify players) v0) := by
  induction batch with
  | nil => intro v0 h; exact h
  | cons e rest ih =>
    intro v0 h
    simp only [List.foldl_cons]
    exact ih (fun v x hx hv => hstep v x (List.mem_cons_of_mem _ hx) hv) _
      (hstep v0 e (List.mem_cons_self _ _) h)

/-! ## Applying the deaths of a night -/

theorem markDead_nil (players : List Player) : markDead [] players = players := by
  simp [markDead]

theorem markDead_markDead (k1 k2 : List String) (players : List Player) :
    markDead k2 (markDead k1 players) = markDead (k1 ++ k2) players := by
  unfold markDead
  rw [List.map_map]
  apply List.map_congr_left
  intro p _
  simp only [Function.comp, List.mem_append]
  by_cases h1 : p.playerName ∈ k1 <;> by_cases h2 : p.playerName ∈ k2 <;>
    simp [h1, h2, Player.die]

theorem map_playerName_markDead (k : List String) (players : List Player) :
    (markDead k players).map Player.playerName = players.map Player.playerName := by
  unfold markDead
  rw [List.map_map]
  apply List.map_congr_left
  intro p _
  simp only [Function.comp]
  split_ifs <;> rfl

theorem killPlayer_eq_markDead (players : List Player) (name : String)
    (hnd : (players.map Player.playerName).Nodup) :
    killPlayer players name = markDead [name] players := by
  rw [killPlayer_eq_map players name hnd]
  simp [markDead]

theorem mem_killList (v : NightVars) (name : String) :
    name ∈ killList v ↔ queuedDeath v name := by
  unfold killList queuedDeath
  simp only [List.mem_append]
  constructor
  · rintro (((h | h) | h) | h)
    · split_ifs at h with hc
      · simp at h; subst h; exact ⟨hc.1, hc.2, Or.inl rfl⟩
      · simp at h
    · split_ifs at h with hc
      · simp at h; subst h; exact ⟨hc.1, hc.2, Or.inr (Or.inl rfl)⟩
      · simp at h
    · split_ifs at h with hc
      · simp at h; subst h; exact ⟨hc.1, hc.2, Or.inr (Or.inr (Or.inl rfl))⟩
      · simp at h
    · split_ifs at h with hc
      · simp at h; subst h; exact ⟨hc.1, hc.2.2, Or.inr (Or.inr (Or.inr ⟨hc.2.1, rfl⟩))⟩
      · simp at h
  · rintro ⟨hne, hh, h | h | h | ⟨ha, h⟩⟩
    · subst h
      left; left; left
      rw [if_pos ⟨hne, hh⟩]; simp
    · subst h
      left; left; right
      rw [if_pos ⟨hne, hh⟩]; simp
    · subst h
      left; right
      rw [if_pos ⟨hne, hh⟩]; simp
    · subst h
      right
      rw [if_pos ⟨hne, ha, hh⟩]; simp

theorem recordSaved_players (v : NightVars) (s : GameMaster) :
    (recordSaved v s).players = s.players
      ∧ (recordSaved v s).playersToReveal = s.playersToReveal := by
  unfold recordSaved
  split_ifs <;> exact ⟨rfl, rfl⟩

theorem killUnlessHealed_players (v : NightVars) (x : String) (s : GameMaster)
    (hnd : (s.players.map Player.playerName).Nodup) :
    (killUnlessHealed v x s).players
      = markDead (if x ≠ "" ∧ x ≠ v.doctorHeal then [x] else []) s.players := by
  unfold killUnlessHealed
  split_ifs with h
  · simp only [killAndReveal]
    exact killPlayer_eq_markDead _ _ hnd
  · rw [markDead_nil]

theorem killUnlessHealed_reveal (v : NightVars) (x : String) (s : GameMaster) :
    (killUnlessHealed v x s).playersToReveal
      = (if x ≠ "" ∧ x ≠ v.doctorHeal then [x] else []).foldl addPlayerToReveal
          s.playersToReveal := by
  unfold killUnlessHealed
  split_ifs with h <;> simp [killAndReveal]

theorem killUnlessHealed_healed (v : NightVars) (x : String) (s : GameMaster) :
    (killUnlessHealed v x s).healedPlayers = s.healedPlayers := by
  unfold killUnlessHealed
  split_ifs with h <;> simp [killAndReveal]

theorem commissarCheck_players (v : NightVars) (s : GameMaster) :
    ((commissarCheck v s).players = s.players
      ∨ ∃ c isMafia, (commissarCheck v s).players
          = updateAt s.players c (addCheckedPlayer v.commissarTarget isMafia))
    ∧ (commissarCheck v s).playersToReveal = s.playersToReveal
    ∧ (commissarCheck v s).healedPlayers = s.healedPlayers := by
  unfold commissarCheck
  cases findPlayerByName s.players v.commissarTarget with
  | none => exact ⟨Or.inl rfl, rfl, rfl⟩
  | some t =>
    simp only
    cases s.players[t]? with
    | none => exact ⟨Or.inl rfl, rfl, rfl⟩
    | some tp =>
      simp only
      cases v.commissarPlayer with
      | none => exact ⟨Or.inl rfl, rfl, rfl⟩
      | some c =>
        simp only
        cases s.players[c]? with
        | none => exact ⟨Or.inl rfl, rfl, rfl⟩
        | some cp =>
          simp only
          split_ifs
          · exact ⟨Or.inr ⟨c, _, rfl⟩, rfl, rfl⟩
          · exact ⟨Or.inl rfl, rfl, rfl⟩

theorem commissarResolve_players (v : NightVars) (s : GameMaster)
    (hnd : (s.players.map Player.playerName).Nodup) :
    ((commissarResolve v s).players
        = markDead (if v.commissarTarget ≠ "" ∧ v.commissarAction = "kill"
            ∧ v.commissarTarget ≠ v.doctorHeal then [v.commissarTarget] else []) s.players
      ∨ ∃ c isMafia, (commissarResolve v s).players
          = updateAt (markDead (if v.commissarTarget ≠ "" ∧ v.commissarAction = "kill"
              ∧ v.commissarTarget ≠ v.doctorHeal then [v.commissarTarget] else []) s.players)
              c (addCheckedPlayer v.commissarTarget isMafia)) := by
  unfold commissarResolve
  by_cases h1 : v.commissarTarget ≠ ""
  · rw [if_pos h1]
    by_cases h2 : v.commissarAction = "kill" ∧ v.commissarTarget ≠ v.doctorHeal
    · rw [if_pos h2, if_pos ⟨h1, h2.1, h2.2⟩]
      left
      exact killPlayer_eq_markDead _ _ hnd
    · have hk : (if v.commissarTarget ≠ "" ∧ v.commissarAction = "kill"
          ∧ v.commissarTarget ≠ v.doctorHeal then [v.commissarTarget] else [])
            = ([] : List String) := if_neg (fun h => h2 ⟨h.2.1, h.2.2⟩)
      rw [hk, markDead_nil, if_neg h2]
      split_ifs
      · rcases (commissarCheck_players v s).1 with h | h
        · exact Or.inl h
        · exact Or.inr h
      · exact Or.inl rfl
  · have hk : (if v.commissarTarget ≠ "" ∧ v.commissarAction = "kill"
        ∧ v.commissarTarget ≠ v.doctorHeal then [v.commissarTarget] else [])
          = ([] : List String) := if_neg (fun h => h1 h.1)
    rw [hk, markDead_nil, if_neg h1]
    exact Or.inl rfl

theorem commissarResolve_reveal (v : NightVars) (s : GameMaster) :
    (commissarResolve v s).playersToReveal
      = (if v.commissarTarget ≠ "" ∧ v.commissarAction = "kill"
          ∧ v.commissarTarget ≠ v.doctorHeal then [v.commissarTarget] else []).foldl
            addPlayerToReveal s.playersToReveal := by
  unfold commissarResolve
  by_cases h1 : v.commissarTarget ≠ ""
  · rw [if_pos h1]
    by_cases h2 : v.commissarAction = "kill" ∧ v.commissarTarget ≠ v.doctorHeal
    · rw [if_pos h2, if_pos ⟨h1, h2.1, h2.2⟩]
      simp [killAndReveal]
    · have hk : (if v.commissarTarget ≠ "" ∧ v.commissarAction = "kill"
          ∧ v.commissarTarget ≠ v.doctorHeal then [v.commissarTarget] else [])
            = ([] : List String) := if_neg (fun h => h2 ⟨h.2.1, h.2.2⟩)
      rw [hk, if_neg h2]
      split_ifs
      · exact (commissarCheck_players v s).2.1
      · rfl
  · have hk : (if v.commissarTarget ≠ "" ∧ v.commissarAction = "kill"
        ∧ v.commissarTarget ≠ v.doctorHeal then [v.commissarTarget] else [])
          = ([] : List String) := if_neg (fun h => h1 h.1)
    rw [hk, if_neg h1]
    rfl

/-- The roster after the resolution of a night over unique names: every
participant whose name was passed to `killPlayer` is dead, and at most one
object has received a knowledge-map entry. -/
theorem resolveNight_players (v : NightVars) (s : GameMaster)
    (hnd : (s.players.map Player.playerName).Nodup) :
    (resolveNight v s).players = markDead (killList v) s.players
      ∨ ∃ c isMafia, (resolveNight v s).players
          = updateAt (markDead (killList v) s.players) c
              (addCheckedPlayer v.commissarTarget isMafia) := by
  unfold resolveNight
  have e0 := (recordSaved_players v s).1
  have e1 := killUnlessHealed_players v v.mafiaVictim (recordSaved v s) (by rw [e0]; exact hnd)
  rw [e0] at e1
  have e2 := killUnlessHealed_players v v.killerVictim
    (killUnlessHealed v v.mafiaVictim (recordSaved v s))
    (by rw [e1, map_playerName_markDead]; exact hnd)
  rw [e1, markDead_markDead] at e2
  have e3 := killUnlessHealed_players v v.maniacVictim
    (killUnlessHealed v v.killerVictim (killUnlessHealed v v.mafiaVictim (recordSaved v s)))
    (by rw [e2, map_playerName_markDead]; exact hnd)
  rw [e2, markDead_markDead] at e3
  have e4 := commissarResolve_players v
    (killUnlessHealed v v.maniacVictim
      (killUnlessHealed v v.killerVictim (killUnlessHealed v v.mafiaVictim (recordSaved v s))))
    (by rw [e3, map_playerName_markDead]; exact hnd)
  rw [e3, markDead_markDead] at e4
  exact e4

theorem resolveNight_reveal (v : NightVars) (s : GameMaster) :
    (resolveNight v s).playersToReveal
      = (killList v).foldl addPlayerToReveal s.playersToReveal := by
  unfold resolveNight killList
  rw [commissarResolve_reveal, killUnlessHealed_reveal, killUnlessHealed_reveal,
    killUnlessHealed_reveal, (recordSaved_players v s).2, List.foldl_append, List.foldl_append,
    List.foldl_append]

theorem foldl_addPlayerToReveal (names : List String) :
    ∀ l : List String, (∀ x, x ∈ names.foldl addPlayerToReveal l ↔ x ∈ l ∨ x ∈ names)
      ∧ (l.Nodup → (names.foldl addPlayerToReveal l).Nodup) := by
  induction names with
  | nil => intro l; simp
  | cons n rest ih =>
    intro l
    simp only [List.foldl_cons]
    obtain ⟨h1, h2⟩ := ih (addPlayerToReveal l n)
    refine ⟨fun x => ?_, fun hl => h2 (nodup_addPlayerToReveal l n hl)⟩
    rw [h1, mem_addPlayerToReveal, List.mem_cons]
    tauto

/-! ## The joined batch of a night -/

theorem nightRoster_core (ch : Chance) (s : GameMaster) :
    (nightRoster ch s).map Player.core = s.players.map Player.core :=
  collectNight_core ch.choice (aliveIndices s.players) s.players

theorem nightRoster_names (ch : Chance) (s : GameMaster) :
    (nightRoster ch s).map Player.playerName = s.players.map Player.playerName := by
  have h := congrArg (List.map Prod.fst) (nightRoster_core ch s)
  simpa [List.map_map, Function.comp, Player.core] using h

theorem nightRoster_getElem? (ch : Chance) (s : GameMaster) {i : Nat} {p : Player}
    (hp : s.players[i]? = some p) :
    ∃ p1, (nightRoster ch s)[i]? = some p1 ∧ p1.core = p.core := by
  have h1 : (s.players.map Player.core)[i]? = some p.core := by
    rw [List.getElem?_map, hp]; rfl
  rw [← nightRoster_core ch s, List.getElem?_map] at h1
  cases h0 : (nightRoster ch s)[i]? with
  | none => rw [h0] at h1; simp at h1
  | some p1 =>
    rw [h0] at h1
    simp at h1
    exact ⟨p1, rfl, h1⟩

/-- The batch holds one decision for each living participant, in roster order. -/
theorem nightDecisions_positions (ch : Chance) (s : GameMaster) :
    (nightDecisions ch s).map Prod.fst = aliveIndices s.players := by
  apply collectNight_positions
  intro i hi
  obtain ⟨p, hp, _⟩ := (mem_aliveIndices s.players i).1 hi
  exact (List.getElem?_eq_some.1 hp).1

theorem nightDecisions_valid (ch : Chance) (s : GameMaster) (e : Nat × (String × String))
    (h : e ∈ nightDecisions ch s) :
    ∃ p0, s.players[e.1]? = some p0 ∧ p0.alive = true
      ∧ (e.2 = ("", "")
          ∨ (e.2.1 ∈ nightActions p0.role
              ∧ ∃ j q, s.players[j]? = some q ∧ nightFilter e.1 p0 (j, q) = true
                  ∧ q.playerName = e.2.2)) := by
  obtain ⟨p0, hp0, hd⟩ :=
    collectNight_valid ch.choice (aliveIndices s.players) s.players
      (nodup_aliveIndices s.players) e h
  have hi := collectNight_fst ch.choice (aliveIndices s.players) s.players e h
  obtain ⟨p, hp, ha⟩ := (mem_aliveIndices s.players e.1).1 hi
  rw [hp0] at hp
  simp only [Option.some.injEq] at hp
  subst hp
  exact ⟨p0, hp0, ha, hd⟩

theorem nightDecisions_unique (ch : Chance) (s : GameMaster) (i : Nat) (d d' : String × String)
    (h : (i, d) ∈ nightDecisions ch s) (h' : (i, d') ∈ nightDecisions ch s) : d = d' := by
  have hnd : ((nightDecisions ch s).map Prod.fst).Nodup := by
    rw [nightDecisions_positions]
    exact nodup_aliveIndices s.players
  have := List.inj_on_of_nodup_map hnd h h' rfl
  exact (Prod.mk.inj this).2

theorem nightFilter_alive {self : Nat} {me : Player} {e : Nat × Player}
    (h : nightFilter self me e = true) : e.2.alive = true := by
  unfold nightFilter at h
  cases hr : me.role <;> rw [hr] at h <;> simp at h <;> simp [h]

theorem nightFilter_mafia {self : Nat} {me : Player} {e : Nat × Player}
    (hm : me.isMafia = true) (h : nightFilter self me e = true) : e.2.isMafia = false := by
  unfold nightFilter at h
  unfold Player.isMafia at hm
  cases hr : me.role <;> rw [hr] at h hm <;> simp [isAlliedWith] at h hm <;> simp [h]

theorem nightFilter_commissar {self : Nat} {me : Player} {e : Nat × Player}
    (hm : me.role = Role.Commissar) (h : nightFilter self me e = true) :
    isCheckedAndInnocent me e.2.playerName = false ∧ e.1 ≠ self := by
  unfold nightFilter at h
  rw [hm] at h
  simp at h
  exact ⟨h.2, h.1.2⟩

theorem nightFilter_doctor {self : Nat} {me : Player} {e : Nat × Player}
    (hm : me.role = Role.Doctor) (h : nightFilter self me e = true) :
    e.2.playerName ≠ me.lastHealed := by
  unfold nightFilter at h
  rw [hm] at h
  simp at h
  exact h.2

/-- A collected decision with a non-empty action targets the name of a
participant that is alive before the phase. -/
theorem nightDecisions_target_alive (ch : Chance) (s : GameMaster)
    (e : Nat × (String × String)) (h : e ∈ nightDecisions ch s) (ha : e.2.1 ≠ "") :
    ∃ (j : Nat) (q : Player),
      s.players[j]? = some q ∧ q.alive = true ∧ q.playerName = e.2.2 := by
  obtain ⟨p0, _, _, hd⟩ := nightDecisions_valid ch s e h
  rcases hd with hd | ⟨_, j, q, hq, hf, hn⟩
  · rw [hd] at ha; exact absurd rfl ha
  · exact ⟨j, q, hq, nightFilter_alive hf, hn⟩

/-- Every non-empty name held by the local variables after the classification
loop is the name of a participant that is alive before the phase. -/
theorem classifiedVars_targets (ch : Chance) (s : GameMaster) (x : String) (hx : x ≠ "")
    (h : x = (classifiedVars ch s).killerVictim ∨ x = (classifiedVars ch s).maniacVictim
      ∨ x = (classifiedVars ch s).commissarTarget ∨ x = (classifiedVars ch s).doctorHeal
      ∨ x ∈ (classifiedVars ch s).mafiaVotes.map Prod.fst) :
    ∃ (j : Nat) (q : Player),
      s.players[j]? = some q ∧ q.alive = true ∧ q.playerName = x := by
  have key := foldl_classify_induction (nightRoster ch s)
    (fun v => ∀ x, x ≠ "" →
      (x = v.killerVictim ∨ x = v.maniacVictim ∨ x = v.commissarTarget ∨ x = v.doctorHeal
        ∨ x ∈ v.mafiaVotes.map Prod.fst) →
      ∃ (j : Nat) (q : Player),
        s.players[j]? = some q ∧ q.alive = true ∧ q.playerName = x)
    (nightDecisions ch s) ?_ NightVars.init ?_
  · exact key x hx h
  · intro v e he hP y hy hd
    have hT : e.2.1 ≠ "" → ∃ (j : Nat) (q : Player),
        s.players[j]? = some q ∧ q.alive = true ∧ q.playerName = e.2.2 :=
      nightDecisions_target_alive ch s e he
    rcases classify_cases (nightRoster ch s) v e with hc | ⟨me, _, hc | hc | hc | hc | hc⟩
    · rw [hc] at hd; exact hP y hy hd
    · obtain ⟨hk, _, _, hc⟩ := hc
      rw [hc] at hd
      simp only [mapIncrement_keys] at hd
      rcases hd with h1 | h2 | h3 | h4 | h5 | h6
      · exact hP y hy (Or.inl h1)
      · exact hP y hy (Or.inr (Or.inl h2))
      · exact hP y hy (Or.inr (Or.inr (Or.inl h3)))
      · exact hP y hy (Or.inr (Or.inr (Or.inr (Or.inl h4))))
      · exact hP y hy (Or.inr (Or.inr (Or.inr (Or.inr h5))))
      · rw [h6]; exact hT (by rw [hk]; decide)
    · obtain ⟨hk, _, hc⟩ := hc
      rw [hc] at hd
      rcases hd with h1 | h2 | h3 | h4 | h5
      · rw [h1]; exact hT (by rw [hk]; decide)
      · exact hP y hy (Or.inr (Or.inl h2))
      · exact hP y hy (Or.inr (Or.inr (Or.inl h3)))
      · exact hP y hy (Or.inr (Or.inr (Or.inr (Or.inl h4))))
      · exact hP y hy (Or.inr (Or.inr (Or.inr (Or.inr h5))))
    · obtain ⟨hk, _, _, hc⟩ := hc
      rw [hc] at hd
      rcases hd with h1 | h2 | h3 | h4 | h5
      · exact hP y hy (Or.inl h1)
      · rw [h2]; exact hT (by rw [hk]; decide)
      · exact hP y hy (Or.inr (Or.inr (Or.inl h3)))
      · exact hP y hy (Or.inr (Or.inr (Or.inr (Or.inl h4))))
      · exact hP y hy (Or.inr (Or.inr (Or.inr (Or.inr h5))))
    · obtain ⟨hk, _, hc⟩ := hc
      rw [hc] at hd
      rcases hd with h1 | h2 | h3 | h4 | h5
      · exact hP y hy (Or.inl h1)
      · exact hP y hy (Or.inr (Or.inl h2))
      · rw [h3]
        exact hT (by rcases hk with hk | hk <;> rw [hk] <;> decide)
      · exact hP y hy (Or.inr (Or.inr (Or.inr (Or.inl h4))))
      · exact hP y hy (Or.inr (Or.inr (Or.inr (Or.inr h5))))
    · obtain ⟨hk, _, hc⟩ := hc
      rw [hc] at hd
      rcases hd with h1 | h2 | h3 | h4 | h5
      · exact hP y hy (Or.inl h1)
      · exact hP y hy (Or.inr (Or.inl h2))
      · exact hP y hy (Or.inr (Or.inr (Or.inl h3)))
      · rw [h4]; exact hT (by rw [hk]; decide)
      · exact hP y hy (Or.inr (Or.inr (Or.inr (Or.inr h5))))
  · intro y hy hd
    simp [NightVars.init] at hd
    exact absurd hd hy

/-- The mafia victim is the empty string or a key of the mafia tally. -/
theorem nightVars_mafiaVictim (ch : Chance) (s : GameMaster) :
    (nightVars ch s).mafiaVictim = ""
      ∨ (nightVars ch s).mafiaVictim ∈ (classifiedVars ch s).mafiaVotes.map Prod.fst := by
  rcases tieBreak_name_mem ch.coins (ch.order (classifiedVars ch s).mafiaVotes) with h | h
  · exact Or.inl h
  · right
    rw [List.mem_map] at h ⊢
    obtain ⟨a, ha, hn⟩ := h
    exact ⟨a, (ch.order_perm _).mem_iff.1 ha, hn⟩

/-- Every name queued for death in a night is the name of a participant that
is alive before the phase. -/
theorem queuedDeath_alive (ch : Chance) (s : GameMaster) (x : String)
    (h : queuedDeath (nightVars ch s) x) :
    ∃ (j : Nat) (q : Player),
      s.players[j]? = some q ∧ q.alive = true ∧ q.playerName = x := by
  obtain ⟨hx, _, h1 | h2 | h3 | ⟨_, h4⟩⟩ := h
  · rcases nightVars_mafiaVictim ch s with hm | hm
    · rw [hm] at h1; exact absurd h1 hx
    · rw [← h1] at hm
      exact classifiedVars_targets ch s x hx (Or.inr (Or.inr (Or.inr (Or.inr hm))))
  · exact classifiedVars_targets ch s x hx (Or.inl h2)
  · exact classifiedVars_targets ch s x hx (Or.inr (Or.inl h3))
  · exact classifiedVars_targets ch s x hx (Or.inr (Or.inr (Or.inl h4)))

theorem getElem?_markDead (k : List String) (players : List Player) (i : Nat) :
    (markDead k players)[i]?
      = players[i]?.map (fun p => if p.playerName ∈ k then p.die else p) := by
  unfold markDead
  rw [List.getElem?_map]

/-- Entry `i` of the roster after a night over unique names: the pre-phase
object with `alive` cleared when its name was queued for death, up to the
private fields. -/
theorem playNightPhase_getElem? (ch : Chance) (s : GameMaster)
    (hnames : (s.players.map Player.playerName).Nodup) (i : Nat) (p : Player)
    (hp : s.players[i]? = some p) :
    ∃ p', (playNightPhase ch s).players[i]? = some p'
      ∧ p'.playerName = p.playerName ∧ p'.role = p.role ∧ p'.strategy = p.strategy
      ∧ (p'.alive = true ↔ (p.alive = true ∧ ¬ queuedDeath (nightVars ch s) p.playerName)) := by
  obtain ⟨p1, hp1, hc⟩ := nightRoster_getElem? ch s hp
  simp only [Player.core, Prod.mk.injEq] at hc
  obtain ⟨hn, ha, hs, hr, _⟩ := hc
  have hnd : ((nightRoster ch s).map Player.playerName).Nodup := by
    rw [nightRoster_names]; exact hnames
  unfold playNightPhase
  rcases resolveNight_players (nightVars ch s) { s with players := nightRoster ch s } hnd
    with h | ⟨c, b, h⟩
  · rw [h, getElem?_markDead]
    simp only [hp1, Option.map_some']
    by_cases hk : p1.playerName ∈ killList (nightVars ch s)
    · have hq : queuedDeath (nightVars ch s) p.playerName := by
        rw [← hn]; exact (mem_killList _ _).1 hk
      exact ⟨p1.die, by rw [if_pos hk], hn, hr, hs, by simp [Player.die, hq]⟩
    · have hq : ¬ queuedDeath (nightVars ch s) p.playerName := by
        rw [← hn]; exact fun h => hk ((mem_killList _ _).2 h)
      exact ⟨p1, by rw [if_neg hk], hn, hr, hs, by simp [hq, ha]⟩
  · rw [h, getElem?_updateAt, getElem?_markDead]
    simp only [hp1, Option.map_some']
    by_cases hk : p1.playerName ∈ killList (nightVars ch s)
    · have hq : queuedDeath (nightVars ch s) p.playerName := by
        rw [← hn]; exact (mem_killList _ _).1 hk
      rw [if_pos hk]
      split_ifs
      · exact ⟨_, rfl, hn, hr, hs, by simp [Player.die, addCheckedPlayer, hq]⟩
      · exact ⟨_, rfl, hn, hr, hs, by simp [Player.die, hq]⟩
    · have hq : ¬ queuedDeath (nightVars ch s) p.playerName := by
        rw [← hn]; exact fun h => hk ((mem_killList _ _).2 h)
      rw [if_neg hk]
      split_ifs
      · exact ⟨_, rfl, hn, hr, hs, by simp [addCheckedPlayer, hq, ha]⟩
      · exact ⟨_, rfl, hn, hr, hs, by simp [hq, ha]⟩

theorem playNightPhase_reveal (ch : Chance) (s : GameMaster) :
    (playNightPhase ch s).playersToReveal
      = (killList (nightVars ch s)).foldl addPlayerToReveal s.playersToReveal := by
  unfold playNightPhase
  rw [resolveNight_reveal]

/-- C4: in a night over a roster with unique names, the participants that go
from alive to dead are exactly those whose name is a non-empty mafia victim,
killer victim, maniac victim or Commissar kill target different from the
Doctor's heal target; each of them is in `playersToReveal` exactly once; and
every such queued name belongs to a participant that was alive and is dead
afterwards, whatever happened to the other queued names. -/
theorem playNightPhase_deaths (ch : Chance) (s : GameMaster)
    (hnames : (s.players.map Player.playerName).Nodup) (hreveal : s.playersToReveal.Nodup) :
    (∀ (i : Nat) (p : Player), s.players[i]? = some p →
      ∃ p', (playNightPhase ch s).players[i]? = some p'
        ∧ ((p.alive = true ∧ p'.alive = false) ↔ queuedDeath (nightVars ch s) p.playerName)
        ∧ (queuedDeath (nightVars ch s) p.playerName →
            (playNightPhase ch s).playersToReveal.count p.playerName = 1))
    ∧ (∀ x : String, queuedDeath (nightVars ch s) x →
        ∃ (j : Nat) (q q' : Player), s.players[j]? = some q ∧ q.playerName = x
          ∧ q.alive = true ∧ (playNightPhase ch s).players[j]? = some q'
          ∧ q'.alive = false) := by
  have halive : ∀ (i : Nat) (p : Player), s.players[i]? = some p →
      queuedDeath (nightVars ch s) p.playerName → p.alive = true := by
    intro i p hp hq
    obtain ⟨j, q, hj, ha, hn⟩ := queuedDeath_alive ch s p.playerName hq
    have h1 := findPlayerByName_of_nodup hnames hp
    have h2 := findPlayerByName_of_nodup hnames hj
    rw [hn, h1] at h2
    simp only [Option.some.injEq] at h2
    subst h2
    rw [hp] at hj
    simp only [Option.some.injEq] at hj
    subst hj
    exact ha
  constructor
  · intro i p hp
    obtain ⟨p', hp', _, _, _, hal⟩ := playNightPhase_getElem? ch s hnames i p hp
    refine ⟨p', hp', ?_, ?_⟩
    · constructor
      · rintro ⟨ha, hd⟩
        by_contra hq
        have := hal.2 ⟨ha, hq⟩
        rw [hd] at this
        exact Bool.false_ne_true this
      · intro hq
        refine ⟨halive i p hp hq, ?_⟩
        cases hb : p'.alive with
        | false => rfl
        | true => exact absurd hq (hal.1 hb).2
    · intro hq
      rw [playNightPhase_reveal]
      obtain ⟨hmem, hnd⟩ := foldl_addPlayerToReveal (killList (nightVars ch s))
        s.playersToReveal
      exact List.count_eq_one_of_mem (hnd hreveal)
        ((hmem _).2 (Or.inr ((mem_killList _ _).2 hq)))
  · intro x hq
    obtain ⟨j, q, hj, ha, hn⟩ := queuedDeath_alive ch s x hq
    obtain ⟨q', hq', _, _, _, hal⟩ := playNightPhase_getElem? ch s hnames j q hj
    refine ⟨j, q, q', hj, hn, ha, hq', ?_⟩
    cases hb : q'.alive with
    | false => rfl
    | true => exact absurd (hn ▸ hq) (hal.1 hb).2

/-- Witness for C4: in the five-participant scenario P5 is healed and P3, the
maniac victim, goes from alive to dead and is revealed once. -/
theorem playNightPhase_deaths_witness :
    ∃ p', (playNightPhase scenarioChance scenarioGame).players[2]? = some p'
      ∧ (Player.new "P3" StrategyKind.User Role.Commissar).alive = true
      ∧ p'.alive = false
      ∧ (playNightPhase scenarioChance scenarioGame).playersToReveal.count "P3" = 1 :=
  have hq : queuedDeath (nightVars scenarioChance scenarioGame)
      (Player.new "P3" StrategyKind.User Role.Commissar).playerName := by decide
  match (playNightPhase_deaths scenarioChance scenarioGame (by decide) (by decide)).1 2
    (Player.new "P3" StrategyKind.User Role.Commissar) (by decide) with
  | ⟨p', h1, h2, h3⟩ => ⟨p', h1, (h2.2 hq).1, (h2.2 hq).2, h3 hq⟩

/-! ## Saved participants -/

/-- C5 (evaluation at the failing input): with decisions P1 = (kill, P2),
P2 = (heal, P5), P3 = (kill, P5), P4 = (kill, P1), the heal target P5 is
non-empty and equals the Commissar's kill target, P5 is protected from that
kill and stays alive, yet `healedPlayers` stays empty: the save is not recorded. -/
theorem commissar_kill_healed_not_recorded :
    nightDecisions commissarKillChance botGame
      = [(0, ("kill", "P2")), (1, ("heal", "P5")), (2, ("kill", "P5")), (3, ("kill", "P1")),
          (4, ("", ""))]
    ∧ (nightVars commissarKillChance botGame).doctorHeal = "P5"
    ∧ (nightVars commissarKillChance botGame).commissarAction = "kill"
    ∧ (nightVars commissarKillChance botGame).commissarTarget = "P5"
    ∧ (playNightPhase commissarKillChance botGame).players.map
        (fun p => (p.playerName, p.alive))
        = [("P1", false), ("P2", false), ("P3", true), ("P4", true), ("P5", true)]
    ∧ (playNightPhase commissarKillChance botGame).playersToReveal = ["P2", "P1"]
    ∧ (playNightPhase commissarKillChance botGame).healedPlayers = [] := by
  decide

/-! ## The five-participant scenario -/

theorem nightRoster_length (ch : Chance) (s : GameMaster) :
    (nightRoster ch s).length = s.players.length := by
  have h := congrArg List.length (nightRoster_core ch s)
  simpa using h

/-- The roster after the night tasks, entry by entry, from the batch. -/
theorem nightRoster_of_decision (ch : Chance) (s : GameMaster) (i : Nat) (p0 : Player)
    (d : String × String) (hp : s.players[i]? = some p0) (hd : (i, d) ∈ nightDecisions ch s) :
    (nightRoster ch s)[i]? = some
      (if p0.role = Role.Doctor ∧ d.1 = "heal" then { p0 with lastHealed := d.2 } else p0) :=
  (collectNight_object ch.choice (aliveIndices s.players) s.players
    (nodup_aliveIndices s.players) i p0 hp).1 d hd

/-- C6: in the scenario P1 (Mafia), P2 (Doctor), P3 (Commissar), P4 (Maniac),
P5 (Civilian), all alive, with night decisions P1 = (kill, P5), P2 = (heal, P5),
P4 = (kill, P3) and P3, P5 abstaining, after `playNightPhase` P3 is dead and
everybody else is alive, the revealed list is [P3], the saved list is [P5],
and the win evaluator counts 1 Mafia, 2 others, 1 Maniac and reports no
winner; this holds for every order of visiting the tally and every coin. -/
theorem scenario_night (ch : Chance)
    (h : nightDecisions ch scenarioGame
      = [(0, ("kill", "P5")), (1, ("heal", "P5")), (2, ("", "")), (3, ("kill", "P3")),
          (4, ("", ""))]) :
    (playNightPhase ch scenarioGame).players.map (fun p => (p.playerName, p.role, p.alive))
        = [("P1", Role.Mafia, true), ("P2", Role.Doctor, true), ("P3", Role.Commissar, false),
            ("P4", Role.Maniac, true), ("P5", Role.Civilian, true)]
    ∧ (playNightPhase ch scenarioGame).playersToReveal = ["P3"]
    ∧ (playNightPhase ch scenarioGame).healedPlayers = ["P5"]
    ∧ mafiaAlive (playNightPhase ch scenarioGame).players = 1
    ∧ otherAlive (playNightPhase ch scenarioGame).players = 2
    ∧ maniacAlive (playNightPhase ch scenarioGame).players = 1
    ∧ announcedWinner (playNightPhase ch scenarioGame).players = none
    ∧ isGameOver (playNightPhase ch scenarioGame).players = false := by
  have hR : nightRoster ch scenarioGame
      = [Player.new "P1" StrategyKind.Bot Role.Mafia,
          { Player.new "P2" StrategyKind.Bot Role.Doctor with lastHealed := "P5" },
          Player.new "P3" StrategyKind.User Role.Commissar,
          Player.new "P4" StrategyKind.Bot Role.Maniac,
          Player.new "P5" StrategyKind.Bot Role.Civilian] := by
    apply List.ext_getElem?
    intro i
    have h0 := nightRoster_of_decision ch scenarioGame 0 _ ("kill", "P5") rfl
      (by rw [h]; decide)
    have h1 := nightRoster_of_decision ch scenarioGame 1 _ ("heal", "P5") rfl
      (by rw [h]; decide)
    have h2 := nightRoster_of_decision ch scenarioGame 2 _ ("", "") rfl (by rw [h]; decide)
    have h3 := nightRoster_of_decision ch scenarioGame 3 _ ("kill", "P3") rfl
      (by rw [h]; decide)
    have h4 := nightRoster_of_decision ch scenarioGame 4 _ ("", "") rfl (by rw [h]; decide)
    have hl := nightRoster_length ch scenarioGame
    match i with
    | 0 => rw [h0]; rfl
    | 1 => rw [h1]; rfl
    | 2 => rw [h2]; rfl
    | 3 => rw [h3]; rfl
    | 4 => rw [h4]; rfl
    | k + 5 =>
      rw [List.getElem?_eq_none (by rw [hl]; simp [scenarioGame])]
      rfl
  have hC : (classifiedVars ch scenarioGame).mafiaVotes = [("P5", 1)]
      ∧ (classifiedVars ch scenarioGame).killerVictim = ""
      ∧ (classifiedVars ch scenarioGame).maniacVictim = "P3"
      ∧ (classifiedVars ch scenarioGame).doctorHeal = "P5"
      ∧ (classifiedVars ch scenarioGame).commissarAction = ""
      ∧ (classifiedVars ch scenarioGame).commissarTarget = ""
      ∧ (classifiedVars ch scenarioGame).commissarPlayer = none := by
    unfold classifiedVars
    rw [h, hR]
    decide
  have hO : ch.order [("P5", 1)] = [("P5", 1)] :=
    List.perm_singleton.1 (ch.order_perm _)
  have hM : (nightVars ch scenarioGame).mafiaVictim = "P5" := by
    unfold nightVars
    simp only
    rw [hC.1, hO]
    rfl
  obtain ⟨_, c2, c3, c4, c5, c6, c7⟩ := hC
  have hV : nightVars ch scenarioGame
      = { mafiaVictim := "P5", killerVictim := "", maniacVictim := "P3", doctorHeal := "P5",
          commissarAction := "", commissarTarget := "", commissarPlayer := none,
          mafiaVotes := (classifiedVars ch scenarioGame).mafiaVotes } := by
    have e : nightVars ch scenarioGame
        = { mafiaVictim := (nightVars ch scenarioGame).mafiaVictim,
            killerVictim := (classifiedVars ch scenarioGame).killerVictim,
            maniacVictim := (classifiedVars ch scenarioGame).maniacVictim,
            doctorHeal := (classifiedVars ch scenarioGame).doctorHeal,
            commissarAction := (classifiedVars ch scenarioGame).commissarAction,
            commissarTarget := (classifiedVars ch scenarioGame).commissarTarget,
            commissarPlayer := (classifiedVars ch scenarioGame).commissarPlayer,
            mafiaVotes := (classifiedVars ch scenarioGame).mafiaVotes } := rfl
    rw [e, hM, c2, c3, c4, c5, c6, c7]
  have hP : playNightPhase ch scenarioGame
      = resolveNight
          { mafiaVictim := "P5", killerVictim := "", maniacVictim := "P3", doctorHeal := "P5",
            commissarAction := "", commissarTarget := "", commissarPlayer := none,
            mafiaVotes := (classifiedVars ch scenarioGame).mafiaVotes }
          { scenarioGame with players :=
              [Player.new "P1" StrategyKind.Bot Role.Mafia,
                { Player.new "P2" StrategyKind.Bot Role.Doctor with lastHealed := "P5" },
                Player.new "P3" StrategyKind.User Role.Commissar,
                Player.new "P4" StrategyKind.Bot Role.Maniac,
                Player.new "P5" StrategyKind.Bot Role.Civilian] } := by
    unfold playNightPhase
    rw [hV, hR]
  rw [hP]
  generalize (classifiedVars ch scenarioGame).mafiaVotes = votes
  refine ⟨?_, ?_, ?_, ?_, ?_, ?_, ?_, ?_⟩ <;> rfl

/-- Witness for C6: the scenario's batch is the one collected under
`scenarioChance`. -/
theorem scenario_night_witness :
    (playNightPhase scenarioChance scenarioGame).players.map
        (fun p => (p.playerName, p.role, p.alive))
        = [("P1", Role.Mafia, true), ("P2", Role.Doctor, true), ("P3", Role.Commissar, false),
            ("P4", Role.Maniac, true), ("P5", Role.Civilian, true)]
    ∧ (playNightPhase scenarioChance scenarioGame).playersToReveal = ["P3"]
    ∧ (playNightPhase scenarioChance scenarioGame).healedPlayers = ["P5"]
    ∧ mafiaAlive (playNightPhase scenarioChance scenarioGame).players = 1
    ∧ otherAlive (playNightPhase scenarioChance scenarioGame).players = 2
    ∧ maniacAlive (playNightPhase scenarioChance scenarioGame).players = 1
    ∧ announcedWinner (playNightPhase scenarioChance scenarioGame).players = none
    ∧ isGameOver (playNightPhase scenarioChance scenarioGame).players = false :=
  scenario_night scenarioChance (by decide)

/-! ## Maniac against Bull -/

theorem eq_of_playerName_eq {players : List Player}
    (hnames : (players.map Player.playerName).Nodup) {i j : Nat} {p q : Player}
    (hp : players[i]? = some p) (hq : players[j]? = some q)
    (hn : p.playerName = q.playerName) : i = j ∧ p = q := by
  have h1 := findPlayerByName_of_nodup hnames hp
  have h2 := findPlayerByName_of_nodup hnames hq
  rw [hn, h2] at h1
  simp only [Option.some.injEq] at h1
  subst h1
  rw [hp] at hq
  simp only [Option.some.injEq] at hq
  exact ⟨rfl, hq⟩

/-- Every non-empty key of the mafia tally and every non-empty killer victim is
the name of a participant that is not Mafia-aligned. -/
theorem classifiedVars_mafia_targets (ch : Chance) (s : GameMaster) (x : String) (hx : x ≠ "")
    (h : x = (classifiedVars ch s).killerVictim
      ∨ x ∈ (classifiedVars ch s).mafiaVotes.map Prod.fst) :
    ∃ (j : Nat) (q : Player),
      s.players[j]? = some q ∧ q.isMafia = false ∧ q.playerName = x := by
  have key := foldl_classify_induction (nightRoster ch s)
    (fun v => ∀ x, x ≠ "" → (x = v.killerVictim ∨ x ∈ v.mafiaVotes.map Prod.fst) →
      ∃ (j : Nat) (q : Player),
        s.players[j]? = some q ∧ q.isMafia = false ∧ q.playerName = x)
    (nightDecisions ch s) ?_ NightVars.init ?_
  · exact key x hx h
  · intro v e he hP y hy hd
    have hT : ∀ me, (nightRoster ch s)[e.1]? = some me → me.isMafia = true → e.2.1 = "kill" →
        ∃ (j : Nat) (q : Player),
          s.players[j]? = some q ∧ q.isMafia = false ∧ q.playerName = e.2.2 := by
      intro me hme hm hk
      obtain ⟨p0, hp0, _, hv⟩ := nightDecisions_valid ch s e he
      obtain ⟨p1, hp1, hc⟩ := nightRoster_getElem? ch s hp0
      rw [hme] at hp1
      simp only [Option.some.injEq] at hp1
      subst hp1
      have hm0 : p0.isMafia = true := by
        have hr : me.role = p0.role := by
          simp only [Player.core, Prod.mk.injEq] at hc
          exact hc.2.2.2.1
        unfold Player.isMafia at hm ⊢
        rw [← hr]; exact hm
      rcases hv with hv | ⟨_, j, q, hq, hf, hn⟩
      · rw [hv] at hk; exact absurd hk (by decide)
      · exact ⟨j, q, hq, nightFilter_mafia hm0 hf, hn⟩
    rcases classify_cases (nightRoster ch s) v e with hc | ⟨me, hme, hc | hc | hc | hc | hc⟩
    · rw [hc] at hd; exact hP y hy hd
    · obtain ⟨hk, hm, _, hc⟩ := hc
      rw [hc] at hd
      simp only [mapIncrement_keys] at hd
      rcases hd with h1 | h2 | h3
      · exact hP y hy (Or.inl h1)
      · exact hP y hy (Or.inr h2)
      · rw [h3]; exact hT me hme hm hk
    · obtain ⟨hk, hm, hc⟩ := hc
      rw [hc] at hd
      rcases hd with h1 | h2
      · rw [h1]
        refine hT me hme ?_ hk
        unfold Player.isKiller at hm
        unfold Player.isMafia
        simp only [beq_iff_eq] at hm
        rw [hm]
      · exact hP y hy (Or.inr h2)
    · obtain ⟨_, _, _, hc⟩ := hc
      rw [hc] at hd
      exact hP y hy hd
    · obtain ⟨_, _, hc⟩ := hc
      rw [hc] at hd
      exact hP y hy hd
    · obtain ⟨_, _, hc⟩ := hc
      rw [hc] at hd
      exact hP y hy hd
  · intro y hy hd
    simp [NightVars.init] at hd
    exact absurd hd hy

/-- A non-empty maniac victim is not the name of a Bull. -/
theorem classifiedVars_maniacVictim (ch : Chance) (s : GameMaster)
    (hx : (classifiedVars ch s).maniacVictim ≠ "") (i : Nat) (p : Player)
    (hf : findPlayerByName (nightRoster ch s) (classifiedVars ch s).maniacVictim = some i)
    (hp : (nightRoster ch s)[i]? = some p) : p.isBull = false := by
  have key := foldl_classify_induction (nightRoster ch s)
    (fun v => v.maniacVictim ≠ "" → ∀ i p,
      findPlayerByName (nightRoster ch s) v.maniacVictim = some i →
      (nightRoster ch s)[i]? = some p → p.isBull = false)
    (nightDecisions ch s) ?_ NightVars.init ?_
  · exact key hx i p hf hp
  · intro v e _ hP
    rcases classify_cases (nightRoster ch s) v e with hc | ⟨me, hme, hc | hc | hc | hc | hc⟩
    · rw [hc]; exact hP
    · rw [hc.2.2.2]; exact hP
    · rw [hc.2.2]; exact hP
    · rw [hc.2.2.2]
      intro _ i p hi hp
      exact hc.2.2.1 i p hi hp
    · rw [hc.2.2]; exact hP
    · rw [hc.2.2]; exact hP
  · intro h
    exact absurd rfl h

/-- C7, amended: when a Maniac's night decision is (kill, b) and the participant
named b is a Bull, over a roster with unique names, the classification step for that
decision changes no variable (no maniac victim is queued); when b is not the
Commissar's kill target, b is not among the names queued for death and the
Bull is alive after `playNightPhase`; and the batch holds exactly one decision
of that Maniac. -/
theorem maniac_kill_on_bull (ch : Chance) (s : GameMaster)
    (hnames : (s.players.map Player.playerName).Nodup)
    (i : Nat) (m : Player) (k : Nat) (bull : Player)
    (hm : s.players[i]? = some m) (hrole : m.role = Role.Maniac)
    (hb : s.players[k]? = some bull) (hbull : bull.role = Role.Bull)
    (hdec : (i, ("kill", bull.playerName)) ∈ nightDecisions ch s) :
    (∀ v : NightVars, classify (nightRoster ch s) v (i, ("kill", bull.playerName)) = v)
    ∧ (¬ ((nightVars ch s).commissarAction = "kill"
          ∧ (nightVars ch s).commissarTarget = bull.playerName) →
        ¬ queuedDeath (nightVars ch s) bull.playerName
        ∧ ∃ bull', (playNightPhase ch s).players[k]? = some bull' ∧ bull'.alive = true)
    ∧ ((nightDecisions ch s).map Prod.fst).count i = 1 := by
  obtain ⟨m1, hm1, hmc⟩ := nightRoster_getElem? ch s hm
  obtain ⟨b1, hb1, hbc⟩ := nightRoster_getElem? ch s hb
  have hm1r : m1.role = Role.Maniac := by
    simp only [Player.core, Prod.mk.injEq] at hmc
    rw [hmc.2.2.2.1]; exact hrole
  have hb1r : b1.role = Role.Bull := by
    simp only [Player.core, Prod.mk.injEq] at hbc
    rw [hbc.2.2.2.1]; exact hbull
  have hb1n : b1.playerName = bull.playerName := by
    simp only [Player.core, Prod.mk.injEq] at hbc
    exact hbc.1
  have hndR : ((nightRoster ch s).map Player.playerName).Nodup := by
    rw [nightRoster_names]; exact hnames
  have hfind : findPlayerByName (nightRoster ch s) bull.playerName = some k := by
    rw [← hb1n]; exact findPlayerByName_of_nodup hndR hb1
  have hBullMafia : bull.isMafia = true := by
    unfold Player.isMafia; rw [hbull]
  refine ⟨?_, ?_, ?_⟩
  · intro v
    unfold classify
    simp only [hm1, hfind, hb1]
    simp [Player.isMafia, Player.isKiller, Player.isManiac, Player.isBull, hm1r, hb1r]
  · intro hcom
    have hnq : ¬ queuedDeath (nightVars ch s) bull.playerName := by
      rintro ⟨hne, _, h1 | h2 | h3 | h4⟩
      · rcases nightVars_mafiaVictim ch s with hmv | hmv
        · rw [hmv] at h1; exact hne h1
        · rw [← h1] at hmv
          obtain ⟨j, q, hq, hqm, hqn⟩ :=
            classifiedVars_mafia_targets ch s _ hne (Or.inr hmv)
          obtain ⟨_, rfl⟩ := eq_of_playerName_eq hnames hq hb hqn
          rw [hBullMafia] at hqm
          exact Bool.noConfusion hqm
      · obtain ⟨j, q, hq, hqm, hqn⟩ :=
          classifiedVars_mafia_targets ch s _ hne (Or.inl h2)
        obtain ⟨_, rfl⟩ := eq_of_playerName_eq hnames hq hb hqn
        rw [hBullMafia] at hqm
        exact Bool.noConfusion hqm
      · have h3' : (classifiedVars ch s).maniacVictim = bull.playerName := h3.symm
        have := classifiedVars_maniacVictim ch s (by rw [h3']; exact hne) k b1
          (by rw [h3']; exact hfind) hb1
        simp [Player.isBull, hb1r] at this
      · exact hcom ⟨h4.1, h4.2.symm⟩
    refine ⟨hnq, ?_⟩
    obtain ⟨bull', hb', _, _, _, hal⟩ := playNightPhase_getElem? ch s hnames k bull hb
    refine ⟨bull', hb', hal.2 ⟨?_, hnq⟩⟩
    obtain ⟨j, q, hq, hqa, hqn⟩ := nightDecisions_target_alive ch s _ hdec
      (show ("kill" : String) ≠ "" by decide)
    obtain ⟨_, rfl⟩ := eq_of_playerName_eq hnames hq hb hqn
    exact hqa
  · rw [nightDecisions_positions]
    apply List.count_eq_one_of_mem (nodup_aliveIndices s.players)
    rw [← nightDecisions_positions ch s]
    exact List.mem_map_of_mem Prod.fst hdec

/-- Witness for C7: the Maniac M targets the Bull B, the roster has no
Commissar, and B is alive after the night. -/
theorem maniac_kill_on_bull_witness :
    (∀ v : NightVars, classify (nightRoster bullChance bullGame) v
        (1, ("kill", (Player.new "B" StrategyKind.Bot Role.Bull).playerName)) = v)
    ∧ (¬ queuedDeath (nightVars bullChance bullGame)
            (Player.new "B" StrategyKind.Bot Role.Bull).playerName
        ∧ ∃ bull', (playNightPhase bullChance bullGame).players[0]? = some bull'
            ∧ bull'.alive = true)
    ∧ ((nightDecisions bullChance bullGame).map Prod.fst).count 1 = 1 :=
  have h := maniac_kill_on_bull bullChance bullGame (by decide) 1
    (Player.new "M" StrategyKind.Bot Role.Maniac) 0
    (Player.new "B" StrategyKind.Bot Role.Bull) (by decide) (by decide) (by decide)
    (by decide) (by decide)
  ⟨h.1, h.2.1 (by decide), h.2.2⟩

/-! ## The Commissar's check -/

theorem getElem?_of_map_eq {β : Type} {g : Player → β} {l l' : List Player}
    (h : l'.map g = l.map g) {i : Nat} {q : Player} (hq : l[i]? = some q) :
    ∃ q', l'[i]? = some q' ∧ g q' = g q := by
  have h1 : (l.map g)[i]? = some (g q) := by
    rw [List.getElem?_map, hq]; rfl
  rw [← h, List.getElem?_map] at h1
  cases h0 : l'[i]? with
  | none => rw [h0] at h1; simp at h1
  | some q' =>
    rw [h0] at h1
    simp at h1
    exact ⟨q', rfl, h1⟩

theorem mapFind_mapAssign_self (m : List (String × Bool)) (k : String) (b : Bool) :
    mapFind (mapAssign m k b) k = some b := by
  induction m with
  | nil => simp [mapAssign, mapFind]
  | cons e rest ih =>
    unfold mapAssign
    split_ifs with he
    · simp [mapFind, he]
    · simp [mapFind, he, ih]

theorem mapFind_mapAssign_ne (m : List (String × Bool)) (k x : String) (b : Bool)
    (hx : x ≠ k) : mapFind (mapAssign m k b) x = mapFind m x := by
  induction m with
  | nil => simp [mapAssign, mapFind, hx.symm]
  | cons e rest ih =>
    unfold mapAssign
    split_ifs with he
    · have : ¬ e.1 = x := fun h => hx (h.symm.trans he)
      simp [mapFind, this]
    · by_cases h : e.1 = x
      · simp [mapFind, h]
      · simp [mapFind, h, ih]

/-- The roster on which the Commissar's block of `playNightPhase` operates. -/
theorem resolveNight_eq (v : NightVars) (s : GameMaster) :
    resolveNight v s = commissarResolve v
      (killUnlessHealed v v.maniacVictim
        (killUnlessHealed v v.killerVictim
          (killUnlessHealed v v.mafiaVictim (recordSaved v s)))) := rfl

theorem map_killUnlessHealed {β : Type} (g : Player → β) (h : ∀ p, g p.die = g p)
    (v : NightVars) (x : String) (s : GameMaster) :
    (killUnlessHealed v x s).players.map g = s.players.map g := by
  unfold killUnlessHealed
  split_ifs
  · exact map_killPlayer g s.players x h
  · rfl

/-- The three death blocks change nothing but liveness flags. -/
theorem map_deaths {β : Type} (g : Player → β) (h : ∀ p, g p.die = g p)
    (v : NightVars) (s : GameMaster) :
    (killUnlessHealed v v.maniacVictim
      (killUnlessHealed v v.killerVictim
        (killUnlessHealed v v.mafiaVictim (recordSaved v s)))).players.map g
      = s.players.map g := by
  rw [map_killUnlessHealed g h, map_killUnlessHealed g h, map_killUnlessHealed g h,
    (recordSaved_players v s).1]

/-- A classification step for a participant that is not a Commissar leaves the
Commissar's variables as they are. -/
theorem classify_commissar_frame (players : List Player) (v : NightVars)
    (e : Nat × (String × String))
    (h : ∀ me, players[e.1]? = some me → me.isCommissar = false) :
    (classify players v e).commissarPlayer = v.commissarPlayer
      ∧ (classify players v e).commissarAction = v.commissarAction
      ∧ (classify players v e).commissarTarget = v.commissarTarget := by
  rcases classify_cases players v e with hc | ⟨me, hme, hc | hc | hc | hc | hc⟩
  · rw [hc]; exact ⟨rfl, rfl, rfl⟩
  · rw [hc.2.2.2]; exact ⟨rfl, rfl, rfl⟩
  · rw [hc.2.2]; exact ⟨rfl, rfl, rfl⟩
  · rw [hc.2.2.2]; exact ⟨rfl, rfl, rfl⟩
  · have := h me hme
    rw [hc.2.1] at this
    exact Bool.noConfusion this
  · rw [hc.2.2]; exact ⟨rfl, rfl, rfl⟩

theorem foldl_classify_commissar_frame (players : List Player)
    (batch : List (Nat × (String × String)))
    (h : ∀ e ∈ batch, ∀ me, players[e.1]? = some me → me.isCommissar = false) :
    ∀ v : NightVars,
      (batch.foldl (classify players) v).commissarPlayer = v.commissarPlayer
      ∧ (batch.foldl (classify players) v).commissarAction = v.commissarAction
      ∧ (batch.foldl (classify players) v).commissarTarget = v.commissarTarget := by
  induction batch with
  | nil => intro v; exact ⟨rfl, rfl, rfl⟩
  | cons e rest ih =>
    intro v
    simp only [List.foldl_cons]
    obtain ⟨h1, h2, h3⟩ := ih (fun x hx => h x (List.mem_cons_of_mem _ hx)) (classify players v e)
    obtain ⟨g1, g2, g3⟩ := classify_commissar_frame players v e (h e (List.mem_cons_self _ _))
    exact ⟨h1.trans g1, h2.trans g2, h3.trans g3⟩

/-- With a single Commissar in the roster, its `check` decision is what the
Commissar's variables hold after the classification loop. -/
theorem classifiedVars_single_commissar (ch : Chance) (s : GameMaster) (c : Nat) (cp : Player)
    (a T : String) (hc : s.players[c]? = some cp) (hrole : cp.role = Role.Commissar)
    (honly : ∀ (j : Nat) (p : Player), s.players[j]? = some p → p.role = Role.Commissar → j = c)
    (ha : a = "check" ∨ a = "kill") (hdec : (c, (a, T)) ∈ nightDecisions ch s) :
    (classifiedVars ch s).commissarPlayer = some c
      ∧ (classifiedVars ch s).commissarAction = a
      ∧ (classifiedVars ch s).commissarTarget = T := by
  have hnd : ((nightDecisions ch s).map Prod.fst).Nodup := by
    rw [nightDecisions_positions]; exact nodup_aliveIndices s.players
  obtain ⟨pre, post, hsplit⟩ := List.append_of_mem hdec
  obtain ⟨c1, hc1, hcc⟩ := nightRoster_getElem? ch s hc
  have hc1r : c1.isCommissar = true := by
    simp only [Player.core, Prod.mk.injEq] at hcc
    simp [Player.isCommissar, hcc.2.2.2.1, hrole]
  have hc1m : c1.isMafia = false ∧ c1.isKiller = false ∧ c1.isManiac = false
      ∧ c1.isDoctor = false := by
    simp only [Player.core, Prod.mk.injEq] at hcc
    simp [Player.isMafia, Player.isKiller, Player.isManiac, Player.isDoctor, hcc.2.2.2.1,
      hrole]
  have hpost : ∀ e ∈ post, ∀ me, (nightRoster ch s)[e.1]? = some me →
      me.isCommissar = false := by
    intro e he me hme
    have hne : e.1 ≠ c := by
      rw [hsplit, List.map_append, List.map_cons, List.nodup_append] at hnd
      have h2 := hnd.2.1
      rw [List.nodup_cons] at h2
      intro heq
      exact h2.1 (List.mem_map.2 ⟨e, he, heq⟩)
    cases hb : me.isCommissar with
    | false => rfl
    | true =>
      exfalso
      have hlt : e.1 < s.players.length := by
        rw [← nightRoster_length ch s]
        exact (List.getElem?_eq_some.1 hme).1
      obtain ⟨p1, hp1, hpc⟩ := nightRoster_getElem? ch s (List.getElem?_eq_getElem hlt)
      rw [hme] at hp1
      simp only [Option.some.injEq] at hp1
      subst hp1
      simp only [Player.core, Prod.mk.injEq] at hpc
      apply hne
      apply honly e.1 _ (List.getElem?_eq_getElem hlt)
      rw [← hpc.2.2.2.1]
      simpa [Player.isCommissar] using hb
  unfold classifiedVars
  rw [hsplit, List.foldl_append, List.foldl_cons]
  obtain ⟨h1, h2, h3⟩ := foldl_classify_commissar_frame (nightRoster ch s) post hpost
    (classify (nightRoster ch s) (List.foldl (classify (nightRoster ch s)) NightVars.init pre)
      (c, (a, T)))
  rw [h1, h2, h3]
  unfold classify
  simp only [hc1]
  rcases ha with rfl | rfl
  · simp [hc1r, hc1m]
  · simp [hc1r, hc1m]

/-- Name, role and private state of every participant on which the
Commissar's block operates are those before the phase, `lastHealed` apart. -/
theorem deaths_static (ch : Chance) (s : GameMaster) (v : NightVars) :
    (killUnlessHealed v v.maniacVictim
      (killUnlessHealed v v.killerVictim
        (killUnlessHealed v v.mafiaVictim
          (recordSaved v { s with players := nightRoster ch s })))).players.map
        (fun p => (p.playerName, p.role, p.checkedPlayers))
      = s.players.map (fun p => (p.playerName, p.role, p.checkedPlayers)) := by
  rw [map_deaths (fun p => (p.playerName, p.role, p.checkedPlayers)) (fun _ => rfl)]
  have h := congrArg (List.map (fun c : String × Bool × StrategyKind × Role
    × List (String × Bool) => (c.1, c.2.2.2.1, c.2.2.2.2))) (nightRoster_core ch s)
  simpa [List.map_map, Function.comp, Player.core] using h

/-- C8, amended: when the roster's Commissar decides (check, T), T is not the
empty string and T names a roster participant (the one `findPlayerByName`
returns), `playNightPhase` stores for T in that Commissar's knowledge map the
value `true` exactly when the participant's role is Mafia, Bull or Killer, and
`false` otherwise; a checked Ninja is stored as `false` although
`isAlliedWith` holds of it. -/
theorem commissar_check_records (ch : Chance) (s : GameMaster) (c : Nat) (cp : Player)
    (T : String) (t : Nat) (tp : Player)
    (hc : s.players[c]? = some cp) (hrole : cp.role = Role.Commissar)
    (honly : ∀ (j : Nat) (p : Player), s.players[j]? = some p → p.role = Role.Commissar → j = c)
    (hT : T ≠ "")
    (hdec : (c, ("check", T)) ∈ nightDecisions ch s)
    (ht : findPlayerByName s.players T = some t) (htp : s.players[t]? = some tp) :
    ∃ cp', (playNightPhase ch s).players[c]? = some cp'
      ∧ mapFind cp'.checkedPlayers T
          = some (decide (tp.role = Role.Mafia ∨ tp.role = Role.Bull ∨ tp.role = Role.Killer))
      ∧ (tp.role = Role.Ninja →
          mapFind cp'.checkedPlayers T = some false ∧ isAlliedWith tp = true) := by
  obtain ⟨h1, h2, h3⟩ := classifiedVars_single_commissar ch s c cp "check" T hc hrole honly
    (Or.inl rfl) hdec
  have hv1 : (nightVars ch s).commissarPlayer = some c := h1
  have hv2 : (nightVars ch s).commissarAction = "check" := h2
  have hv3 : (nightVars ch s).commissarTarget = T := h3
  have hstat := deaths_static ch s (nightVars ch s)
  have hnamesEq := congrArg (List.map Prod.fst) hstat
  simp only [List.map_map, Function.comp] at hnamesEq
  obtain ⟨tp3, htp3, htpe⟩ := getElem?_of_map_eq hstat htp
  obtain ⟨cp3, hcp3, hcpe⟩ := getElem?_of_map_eq hstat hc
  simp only [Prod.mk.injEq] at htpe hcpe
  have hfind := findPlayerByName_map_eq _ _ T hnamesEq
  rw [ht] at hfind
  have hcom : cp3.isCommissar = true := by
    simp [Player.isCommissar, hcpe.2.1, hrole]
  have hplay : (playNightPhase ch s).players
      = updateAt (killUnlessHealed (nightVars ch s) (nightVars ch s).maniacVictim
          (killUnlessHealed (nightVars ch s) (nightVars ch s).killerVictim
            (killUnlessHealed (nightVars ch s) (nightVars ch s).mafiaVictim
              (recordSaved (nightVars ch s) { s with players := nightRoster ch s })))).players c
          (addCheckedPlayer T (tp3.isMafia && !tp3.isNinja)) := by
    unfold playNightPhase
    rw [resolveNight_eq]
    unfold commissarResolve
    rw [hv2, hv3, if_pos hT, if_neg (fun h => absurd h.1 (by decide)), if_pos rfl]
    unfold commissarCheck
    simp only [hv1, hv3, hfind, htp3, hcp3, hcom, if_true]
  have hval : (tp3.isMafia && !tp3.isNinja)
      = decide (tp.role = Role.Mafia ∨ tp.role = Role.Bull ∨ tp.role = Role.Killer) := by
    unfold Player.isMafia Player.isNinja
    rw [htpe.2.1]
    cases tp.role <;> simp
  refine ⟨addCheckedPlayer T (tp3.isMafia && !tp3.isNinja) cp3, ?_, ?_, ?_⟩
  · rw [hplay, getElem?_updateAt, if_pos rfl, hcp3]; rfl
  · simp only [addCheckedPlayer]
    rw [mapFind_mapAssign_self, hval]
  · intro hn
    simp only [addCheckedPlayer]
    rw [mapFind_mapAssign_self, hval]
    simp [hn, isAlliedWith, Player.isMafia]

/-- Witness for C8: the Commissar C checks the Ninja N and stores `false`. -/
theorem commissar_check_records_witness :
    ∃ cp', (playNightPhase ninjaChance ninjaGame).players[0]? = some cp'
      ∧ mapFind cp'.checkedPlayers "N"
          = some (decide ((Player.new "N" StrategyKind.Bot Role.Ninja).role = Role.Mafia
              ∨ (Player.new "N" StrategyKind.Bot Role.Ninja).role = Role.Bull
              ∨ (Player.new "N" StrategyKind.Bot Role.Ninja).role = Role.Killer))
      ∧ mapFind cp'.checkedPlayers "N" = some false
      ∧ isAlliedWith (Player.new "N" StrategyKind.Bot Role.Ninja) = true :=
  match commissar_check_records ninjaChance ninjaGame 0
    (Player.new "C" StrategyKind.Bot Role.Commissar) "N" 1
    (Player.new "N" StrategyKind.Bot Role.Ninja) (by decide) (by decide)
    (by
      intro j p hj hp
      match j with
      | 0 => rfl
      | 1 => simp [ninjaGame, rosterOf] at hj; subst hj; simp [Player.new] at hp
      | 2 => simp [ninjaGame, rosterOf] at hj; subst hj; simp [Player.new] at hp
      | 3 => simp [ninjaGame, rosterOf] at hj; subst hj; simp [Player.new] at hp
      | k + 4 => simp [ninjaGame, rosterOf] at hj)
    (by decide) (by decide) (by decide) (by decide) with
  | ⟨cp', h1, h2, h3⟩ => ⟨cp', h1, h2, (h3 rfl).1, (h3 rfl).2⟩

/-! ## What the phases leave unchanged -/

theorem map_commissarResolve {β : Type} (g : Player → β) (hd : ∀ p, g p.die = g p)
    (hc : ∀ k b p, g (addCheckedPlayer k b p) = g p) (v : NightVars) (s : GameMaster) :
    (commissarResolve v s).players.map g = s.players.map g := by
  unfold commissarResolve
  split_ifs
  · exact map_killPlayer g s.players _ hd
  · rcases (commissarCheck_players v s).1 with h | ⟨c, b, h⟩
    · rw [h]
    · rw [h]; exact map_updateAt g s.players c _ (hc _ b)
  · rfl
  · rfl

/-- The resolution of a night changes no field other than `alive` and
`checkedPlayers`. -/
theorem map_resolveNight {β : Type} (g : Player → β) (hd : ∀ p, g p.die = g p)
    (hc : ∀ k b p, g (addCheckedPlayer k b p) = g p) (v : NightVars) (s : GameMaster) :
    (resolveNight v s).players.map g = s.players.map g := by
  rw [resolveNight_eq, map_commissarResolve g hd hc, map_deaths g hd]

/-- A day phase changes no field other than `alive`. -/
theorem map_playDayPhase {β : Type} (g : Player → β) (hd : ∀ p, g p.die = g p)
    (ch : Chance) (s : GameMaster) :
    (playDayPhase ch s).players.map g = s.players.map g := by
  unfold playDayPhase
  simp only
  split_ifs
  · cases findPlayerByName s.players
        (tieBreak ch.coins (ch.order (countVotes (dayResults ch.choice s.players)))).name with
    | none => rfl
    | some it => exact map_updateAt g s.players it Player.die hd
  · rfl

theorem map_runPhases_days {β : Type} (g : Player → β) (hd : ∀ p, g p.die = g p)
    (days : List Chance) :
    ∀ s : GameMaster, (runPhases s (days.map Phase.day)).players.map g = s.players.map g := by
  induction days with
  | nil => intro s; rfl
  | cons ch rest ih =>
    intro s
    simp only [runPhases, List.map_cons, List.foldl_cons] at ih ⊢
    rw [ih]
    exact map_playDayPhase g hd ch s

theorem runPhase_night_players (ch : Chance) (s : GameMaster) :
    (runPhase s (Phase.night ch)).players = (playNightPhase ch s).players := rfl

/-! ## Doctor memory -/

/-- C9: for a Doctor that took part in a night, (1) if its decision was
(heal, X), then after the night and after any number of day phases its
`lastHealed` is X, every candidate named X fails its night filter, and its
decision in a following night is the abstention or names somebody else;
(2) if it abstained, the night leaves its `lastHealed` unchanged. -/
theorem doctor_memory (ch : Chance) (s : GameMaster) (i : Nat) (doc : Player)
    (d : String × String) (hdoc : s.players[i]? = some doc) (hrole : doc.role = Role.Doctor)
    (hdec : (i, d) ∈ nightDecisions ch s) :
    (d.1 = "heal" → ∀ days : List Chance,
      ∃ doc', (runPhases (runPhase s (Phase.night ch)) (days.map Phase.day)).players[i]?
          = some doc'
        ∧ doc'.role = Role.Doctor ∧ doc'.lastHealed = d.2
        ∧ (∀ (j : Nat) (q : Player), q.playerName = d.2 → nightFilter i doc' (j, q) = false)
        ∧ (∀ (ch' : Chance) (d' : String × String),
            (i, d') ∈ nightDecisions ch'
              (runPhases (runPhase s (Phase.night ch)) (days.map Phase.day)) →
            d' = ("", "") ∨ d'.2 ≠ d.2))
    ∧ (d = ("", "") →
      ∃ doc', (playNightPhase ch s).players[i]? = some doc'
        ∧ doc'.lastHealed = doc.lastHealed) := by
  have hR := nightRoster_of_decision ch s i doc d hdoc hdec
  have hnight : (playNightPhase ch s).players.map (fun p => (p.role, p.lastHealed))
      = (nightRoster ch s).map (fun p => (p.role, p.lastHealed)) :=
    map_resolveNight (fun p => (p.role, p.lastHealed)) (fun _ => rfl) (fun _ _ _ => rfl) _ _
  constructor
  · intro hheal days
    rw [if_pos ⟨hrole, hheal⟩] at hR
    have hdays := map_runPhases_days (fun p => (p.role, p.lastHealed)) (fun _ => rfl) days
      (runPhase s (Phase.night ch))
    rw [runPhase_night_players, hnight] at hdays
    obtain ⟨doc', hdoc', he⟩ := getElem?_of_map_eq hdays hR
    simp only [Prod.mk.injEq] at he
    have hr' : doc'.role = Role.Doctor := he.1.trans hrole
    refine ⟨doc', hdoc', hr', he.2, ?_, ?_⟩
    · intro j q hq
      unfold nightFilter
      rw [hr']
      simp [he.2, hq]
    · intro ch' d' hd'
      obtain ⟨p0, hp0, _, hv⟩ := nightDecisions_valid ch' _ (i, d') hd'
      rw [hdoc'] at hp0
      simp only [Option.some.injEq] at hp0
      subst hp0
      rcases hv with hv | ⟨_, j, q, _, hf, hn⟩
      · exact Or.inl hv
      · right
        have := nightFilter_doctor hr' hf
        have hn' : q.playerName = d'.2 := hn
        rw [he.2, hn'] at this
        exact this
  · intro habs
    have hno : ¬ (doc.role = Role.Doctor ∧ d.1 = "heal") := by
      rw [habs]
      exact fun h => absurd h.2 (by decide)
    rw [if_neg hno] at hR
    obtain ⟨doc', hdoc', he⟩ := getElem?_of_map_eq hnight hR
    simp only [Prod.mk.injEq] at he
    exact ⟨doc', hdoc', he.2⟩

/-- Witness for C9: in the five-participant scenario the Doctor P2 heals P5;
after the night and one day phase, P5 fails its night filter. -/
theorem doctor_memory_witness :
    ∃ doc', (runPhases (runPhase scenarioGame (Phase.night scenarioChance))
        ([scenarioChance].map Phase.day)).players[1]? = some doc'
      ∧ doc'.role = Role.Doctor ∧ doc'.lastHealed = "P5"
      ∧ (∀ (j : Nat) (q : Player), q.playerName = "P5" → nightFilter 1 doc' (j, q) = false) :=
  match (doctor_memory scenarioChance scenarioGame 1
    (Player.new "P2" StrategyKind.Bot Role.Doctor) ("heal", "P5") (by decide) (by decide)
    (by decide)).1 rfl [scenarioChance] with
  | ⟨doc', h1, h2, h3, h4, _⟩ => ⟨doc', h1, h2, h3, h4⟩

/-! ## Commissar knowledge -/

/-- When the classification loop has recorded a Commissar, the recorded action
and target are its decision in the batch. -/
theorem classifiedVars_commissar_source (ch : Chance) (s : GameMaster) (c : Nat)
    (h : (classifiedVars ch s).commissarPlayer = some c) :
    (c, ((classifiedVars ch s).commissarAction, (classifiedVars ch s).commissarTarget))
      ∈ nightDecisions ch s := by
  have key := foldl_classify_induction (nightRoster ch s)
    (fun v => ∀ c, v.commissarPlayer = some c →
      (c, (v.commissarAction, v.commissarTarget)) ∈ nightDecisions ch s)
    (nightDecisions ch s) ?_ NightVars.init ?_
  · exact key c h
  · intro v e he hP c hc
    rcases classify_cases (nightRoster ch s) v e with hx | ⟨me, _, hx | hx | hx | hx | hx⟩
    · rw [hx] at hc ⊢; exact hP c hc
    · rw [hx.2.2.2] at hc ⊢; exact hP c hc
    · rw [hx.2.2] at hc ⊢; exact hP c hc
    · rw [hx.2.2.2] at hc ⊢; exact hP c hc
    · rw [hx.2.2] at hc ⊢
      simp only [Option.some.injEq] at hc
      subst hc
      exact he
    · rw [hx.2.2] at hc ⊢; exact hP c hc
  · intro c hc
    simp [NightVars.init] at hc

theorem isCheckedAndInnocent_of_mapFind {me : Player} {name : String}
    (h : mapFind me.checkedPlayers name = some false) :
    isCheckedAndInnocent me name = true := by
  unfold isCheckedAndInnocent
  rw [h]
  rfl

/-- The Commissar's block keeps an entry `name ↦ false` of the knowledge map
of the object at position `c`, provided a check by that object does not target
`name`. -/
theorem commissarResolve_keeps (v : NightVars) (s : GameMaster) (c : Nat) (cp : Player)
    (name : String) (hc : s.players[c]? = some cp)
    (hinn : mapFind cp.checkedPlayers name = some false)
    (hsafe : v.commissarPlayer = some c → v.commissarAction = "check" →
      v.commissarTarget ≠ name) :
    ∃ cp', (commissarResolve v s).players[c]? = some cp' ∧ cp'.role = cp.role
      ∧ mapFind cp'.checkedPlayers name = some false := by
  have hframe : ∀ l : List Player,
      l.map (fun p => (p.role, p.checkedPlayers))
        = s.players.map (fun p => (p.role, p.checkedPlayers)) →
      ∃ cp', l[c]? = some cp' ∧ cp'.role = cp.role
        ∧ mapFind cp'.checkedPlayers name = some false := by
    intro l hl
    obtain ⟨cp', h1, h2⟩ := getElem?_of_map_eq hl hc
    simp only [Prod.mk.injEq] at h2
    exact ⟨cp', h1, h2.1, by rw [h2.2]; exact hinn⟩
  unfold commissarResolve
  split_ifs with h1 h2 h3
  · exact hframe _ (map_killPlayer _ s.players _ (fun _ => rfl))
  · unfold commissarCheck
    cases findPlayerByName s.players v.commissarTarget with
    | none => exact hframe _ rfl
    | some t =>
      simp only
      cases s.players[t]? with
      | none => exact hframe _ rfl
      | some tp =>
        simp only
        cases hcp : v.commissarPlayer with
        | none => exact hframe _ rfl
        | some c' =>
          simp only
          cases hc' : s.players[c']? with
          | none => exact hframe _ rfl
          | some com =>
            simp only
            split_ifs
            · simp only
              rw [getElem?_updateAt]
              by_cases hcc : c = c'
              · subst hcc
                rw [if_pos rfl, hc]
                refine ⟨_, rfl, rfl, ?_⟩
                simp only [addCheckedPlayer]
                rw [mapFind_mapAssign_ne _ _ _ _ (hsafe hcp h3).symm]
                exact hinn
              · rw [if_neg hcc]
                exact ⟨cp, hc, rfl, hinn⟩
            · exact hframe _ rfl
  · exact hframe _ rfl
  · exact hframe _ rfl

/-- A night keeps an entry `name ↦ false` of a Commissar's knowledge map. -/
theorem playNightPhase_keeps (ch : Chance) (s : GameMaster) (c : Nat) (cp : Player)
    (name : String) (hc : s.players[c]? = some cp) (hrole : cp.role = Role.Commissar)
    (hinn : mapFind cp.checkedPlayers name = some false) :
    ∃ cp', (playNightPhase ch s).players[c]? = some cp' ∧ cp'.role = Role.Commissar
      ∧ mapFind cp'.checkedPlayers name = some false := by
  have hstat := deaths_static ch s (nightVars ch s)
  obtain ⟨cp3, hcp3, he'⟩ := getElem?_of_map_eq hstat hc
  simp only [Prod.mk.injEq] at he'
  have he := he'.2
  have hsafe : (nightVars ch s).commissarPlayer = some c →
      (nightVars ch s).commissarAction = "check" → (nightVars ch s).commissarTarget ≠ name := by
    intro h1 h2 h3
    have hsrc := classifiedVars_commissar_source ch s c h1
    obtain ⟨p0, hp0, _, hv⟩ := nightDecisions_valid ch s _ hsrc
    rw [hc] at hp0
    simp only [Option.some.injEq] at hp0
    subst hp0
    rcases hv with hv | ⟨_, j, q, _, hf, hn⟩
    · have : (classifiedVars ch s).commissarAction = "" := congrArg Prod.fst hv
      have h2' : (classifiedVars ch s).commissarAction = "check" := h2
      rw [h2'] at this
      exact absurd this (by decide)
    · have hq := (nightFilter_commissar hrole hf).1
      have hn' : q.playerName = (classifiedVars ch s).commissarTarget := hn
      have h3' : (classifiedVars ch s).commissarTarget = name := h3
      rw [hn', h3', isCheckedAndInnocent_of_mapFind hinn] at hq
      exact Bool.noConfusion hq
  obtain ⟨cp', h1, h2, h3⟩ := commissarResolve_keeps (nightVars ch s) _ c cp3 name hcp3
    (by rw [he.2]; exact hinn) hsafe
  refine ⟨cp', ?_, by rw [h2, he.1, hrole], h3⟩
  unfold playNightPhase
  rw [resolveNight_eq]
  exact h1

/-- Any sequence of phases keeps an entry `name ↦ false` of a Commissar's
knowledge map. -/
theorem runPhases_keeps (phases : List Phase) (c : Nat) (name : String) :
    ∀ (s : GameMaster) (cp : Player), s.players[c]? = some cp → cp.role = Role.Commissar →
      mapFind cp.checkedPlayers name = some false →
      ∃ cp', (runPhases s phases).players[c]? = some cp' ∧ cp'.role = Role.Commissar
        ∧ mapFind cp'.checkedPlayers name = some false := by
  induction phases with
  | nil => intro s cp hc hr hi; exact ⟨cp, hc, hr, hi⟩
  | cons ph rest ih =>
    intro s cp hc hr hi
    simp only [runPhases, List.foldl_cons] at ih ⊢
    cases ph with
    | day ch =>
      have hd := map_playDayPhase (fun p => (p.role, p.checkedPlayers)) (fun _ => rfl) ch s
      obtain ⟨cp1, h1, h2⟩ := getElem?_of_map_eq hd hc
      simp only [Prod.mk.injEq] at h2
      exact ih (runPhase s (Phase.day ch)) cp1 h1 (h2.1.trans hr) (by rw [h2.2]; exact hi)
    | night ch =>
      obtain ⟨cp1, h1, h2, h3⟩ := playNightPhase_keeps ch s c cp name hc hr hi
      exact ih (runPhase s (Phase.night ch)) cp1 h1 h2 h3

/-- C10: once a Commissar's knowledge map holds `name ↦ false`, after every
sequence of day and night phases the map still holds it, every candidate of
that name fails the Commissar's vote filter and night filter, and neither its
vote nor its night decision names it: each is the abstention or names
somebody else, for both decision providers and every input. -/
theorem commissar_innocent_excluded (s : GameMaster) (c : Nat) (cp : Player) (name : String)
    (hc : s.players[c]? = some cp) (hrole : cp.role = Role.Commissar)
    (hinn : mapFind cp.checkedPlayers name = some false) (phases : List Phase) :
    ∃ cp', (runPhases s phases).players[c]? = some cp' ∧ cp'.role = Role.Commissar
      ∧ mapFind cp'.checkedPlayers name = some false
      ∧ (∀ (j : Nat) (q : Player), q.playerName = name →
          voteFilter c cp' (j, q) = false ∧ nightFilter c cp' (j, q) = false)
      ∧ (∀ x : Choice, cp'.vote c (runPhases s phases).players x = ""
          ∨ cp'.vote c (runPhases s phases).players x ≠ name)
      ∧ (∀ (ch : Chance) (d : String × String),
          (c, d) ∈ nightDecisions ch (runPhases s phases) → d = ("", "") ∨ d.2 ≠ name) := by
  obtain ⟨cp', h1, h2, h3⟩ := runPhases_keeps phases c name s cp hc hrole hinn
  have hfil : ∀ (j : Nat) (q : Player), q.playerName = name →
      voteFilter c cp' (j, q) = false ∧ nightFilter c cp' (j, q) = false := by
    intro j q hq
    have hi := isCheckedAndInnocent_of_mapFind h3
    unfold voteFilter nightFilter
    rw [h2]
    simp [hq, hi]
  refine ⟨cp', h1, h2, h3, hfil, ?_, ?_⟩
  · intro x
    unfold Player.vote
    rcases strategyVote_spec cp'.strategy (runPhases s phases).players (voteFilter c cp') x
      with h | ⟨⟨j, q⟩, _, hf, hn⟩
    · exact Or.inl h
    · right
      intro heq
      have := (hfil j q (hn.trans heq)).1
      rw [hf] at this
      exact Bool.noConfusion this
  · intro ch d hd
    obtain ⟨p0, hp0, _, hv⟩ := nightDecisions_valid ch _ (c, d) hd
    rw [h1] at hp0
    simp only [Option.some.injEq] at hp0
    subst hp0
    rcases hv with hv | ⟨_, j, q, _, hf, hn⟩
    · exact Or.inl hv
    · right
      intro heq
      have hn' : q.playerName = d.2 := hn
      have := (hfil j q (hn'.trans heq)).2
      rw [hf] at this
      exact Bool.noConfusion this

/-- Witness for C10: after C has checked the Ninja N and recorded it as
innocent, a day and a night later N is still recorded and still excluded. -/
theorem commissar_innocent_excluded_witness :
    ∃ cp', (runPhases checkedGame [Phase.day ninjaChance, Phase.night ninjaChance]).players[0]?
        = some cp'
      ∧ cp'.role = Role.Commissar
      ∧ mapFind cp'.checkedPlayers "N" = some false
      ∧ (∀ (j : Nat) (q : Player), q.playerName = "N" →
          voteFilter 0 cp' (j, q) = false ∧ nightFilter 0 cp' (j, q) = false)
      ∧ (∀ x : Choice,
          cp'.vote 0 (runPhases checkedGame
              [Phase.day ninjaChance, Phase.night ninjaChance]).players x = ""
          ∨ cp'.vote 0 (runPhases checkedGame
              [Phase.day ninjaChance, Phase.night ninjaChance]).players x ≠ "N")
      ∧ (∀ (ch : Chance) (d : String × String),
          (0, d) ∈ nightDecisions ch
            (runPhases checkedGame [Phase.day ninjaChance, Phase.night ninjaChance]) →
          d = ("", "") ∨ d.2 ≠ "N") :=
  commissar_innocent_excluded checkedGame 0
    { Player.new "C" StrategyKind.Bot Role.Commissar with checkedPlayers := [("N", false)] }
    "N" (by decide) (by decide) (by decide) [Phase.day ninjaChance, Phase.night ninjaChance]

/-! ## The saved list -/

theorem commissarResolve_healed (v : NightVars) (s : GameMaster) :
    (commissarResolve v s).healedPlayers = s.healedPlayers := by
  unfold commissarResolve
  split_ifs
  · rfl
  · exact (commissarCheck_players v s).2.2
  · rfl
  · rfl

/-- The saved list after a night: the heal target is appended exactly when it
is non-empty and equals the mafia victim, the killer victim or the maniac
victim; the Commissar's kill target is not consulted. -/
theorem playNightPhase_healed (ch : Chance) (s : GameMaster) :
    (playNightPhase ch s).healedPlayers =
      if (nightVars ch s).doctorHeal ≠ "" ∧
          ((nightVars ch s).mafiaVictim = (nightVars ch s).doctorHeal
            ∨ (nightVars ch s).killerVictim = (nightVars ch s).doctorHeal
            ∨ (nightVars ch s).maniacVictim = (nightVars ch s).doctorHeal)
      then s.healedPlayers ++ [(nightVars ch s).doctorHeal] else s.healedPlayers := by
  unfold playNightPhase
  rw [resolveNight_eq, commissarResolve_healed, killUnlessHealed_healed,
    killUnlessHealed_healed, killUnlessHealed_healed]
  unfold recordSaved
  split_ifs <;> rfl

/-! ## Eligibility tables -/

theorem isCheckedAndInnocent_eq_false_iff (me : Player) (name : String) :
    isCheckedAndInnocent me name = false ↔ mapFind me.checkedPlayers name ≠ some false := by
  unfold isCheckedAndInnocent
  cases h : mapFind me.checkedPlayers name with
  | none => simp
  | some b => cases b <;> simp

theorem isMafia_iff (q : Player) :
    q.isMafia = true ↔ (q.role = Role.Mafia ∨ q.role = Role.Bull ∨ q.role = Role.Ninja
      ∨ q.role = Role.Killer) := by
  unfold Player.isMafia
  cases q.role <;> simp

/-- C11: the day-vote filter of each role. For Civilian, Doctor and Maniac a
candidate is eligible iff it is alive and is not the voter; for Mafia, Bull,
Ninja and Killer iff it is alive, is not the voter and is not Mafia-aligned
(Mafia, Bull, Ninja or Killer); for Commissar iff it is alive, is not the voter
and is not recorded as innocent (value `false`) in the voter's knowledge map.
The vote of a participant is its provider's vote under this filter. -/
theorem voteFilter_table (self : Nat) (me : Player) (j : Nat) (q : Player) :
    ((me.role = Role.Civilian ∨ me.role = Role.Doctor ∨ me.role = Role.Maniac) →
      (voteFilter self me (j, q) = true ↔ (q.alive = true ∧ j ≠ self)))
    ∧ ((me.role = Role.Mafia ∨ me.role = Role.Bull ∨ me.role = Role.Ninja
          ∨ me.role = Role.Killer) →
      (voteFilter self me (j, q) = true ↔
        (q.alive = true ∧ j ≠ self
          ∧ ¬ (q.role = Role.Mafia ∨ q.role = Role.Bull ∨ q.role = Role.Ninja
                ∨ q.role = Role.Killer))))
    ∧ (me.role = Role.Commissar →
      (voteFilter self me (j, q) = true ↔
        (q.alive = true ∧ j ≠ self ∧ mapFind me.checkedPlayers q.playerName ≠ some false)))
    ∧ (isAlliedWith q = true ↔
        (q.role = Role.Mafia ∨ q.role = Role.Bull ∨ q.role = Role.Ninja
          ∨ q.role = Role.Killer))
    ∧ (∀ (players : List Player) (c : Choice),
        me.vote self players c = strategyVote me.strategy players (voteFilter self me) c) := by
  refine ⟨?_, ?_, ?_, isMafia_iff q, fun _ _ => rfl⟩
  · intro h
    unfold voteFilter
    rcases h with h | h | h <;> rw [h] <;> simp
  · intro h
    have hm := isMafia_iff q
    unfold voteFilter isAlliedWith
    rcases h with h | h | h | h <;> rw [h] <;>
      simp only [Bool.and_eq_true, Bool.not_eq_true', bne_iff_ne, ne_eq] <;>
      (rw [← hm]; cases q.isMafia <;> simp)
  · intro h
    have hi := isCheckedAndInnocent_eq_false_iff me q.playerName
    unfold voteFilter
    rw [h]
    simp only [Bool.and_eq_true, Bool.not_eq_true', bne_iff_ne, ne_eq]
    rw [hi]
    tauto

/-- C12: the night vocabulary and night filter of each role. A Civilian
returns the abstention whatever the roster and the provider input are, and is
itself unchanged. A Doctor offers `heal` and a candidate is eligible iff it is
alive and its name is not `lastHealed` (the Doctor itself included); Mafia,
Bull, Ninja and Killer offer `kill`, eligible iff alive and not Mafia-aligned; a
Maniac offers `kill`, eligible iff alive and not the Maniac itself; a Commissar
offers `check` and `kill`, eligible iff alive, not the Commissar itself and not
recorded as innocent. The decision is the provider's choice under that
vocabulary and filter. -/
theorem nightAction_table (self : Nat) (me : Player) (players : List Player) (c : Choice)
    (j : Nat) (q : Player) :
    (me.role = Role.Civilian →
      ∀ (players' : List Player) (c' : Choice), me.nightAction self players' c' = (("", ""), me))
    ∧ (me.role = Role.Doctor →
      (me.nightAction self players c).1
          = strategyChooseAction me.strategy players ["heal"] (nightFilter self me) c
        ∧ (nightFilter self me (j, q) = true ↔
            (q.alive = true ∧ q.playerName ≠ me.lastHealed))
        ∧ (nightFilter self me (self, me) = true ↔
            (me.alive = true ∧ me.playerName ≠ me.lastHealed)))
    ∧ ((me.role = Role.Mafia ∨ me.role = Role.Bull ∨ me.role = Role.Ninja
          ∨ me.role = Role.Killer) →
      (me.nightAction self players c).1
          = strategyChooseAction me.strategy players ["kill"] (nightFilter self me) c
        ∧ (nightFilter self me (j, q) = true ↔
            (q.alive = true
              ∧ ¬ (q.role = Role.Mafia ∨ q.role = Role.Bull ∨ q.role = Role.Ninja
                    ∨ q.role = Role.Killer))))
    ∧ (me.role = Role.Maniac →
      (me.nightAction self players c).1
          = strategyChooseAction me.strategy players ["kill"] (nightFilter self me) c
        ∧ (nightFilter self me (j, q) = true ↔ (q.alive = true ∧ j ≠ self)))
    ∧ (me.role = Role.Commissar →
      (me.nightAction self players c).1
          = strategyChooseAction me.strategy players ["check", "kill"] (nightFilter self me) c
        ∧ (nightFilter self me (j, q) = true ↔
            (q.alive = true ∧ j ≠ self
              ∧ mapFind me.checkedPlayers q.playerName ≠ some false))) := by
  refine ⟨?_, ?_, ?_, ?_, ?_⟩
  · intro h players' c'
    unfold Player.nightAction
    rw [h]
  · intro h
    refine ⟨?_, ?_, ?_⟩
    · unfold Player.nightAction
      rw [h]
      simp only [nightActions]
      split_ifs <;> rfl
    · unfold nightFilter
      rw [h]
      simp
    · unfold nightFilter
      rw [h]
      simp
  · intro h
    have hm := isMafia_iff q
    refine ⟨?_, ?_⟩
    · unfold Player.nightAction
      rcases h with h | h | h | h <;> rw [h] <;> rfl
    · unfold nightFilter isAlliedWith
      rcases h with h | h | h | h <;> rw [h] <;>
        simp only [Bool.and_eq_true, Bool.not_eq_true'] <;>
        (rw [← hm]; cases q.isMafia <;> simp)
  · intro h
    refine ⟨?_, ?_⟩
    · unfold Player.nightAction
      rw [h]
      rfl
    · unfold nightFilter
      rw [h]
      simp
  · intro h
    have hi := isCheckedAndInnocent_eq_false_iff me q.playerName
    refine ⟨?_, ?_⟩
    · unfold Player.nightAction
      rw [h]
      rfl
    · unfold nightFilter
      rw [h]
      simp only [Bool.and_eq_true, Bool.not_eq_true', bne_iff_ne, ne_eq]
      rw [hi]
      tauto

/-! ## Decision provider contracts -/

theorem getRandomPlayer_eq_none_iff (candidates : List (Nat × Player)) (draw : Nat) :
    getRandomPlayer candidates draw = none ↔ candidates = [] := by
  unfold getRandomPlayer
  cases candidates with
  | nil => simp
  | cons a rest =>
    simp only [List.isEmpty_cons, Bool.false_eq_true, if_false]
    have hlt : draw % (a :: rest).length < (a :: rest).length := Nat.mod_lt _ (by simp)
    rw [List.getElem?_eq_getElem hlt]
    simp

theorem filter_eq_nil_iff_forall (players : List Player) (targetFilter : Nat × Player → Bool) :
    players.enum.filter targetFilter = [] ↔
      ∀ (j : Nat) (q : Player), players[j]? = some q → targetFilter (j, q) = false := by
  rw [List.filter_eq_nil_iff]
  constructor
  · intro h j q hq
    have := h (j, q) (List.mk_mem_enum_iff_getElem?.2 hq)
    simpa using this
  · intro h e he
    have := h e.1 e.2 (List.mk_mem_enum_iff_getElem?.1 he)
    simp [this]

/-- C13: both decision providers obey the contract, for every candidate list,
vocabulary, filter and input. `vote` returns the empty string or the name of a
candidate of the list that passes the filter; `chooseAction` returns
(empty, empty) or a pair of an action of the vocabulary and the name of a
candidate of the list that passes the filter. -/
theorem providers_obey_contract (players : List Player) (availableActions : List String)
    (targetFilter : Nat × Player → Bool) (draw r : Nat) (typedTarget typedAction : String) :
    (BotStrategy.vote players targetFilter draw = ""
      ∨ ∃ (j : Nat) (q : Player), players[j]? = some q ∧ targetFilter (j, q) = true
          ∧ q.playerName = BotStrategy.vote players targetFilter draw)
    ∧ (UserStrategy.vote players targetFilter typedTarget = ""
      ∨ ∃ (j : Nat) (q : Player), players[j]? = some q ∧ targetFilter (j, q) = true
          ∧ q.playerName = UserStrategy.vote players targetFilter typedTarget)
    ∧ (BotStrategy.chooseAction players availableActions targetFilter draw r = ("", "")
      ∨ ((BotStrategy.chooseAction players availableActions targetFilter draw r).1
            ∈ availableActions
          ∧ ∃ (j : Nat) (q : Player), players[j]? = some q ∧ targetFilter (j, q) = true
              ∧ q.playerName
                = (BotStrategy.chooseAction players availableActions targetFilter draw r).2))
    ∧ (UserStrategy.chooseAction players availableActions targetFilter typedTarget typedAction
          = ("", "")
      ∨ ((UserStrategy.chooseAction players availableActions targetFilter typedTarget
            typedAction).1 ∈ availableActions
          ∧ ∃ (j : Nat) (q : Player), players[j]? = some q ∧ targetFilter (j, q) = true
              ∧ q.playerName
                = (UserStrategy.chooseAction players availableActions targetFilter typedTarget
                    typedAction).2)) := by
  have conv : ∀ x : String, (∃ e ∈ players.enum, targetFilter e = true ∧ e.2.playerName = x) →
      ∃ (j : Nat) (q : Player), players[j]? = some q ∧ targetFilter (j, q) = true
        ∧ q.playerName = x := by
    rintro x ⟨⟨j, q⟩, he, hf, hn⟩
    exact ⟨j, q, List.mk_mem_enum_iff_getElem?.1 he, hf, hn⟩
  refine ⟨?_, ?_, ?_, ?_⟩
  · rcases strategyVote_spec StrategyKind.Bot players targetFilter
      { pick := draw, actionRand := r, typedTarget := typedTarget, typedAction := typedAction }
      with h | h
    · exact Or.inl h
    · exact Or.inr (conv _ h)
  · rcases strategyVote_spec StrategyKind.User players targetFilter
      { pick := draw, actionRand := r, typedTarget := typedTarget, typedAction := typedAction }
      with h | h
    · exact Or.inl h
    · exact Or.inr (conv _ h)
  · rcases strategyChooseAction_spec StrategyKind.Bot players availableActions targetFilter
      { pick := draw, actionRand := r, typedTarget := typedTarget, typedAction := typedAction }
      with h | ⟨h1, h2⟩
    · exact Or.inl h
    · exact Or.inr ⟨h1, conv _ h2⟩
  · rcases strategyChooseAction_spec StrategyKind.User players availableActions targetFilter
      { pick := draw, actionRand := r, typedTarget := typedTarget, typedAction := typedAction }
      with h | ⟨h1, h2⟩
    · exact Or.inl h
    · exact Or.inr ⟨h1, conv _ h2⟩

/-- C14: the automated provider over candidates with non-empty names. `vote`
abstains iff no candidate passes the filter; `chooseAction` abstains iff no
candidate passes the filter or the vocabulary is empty; with no eligible
candidate both return the abstention (there is no error result); and
`getRandomPlayer` returns `nullptr` exactly on the empty list and otherwise the
element at an index within the bounds of the list. -/
theorem botStrategy_abstains_iff (players : List Player) (availableActions : List String)
    (targetFilter : Nat × Player → Bool) (draw r : Nat)
    (hnames : ∀ p ∈ players, p.playerName ≠ "") :
    (BotStrategy.vote players targetFilter draw = "" ↔
      ∀ (j : Nat) (q : Player), players[j]? = some q → targetFilter (j, q) = false)
    ∧ (BotStrategy.chooseAction players availableActions targetFilter draw r = ("", "") ↔
      ((∀ (j : Nat) (q : Player), players[j]? = some q → targetFilter (j, q) = false)
        ∨ availableActions = []))
    ∧ (∀ (candidates : List (Nat × Player)) (d : Nat),
        (candidates = [] → getRandomPlayer candidates d = none)
        ∧ (candidates ≠ [] → d % candidates.length < candidates.length
            ∧ ∃ t, getRandomPlayer candidates d = some t
                ∧ candidates[d % candidates.length]? = some t)) := by
  have hname : ∀ t, getRandomPlayer (players.enum.filter targetFilter) draw = some t →
      t.2.playerName ≠ "" := by
    intro t ht
    have hm := getRandomPlayer_mem ht
    rw [List.mem_filter] at hm
    exact hnames t.2 (List.snd_mem_of_mem_enum hm.1)
  refine ⟨?_, ?_, ?_⟩
  · rw [← filter_eq_nil_iff_forall, ← getRandomPlayer_eq_none_iff _ draw]
    simp only [BotStrategy.vote]
    cases h : getRandomPlayer (players.enum.filter targetFilter) draw with
    | none => simp
    | some t => simpa using hname t h
  · rw [← filter_eq_nil_iff_forall, ← getRandomPlayer_eq_none_iff _ draw]
    simp only [BotStrategy.chooseAction]
    cases h : getRandomPlayer (players.enum.filter targetFilter) draw with
    | none => simp
    | some t =>
      cases availableActions with
      | nil => simp
      | cons a rest =>
        have := hname t h
        simp [this]
  · intro candidates d
    constructor
    · intro h
      exact (getRandomPlayer_eq_none_iff candidates d).2 h
    · intro h
      have hlen : 0 < candidates.length := List.length_pos.2 h
      have hlt : d % candidates.length < candidates.length := Nat.mod_lt _ hlen
      refine ⟨hlt, candidates[d % candidates.length], ?_, List.getElem?_eq_getElem hlt⟩
      unfold getRandomPlayer
      have hne : candidates.isEmpty = false := by
        cases candidates with
        | nil => exact absurd rfl h
        | cons a rest => rfl
      rw [hne]
      simp only [Bool.false_eq_true, if_false]
      exact List.getElem?_eq_getElem hlt

/-- Witness for C14: over the five-participant scenario roster, with a filter
nobody passes, the automated provider abstains from the vote and from the
night action. -/
theorem botStrategy_abstains_iff_witness :
    BotStrategy.vote scenarioGame.players (fun _ => false) 0 = ""
    ∧ BotStrategy.chooseAction scenarioGame.players ["kill"] (fun _ => false) 0 0 = ("", "") :=
  have h := botStrategy_abstains_iff scenarioGame.players ["kill"] (fun _ => false) 0 0
    (by decide)
  ⟨h.1.2 (fun _ _ _ => rfl), h.2.1.2 (Or.inl (fun _ _ _ => rfl))⟩

/-- C15: the interactive provider, for every supplied target and action string.
`chooseAction` returns exactly (action, target) when some candidate of the list
has that name and passes the filter and the action is in the vocabulary, and
(empty, empty) otherwise; `vote` returns the supplied name when some candidate
has that name and passes the filter, and the empty string otherwise. The result
is a function of the one supplied input: nothing is read again and there is no
error result. -/
theorem userStrategy_validates (players : List Player) (availableActions : List String)
    (targetFilter : Nat × Player → Bool) (target action : String) :
    (((∃ (j : Nat) (q : Player), players[j]? = some q ∧ q.playerName = target
          ∧ targetFilter (j, q) = true) ∧ action ∈ availableActions) →
      UserStrategy.chooseAction players availableActions targetFilter target action
        = (action, target))
    ∧ (¬ ((∃ (j : Nat) (q : Player), players[j]? = some q ∧ q.playerName = target
          ∧ targetFilter (j, q) = true) ∧ action ∈ availableActions) →
      UserStrategy.chooseAction players availableActions targetFilter target action = ("", ""))
    ∧ ((∃ (j : Nat) (q : Player), players[j]? = some q ∧ q.playerName = target
          ∧ targetFilter (j, q) = true) →
      UserStrategy.vote players targetFilter target = target)
    ∧ (¬ (∃ (j : Nat) (q : Player), players[j]? = some q ∧ q.playerName = target
          ∧ targetFilter (j, q) = true) →
      UserStrategy.vote players targetFilter target = "") := by
  have hany : (players.enum.any (fun e => e.2.playerName == target && targetFilter e)) = true ↔
      ∃ (j : Nat) (q : Player), players[j]? = some q ∧ q.playerName = target
        ∧ targetFilter (j, q) = true := by
    rw [List.any_eq_true]
    constructor
    · rintro ⟨⟨j, q⟩, he, hc⟩
      simp only [Bool.and_eq_true, beq_iff_eq] at hc
      exact ⟨j, q, List.mk_mem_enum_iff_getElem?.1 he, hc.1, hc.2⟩
    · rintro ⟨j, q, hq, hn, hf⟩
      exact ⟨(j, q), List.mk_mem_enum_iff_getElem?.2 hq, by simp [hn, hf]⟩
  have hmem : availableActions.contains action = true ↔ action ∈ availableActions := by
    simp
  refine ⟨?_, ?_, ?_, ?_⟩
  · rintro ⟨h1, h2⟩
    unfold UserStrategy.chooseAction
    rw [if_pos]
    rw [Bool.and_eq_true]
    exact ⟨hany.2 h1, hmem.2 h2⟩
  · intro h
    unfold UserStrategy.chooseAction
    rw [if_neg]
    rw [Bool.and_eq_true]
    exact fun hc => h ⟨hany.1 hc.1, hmem.1 hc.2⟩
  · intro h
    unfold UserStrategy.vote
    rw [if_pos (hany.2 h)]
  · intro h
    unfold UserStrategy.vote
    rw [if_neg (fun hc => h (hany.1 hc))]

/-! ## Counts of the living -/

/-- C20: the three counts of `isGameOver` partition the living participants:
their sum is the number of participants whose liveness flag is set. -/
theorem counts_partition_alive (players : List Player) :
    mafiaAlive players + maniacAlive players + otherAlive players
      = players.countP (fun p => p.alive) := by
  unfold mafiaAlive maniacAlive otherAlive
  induction players with
  | nil => rfl
  | cons p rest ih =>
    simp only [List.countP_cons]
    have hp : ((if (p.alive && p.isMafia) = true then 1 else 0)
        + (if (p.alive && p.isManiac) = true then 1 else 0)
        + (if (p.alive && !p.isMafia && !p.isManiac) = true then 1 else 0) : Nat)
          = if p.alive = true then 1 else 0 := by
      unfold Player.isMafia Player.isManiac
      cases p.alive <;> cases p.role <;> decide
    omega

/-! ## The day phase -/

theorem voteFilter_alive {self : Nat} {me : Player} {e : Nat × Player}
    (h : voteFilter self me e = true) : e.2.alive = true := by
  unfold voteFilter at h
  cases hr : me.role <;> rw [hr] at h <;> simp at h <;> simp [h]

/-- Every vote of a day is the empty string or the name of a participant that
is alive before the phase. -/
theorem dayResults_valid (choice : Nat → Choice) (players : List Player) (v : String)
    (h : v ∈ dayResults choice players) :
    v = "" ∨ ∃ (j : Nat) (q : Player),
      players[j]? = some q ∧ q.alive = true ∧ q.playerName = v := by
  unfold dayResults at h
  rw [List.mem_map] at h
  obtain ⟨e, _, rfl⟩ := h
  unfold Player.vote
  rcases strategyVote_spec e.2.strategy players (voteFilter e.1 e.2) (choice e.1)
    with h | ⟨⟨j, q⟩, he, hf, hn⟩
  · exact Or.inl h
  · exact Or.inr ⟨j, q, List.mk_mem_enum_iff_getElem?.1 he, voteFilter_alive hf, hn⟩

theorem mapIncrement_pos (m : List (String × Nat)) (k : String)
    (h : ∀ e ∈ m, 1 ≤ e.2) : ∀ e ∈ mapIncrement m k, 1 ≤ e.2 := by
  induction m with
  | nil =>
    intro e he
    simp [mapIncrement] at he
    subst he
    exact Nat.le_refl 1
  | cons a rest ih =>
    intro e he
    unfold mapIncrement at he
    split_ifs at he with ha
    · rcases List.mem_cons.1 he with rfl | he
      · exact Nat.le_add_left 1 _
      · exact h e (List.mem_cons_of_mem _ he)
    · rcases List.mem_cons.1 he with rfl | he
      · exact h e (List.mem_cons_self _ _)
      · exact ih (fun x hx => h x (List.mem_cons_of_mem _ hx)) e he

theorem mapIncrement_nodup (m : List (String × Nat)) (k : String)
    (h : (m.map Prod.fst).Nodup) : ((mapIncrement m k).map Prod.fst).Nodup := by
  induction m with
  | nil => simp [mapIncrement]
  | cons a rest ih =>
    simp only [List.map_cons, List.nodup_cons] at h
    unfold mapIncrement
    split_ifs with ha
    · simp only [List.map_cons, List.nodup_cons]
      exact h
    · simp only [List.map_cons, List.nodup_cons]
      refine ⟨?_, ih h.2⟩
      rw [mapIncrement_keys]
      rintro (hm | hk)
      · exact h.1 hm
      · exact ha hk

/-- The tally loop from any starting map: the keys are the starting keys and
the non-empty votes, every count is at least 1, and the keys stay distinct. -/
theorem foldl_tally (results : List String) :
    ∀ m : List (String × Nat),
      (∀ x, x ∈ (results.foldl (fun voteCount target =>
            if target ≠ "" then mapIncrement voteCount target else voteCount) m).map Prod.fst
          ↔ (x ∈ m.map Prod.fst ∨ (x ∈ results ∧ x ≠ "")))
      ∧ ((∀ e ∈ m, 1 ≤ e.2) → ∀ e ∈ results.foldl (fun voteCount target =>
            if target ≠ "" then mapIncrement voteCount target else voteCount) m, 1 ≤ e.2)
      ∧ ((m.map Prod.fst).Nodup → ((results.foldl (fun voteCount target =>
            if target ≠ "" then mapIncrement voteCount target else voteCount) m).map
              Prod.fst).Nodup) := by
  induction results with
  | nil => intro m; simp
  | cons v rest ih =>
    intro m
    simp only [List.foldl_cons]
    by_cases hv : v ≠ ""
    · rw [if_pos hv]
      obtain ⟨h1, h2, h3⟩ := ih (mapIncrement m v)
      refine ⟨fun x => ?_, fun hm => h2 (mapIncrement_pos m v hm),
        fun hm => h3 (mapIncrement_nodup m v hm)⟩
      rw [h1, mapIncrement_keys, List.mem_cons]
      constructor
      · rintro ((h | h) | h)
        · exact Or.inl h
        · exact Or.inr ⟨Or.inl h, h ▸ hv⟩
        · exact Or.inr ⟨Or.inr h.1, h.2⟩
      · rintro (h | ⟨h | h, hx⟩)
        · exact Or.inl (Or.inl h)
        · exact Or.inl (Or.inr h)
        · exact Or.inr ⟨h, hx⟩
    · rw [if_neg hv]
      obtain ⟨h1, h2, h3⟩ := ih m
      refine ⟨fun x => ?_, h2, h3⟩
      rw [h1, List.mem_cons]
      have hv' : v = "" := not_not.1 hv
      constructor
      · rintro (h | h)
        · exact Or.inl h
        · exact Or.inr ⟨Or.inr h.1, h.2⟩
      · rintro (h | ⟨h | h, hx⟩)
        · exact Or.inl h
        · exact absurd (h.trans hv') hx
        · exact Or.inr ⟨h, hx⟩

/-- The day tally: its keys are the non-empty votes, every count is at least 1
and the keys are distinct. -/
theorem countVotes_spec (results : List String) :
    (∀ x, x ∈ (countVotes results).map Prod.fst ↔ (x ∈ results ∧ x ≠ ""))
    ∧ (∀ e ∈ countVotes results, 1 ≤ e.2)
    ∧ ((countVotes results).map Prod.fst).Nodup := by
  obtain ⟨h1, h2, h3⟩ := foldl_tally results []
  refine ⟨fun x => ?_, h2 (by simp), h3 (by simp)⟩
  have := h1 x
  simpa [countVotes] using this

/-- With at least one non-empty vote, the leader of the day tie-break is an
entry of the tally with the maximum count, and a non-empty vote. -/
theorem day_leader (ch : Chance) (results : List String) (h : ∃ v ∈ results, v ≠ "") :
    ((tieBreak ch.coins (ch.order (countVotes results))).name,
        (tieBreak ch.coins (ch.order (countVotes results))).maxVotes) ∈ countVotes results
    ∧ (∀ e ∈ countVotes results,
        e.2 ≤ (tieBreak ch.coins (ch.order (countVotes results))).maxVotes)
    ∧ (tieBreak ch.coins (ch.order (countVotes results))).name ∈ results
    ∧ (tieBreak ch.coins (ch.order (countVotes results))).name ≠ "" := by
  obtain ⟨hkeys, hpos, _⟩ := countVotes_spec results
  obtain ⟨h1, h2⟩ := tieBreak_result ch.coins (ch.order (countVotes results))
  have hperm := ch.order_perm (countVotes results)
  have hbound : ∀ e ∈ countVotes results,
      e.2 ≤ (tieBreak ch.coins (ch.order (countVotes results))).maxVotes :=
    fun e he => h2 e (hperm.mem_iff.2 he)
  have hmem : ((tieBreak ch.coins (ch.order (countVotes results))).name,
      (tieBreak ch.coins (ch.order (countVotes results))).maxVotes) ∈ countVotes results := by
    rcases h1 with ⟨_, hz⟩ | h1
    · obtain ⟨v, hv, hne⟩ := h
      have hk := (hkeys v).2 ⟨hv, hne⟩
      rw [List.mem_map] at hk
      obtain ⟨e, he, _⟩ := hk
      have := hpos e he
      have := hbound e he
      omega
    · exact hperm.mem_iff.1 h1
  have hk := (hkeys _).1 (List.mem_map_of_mem Prod.fst hmem)
  exact ⟨hmem, hbound, hk.1, hk.2⟩

/-- C16: in a day phase over a roster with unique names in which at least one
vote is non-empty, the leader of the tie-break over the tally (an entry with
the maximum count) is the name of exactly one participant, which was alive; that
participant is dead after `playDayPhase` and every other participant object is
unchanged. -/
theorem playDayPhase_eliminates (ch : Chance) (s : GameMaster)
    (hnames : (s.players.map Player.playerName).Nodup)
    (hvote : ∃ v ∈ dayResults ch.choice s.players, v ≠ "") :
    ∃ (k : Nat) (p : Player), s.players[k]? = some p ∧ p.alive = true
      ∧ p.playerName
          = (tieBreak ch.coins (ch.order (countVotes (dayResults ch.choice s.players)))).name
      ∧ (p.playerName,
          (tieBreak ch.coins (ch.order (countVotes (dayResults ch.choice s.players)))).maxVotes)
          ∈ countVotes (dayResults ch.choice s.players)
      ∧ (∀ e ∈ countVotes (dayResults ch.choice s.players), e.2 ≤
          (tieBreak ch.coins (ch.order (countVotes (dayResults ch.choice s.players)))).maxVotes)
      ∧ (playDayPhase ch s).players[k]? = some p.die
      ∧ (∀ i : Nat, i ≠ k → (playDayPhase ch s).players[i]? = s.players[i]?)
      ∧ (∀ (i : Nat) (q q' : Player), s.players[i]? = some q →
          (playDayPhase ch s).players[i]? = some q' →
          ((q.alive = true ∧ q'.alive = false) ↔ i = k)) := by
  obtain ⟨hmem, hbound, hres, hne⟩ := day_leader ch (dayResults ch.choice s.players) hvote
  rcases dayResults_valid ch.choice s.players _ hres with h0 | ⟨k, p, hk, ha, hn⟩
  · exact absurd h0 hne
  · have hfind : findPlayerByName s.players
        (tieBreak ch.coins (ch.order (countVotes (dayResults ch.choice s.players)))).name
          = some k := by
      rw [← hn]; exact findPlayerByName_of_nodup hnames hk
    have hplay : (playDayPhase ch s).players = updateAt s.players k Player.die := by
      unfold playDayPhase
      simp only
      rw [if_pos hne, hfind]
    have hkk : (playDayPhase ch s).players[k]? = some p.die := by
      rw [hplay, getElem?_updateAt, if_pos rfl, hk]; rfl
    have hother : ∀ i : Nat, i ≠ k → (playDayPhase ch s).players[i]? = s.players[i]? := by
      intro i hi
      rw [hplay, getElem?_updateAt, if_neg hi]
    refine ⟨k, p, hk, ha, hn, by rw [hn]; exact hmem, hbound, hkk, hother, ?_⟩
    intro i q q' hq hq'
    constructor
    · rintro ⟨h1, h2⟩
      by_contra hik
      rw [hother i hik, hq] at hq'
      simp only [Option.some.injEq] at hq'
      subst hq'
      rw [h1] at h2
      exact Bool.noConfusion h2
    · rintro rfl
      rw [hk] at hq
      rw [hkk] at hq'
      simp only [Option.some.injEq] at hq hq'
      subst hq hq'
      exact ⟨ha, rfl⟩

/-- Witness for C16: the first day of the five-participant scenario, in which
P1 collects two votes and is eliminated. -/
theorem playDayPhase_eliminates_witness :
    ∃ (k : Nat) (p : Player), scenarioGame.players[k]? = some p ∧ p.alive = true
      ∧ p.playerName = "P1"
      ∧ (playDayPhase scenarioChance scenarioGame).players[k]? = some p.die
      ∧ (∀ i : Nat, i ≠ k →
          (playDayPhase scenarioChance scenarioGame).players[i]? = scenarioGame.players[i]?) :=
  match playDayPhase_eliminates scenarioChance scenarioGame (by decide)
    ⟨"P5", by decide, by decide⟩ with
  | ⟨k, p, h1, h2, h3, _, _, h6, h7, _⟩ => ⟨k, p, h1, h2, h3.trans (by decide), h6, h7⟩

/-- C17: in a day phase in which every vote is empty, the tally is empty,
nobody is eliminated and the state after `playDayPhase` is the state before. -/
theorem playDayPhase_all_abstain (ch : Chance) (s : GameMaster)
    (habstain : ∀ v ∈ dayResults ch.choice s.players, v = "") :
    countVotes (dayResults ch.choice s.players) = []
    ∧ (tieBreak ch.coins (ch.order (countVotes (dayResults ch.choice s.players)))).name = ""
    ∧ playDayPhase ch s = s
    ∧ (playDayPhase ch s).players.map Player.alive = s.players.map Player.alive := by
  have hnil : countVotes (dayResults ch.choice s.players) = [] := by
    obtain ⟨hkeys, _, _⟩ := countVotes_spec (dayResults ch.choice s.players)
    cases hc : countVotes (dayResults ch.choice s.players) with
    | nil => rfl
    | cons e rest =>
      exfalso
      have := (hkeys e.1).1 (by rw [hc]; simp)
      exact this.2 (habstain e.1 this.1)
  have hord : ch.order [] = [] := List.perm_nil.1 (ch.order_perm [])
  have hname : (tieBreak ch.coins
      (ch.order (countVotes (dayResults ch.choice s.players)))).name = "" := by
    rw [hnil, hord]; rfl
  have hs : playDayPhase ch s = s := by
    unfold playDayPhase
    simp only
    rw [if_neg (fun h => h hname)]
  exact ⟨hnil, hname, hs, by rw [hs]⟩
/-- Witness for C17: with only the Maniac alive nobody is eligible, the one
vote is empty and the day changes nothing. -/
theorem playDayPhase_all_abstain_witness :
    countVotes (dayResults scenarioChance.choice loneGame.players) = []
    ∧ (tieBreak scenarioChance.coins
        (scenarioChance.order (countVotes (dayResults scenarioChance.choice
          loneGame.players)))).name = ""
    ∧ playDayPhase scenarioChance loneGame = loneGame
    ∧ (playDayPhase scenarioChance loneGame).players.map Player.alive
        = loneGame.players.map Player.alive :=
  playDayPhase_all_abstain scenarioChance loneGame (by decide)

/-! ## The mafia tally and the Killer -/

theorem mapCount_mapIncrement (m : List (String × Nat)) (k x : String) :
    mapCount (mapIncrement m k) x = mapCount m x + (if k = x then 1 else 0) := by
  induction m with
  | nil =>
    simp only [mapIncrement, mapCount]
    split_ifs <;> rfl
  | cons e rest ih =>
    unfold mapIncrement
    by_cases he : e.1 = k
    · rw [if_pos he]
      simp only [mapCount]
      by_cases hx : e.1 = x
      · rw [if_pos hx, if_pos hx, if_pos (he.symm.trans hx)]
      · rw [if_neg hx, if_neg hx, if_neg (fun h => hx (he.trans h))]
        rfl
    · rw [if_neg he]
      simp only [mapCount]
      by_cases hx : e.1 = x
      · rw [if_pos hx, if_pos hx, if_neg (fun h => he (hx.trans h.symm))]
        rfl
      · rw [if_neg hx, if_neg hx, ih]

theorem mapCount_foldl_mapIncrement (targets : List String) (x : String) :
    ∀ m : List (String × Nat),
      mapCount (targets.foldl mapIncrement m) x = mapCount m x + targets.count x := by
  induction targets with
  | nil => intro m; simp
  | cons t rest ih =>
    intro m
    simp only [List.foldl_cons]
    rw [ih, mapCount_mapIncrement, List.count_cons]
    by_cases h : t = x
    · simp [h]; omega
    · have h' : ¬ (t == x) = true := by simpa using h
      simp [h, h']

theorem nodup_foldl_mapIncrement (targets : List String) :
    ∀ m : List (String × Nat), (m.map Prod.fst).Nodup →
      ((targets.foldl mapIncrement m).map Prod.fst).Nodup := by
  induction targets with
  | nil => intro m h; exact h
  | cons t rest ih =>
    intro m h
    simp only [List.foldl_cons]
    exact ih _ (mapIncrement_nodup m t h)

/-- One classification step changes the mafia tally exactly under the test of
the first branch, by one increment at the target. -/
theorem classify_mafiaVotes (players : List Player) (v : NightVars)
    (e : Nat × (String × String)) :
    (classify players v e).mafiaVotes
      = if isMafiaKill players e = true then mapIncrement v.mafiaVotes e.2.2
        else v.mafiaVotes := by
  unfold classify isMafiaKill
  cases hme : players[e.1]? with
  | none => simp
  | some me =>
    simp only
    by_cases hk : e.2.1 = "kill"
    · have hb : (e.2.1 == "kill") = true := by simp [hk]
      rw [if_pos hk, hb]
      simp only [Bool.true_and]
      cases hM : (me.isMafia && !me.isKiller) with
      | true => simp
      | false =>
        simp only [Bool.false_eq_true, if_false]
        cases hf : findPlayerByName players e.2.2 with
        | none =>
          simp only
          split_ifs <;> rfl
        | some victim =>
          simp only
          cases hv : players[victim]? with
          | none =>
            simp only
            split_ifs <;> rfl
          | some vp =>
            simp only
            split_ifs <;> rfl
    · have hb : (e.2.1 == "kill") = false := by simp [hk]
      rw [if_neg hk, hb]
      simp only [Bool.false_and, Bool.false_eq_true, if_false]
      split_ifs <;> rfl

theorem foldl_classify_mafiaVotes (players : List Player)
    (batch : List (Nat × (String × String))) :
    ∀ v : NightVars, (batch.foldl (classify players) v).mafiaVotes
      = ((batch.filter (isMafiaKill players)).map (fun e => e.2.2)).foldl mapIncrement
          v.mafiaVotes := by
  induction batch with
  | nil => intro v; rfl
  | cons e rest ih =>
    intro v
    simp only [List.foldl_cons]
    rw [ih, classify_mafiaVotes, List.filter_cons]
    by_cases h : isMafiaKill players e = true
    · rw [if_pos h, if_pos h]
      rfl
    · rw [if_neg h, if_neg h]

theorem isMafiaKill_eq (ch : Chance) (s : GameMaster) (e : Nat × (String × String)) :
    isMafiaKill (nightRoster ch s) e
      = (match s.players[e.1]? with
        | some p => e.2.1 == "kill"
            && (p.role == Role.Mafia || p.role == Role.Bull || p.role == Role.Ninja)
        | none => false) := by
  unfold isMafiaKill
  cases hp : s.players[e.1]? with
  | none =>
    have : (nightRoster ch s)[e.1]? = none := by
      rw [List.getElem?_eq_none_iff] at hp ⊢
      rw [nightRoster_length]; exact hp
    rw [this]
  | some p =>
    obtain ⟨p1, hp1, hc⟩ := nightRoster_getElem? ch s hp
    rw [hp1]
    simp only [Player.core, Prod.mk.injEq] at hc
    simp only [Player.isMafia, Player.isKiller, hc.2.2.2.1]
    cases p.role <;> simp

/-- The mafia tally after the classification loop is the tally of the targets
of the `kill` decisions made by Mafia, Bull and Ninja participants. -/
theorem classifiedVars_mafiaVotes (ch : Chance) (s : GameMaster) :
    (classifiedVars ch s).mafiaVotes
      = (mafiaKillTargets s.players (nightDecisions ch s)).foldl mapIncrement [] := by
  unfold classifiedVars mafiaKillTargets
  rw [foldl_classify_mafiaVotes]
  have hf : isMafiaKill (nightRoster ch s) = (fun e =>
      match s.players[e.1]? with
      | some p => e.2.1 == "kill"
          && (p.role == Role.Mafia || p.role == Role.Bull || p.role == Role.Ninja)
      | none => false) := funext (isMafiaKill_eq ch s)
  rw [hf]
  rfl
/-- A classification step for a participant that is not a Killer leaves the
killer victim as it is. -/
theorem classify_killer_frame (players : List Player) (v : NightVars)
    (e : Nat × (String × String))
    (h : ∀ me, players[e.1]? = some me → me.isKiller = false) :
    (classify players v e).killerVictim = v.killerVictim := by
  rcases classify_cases players v e with hc | ⟨me, hme, hc | hc | hc | hc | hc⟩
  · rw [hc]
  · rw [hc.2.2.2]
  · have := h me hme
    rw [hc.2.1] at this
    exact Bool.noConfusion this
  · rw [hc.2.2.2]
  · rw [hc.2.2]
  · rw [hc.2.2]

theorem foldl_classify_killer_frame (players : List Player)
    (batch : List (Nat × (String × String)))
    (h : ∀ e ∈ batch, ∀ me, players[e.1]? = some me → me.isKiller = false) :
    ∀ v : NightVars, (batch.foldl (classify players) v).killerVictim = v.killerVictim := by
  induction batch with
  | nil => intro v; rfl
  | cons e rest ih =>
    intro v
    simp only [List.foldl_cons]
    rw [ih (fun x hx => h x (List.mem_cons_of_mem _ hx)),
      classify_killer_frame players v e (h e (List.mem_cons_self _ _))]

/-- With a single Killer in the roster, the target of its `kill` decision is
the killer victim after the classification loop. -/
theorem classifiedVars_single_killer (ch : Chance) (s : GameMaster) (k : Nat) (killer : Player)
    (target : String) (hk : s.players[k]? = some killer) (hrole : killer.role = Role.Killer)
    (honly : ∀ (j : Nat) (p : Player), s.players[j]? = some p → p.role = Role.Killer → j = k)
    (hdec : (k, ("kill", target)) ∈ nightDecisions ch s) :
    (classifiedVars ch s).killerVictim = target := by
  have hnd : ((nightDecisions ch s).map Prod.fst).Nodup := by
    rw [nightDecisions_positions]; exact nodup_aliveIndices s.players
  obtain ⟨pre, post, hsplit⟩ := List.append_of_mem hdec
  obtain ⟨k1, hk1, hkc⟩ := nightRoster_getElem? ch s hk
  have hk1r : k1.role = Role.Killer := by
    simp only [Player.core, Prod.mk.injEq] at hkc
    rw [hkc.2.2.2.1]; exact hrole
  have hpost : ∀ e ∈ post, ∀ me, (nightRoster ch s)[e.1]? = some me →
      me.isKiller = false := by
    intro e he me hme
    have hne : e.1 ≠ k := by
      rw [hsplit, List.map_append, List.map_cons, List.nodup_append] at hnd
      have h2 := hnd.2.1
      rw [List.nodup_cons] at h2
      intro heq
      exact h2.1 (List.mem_map.2 ⟨e, he, heq⟩)
    cases hb : me.isKiller with
    | false => rfl
    | true =>
      exfalso
      have hlt : e.1 < s.players.length := by
        rw [← nightRoster_length ch s]
        exact (List.getElem?_eq_some.1 hme).1
      obtain ⟨p1, hp1, hpc⟩ := nightRoster_getElem? ch s (List.getElem?_eq_getElem hlt)
      rw [hme] at hp1
      simp only [Option.some.injEq] at hp1
      subst hp1
      simp only [Player.core, Prod.mk.injEq] at hpc
      apply hne
      apply honly e.1 _ (List.getElem?_eq_getElem hlt)
      rw [← hpc.2.2.2.1]
      simpa [Player.isKiller] using hb
  unfold classifiedVars
  rw [hsplit, List.foldl_append, List.foldl_cons, foldl_classify_killer_frame _ post hpost]
  unfold classify
  simp only [hk1]
  simp [Player.isMafia, Player.isKiller, hk1r]

/-- C18, amended: the mafia tally of a night holds, for every name, the number of `kill`
decisions on that name made by living Mafia, Bull and Ninja participants (its
keys are distinct), and the mafia victim is the tie-break leader of that tally.
A classification step for a Killer never changes the tally; the target of the
roster's Killer is recorded as the killer victim, and over unique names a
non-empty Killer target other than the heal target belongs to a participant
that was alive and is dead after `playNightPhase`, whatever the mafia victim is. -/
theorem mafia_tally_and_killer (ch : Chance) (s : GameMaster) :
    (∀ x : String, mapCount (nightVars ch s).mafiaVotes x
        = (mafiaKillTargets s.players (nightDecisions ch s)).count x)
    ∧ ((nightVars ch s).mafiaVotes.map Prod.fst).Nodup
    ∧ (nightVars ch s).mafiaVictim
        = (tieBreak ch.coins (ch.order (nightVars ch s).mafiaVotes)).name
    ∧ (∀ (k : Nat) (killer : Player) (target : String), s.players[k]? = some killer →
        killer.role = Role.Killer →
        (∀ (v : NightVars) (d : String × String),
          (classify (nightRoster ch s) v (k, d)).mafiaVotes = v.mafiaVotes)
        ∧ ((∀ (j : Nat) (p : Player), s.players[j]? = some p → p.role = Role.Killer → j = k) →
            (k, ("kill", target)) ∈ nightDecisions ch s →
            (nightVars ch s).killerVictim = target
            ∧ ((s.players.map Player.playerName).Nodup → target ≠ "" →
                target ≠ (nightVars ch s).doctorHeal →
                ∃ (j : Nat) (q q' : Player), s.players[j]? = some q ∧ q.playerName = target
                  ∧ q.alive = true ∧ (playNightPhase ch s).players[j]? = some q'
                  ∧ q'.alive = false))) := by
  have htally : (nightVars ch s).mafiaVotes
      = (mafiaKillTargets s.players (nightDecisions ch s)).foldl mapIncrement [] :=
    classifiedVars_mafiaVotes ch s
  refine ⟨?_, ?_, rfl, ?_⟩
  · intro x
    rw [htally, mapCount_foldl_mapIncrement]
    simp [mapCount]
  · rw [htally]
    exact nodup_foldl_mapIncrement _ [] (by simp)
  · intro k killer target hk hrole
    obtain ⟨k1, hk1, hkc⟩ := nightRoster_getElem? ch s hk
    have hk1r : k1.role = Role.Killer := by
      simp only [Player.core, Prod.mk.injEq] at hkc
      rw [hkc.2.2.2.1]; exact hrole
    constructor
    · intro v d
      rw [classify_mafiaVotes]
      have : isMafiaKill (nightRoster ch s) (k, d) = false := by
        unfold isMafiaKill
        simp only [hk1]
        simp [Player.isKiller, hk1r]
      rw [this]
      rfl
    · intro honly hdec
      have hkv : (nightVars ch s).killerVictim = target :=
        classifiedVars_single_killer ch s k killer target hk hrole honly hdec
      refine ⟨hkv, ?_⟩
      intro hnames hne hheal
      have hq : queuedDeath (nightVars ch s) target :=
        ⟨hne, hheal, Or.inr (Or.inl hkv.symm)⟩
      obtain ⟨j, q, hj, ha, hn⟩ := queuedDeath_alive ch s target hq
      obtain ⟨q', hq', _, _, _, hal⟩ := playNightPhase_getElem? ch s hnames j q hj
      refine ⟨j, q, q', hj, hn, ha, hq', ?_⟩
      cases hb : q'.alive with
      | false => rfl
      | true => exact absurd (hn ▸ hq) (hal.1 hb).2

/-- Witness for C18: K (Killer) targets V, M (Mafia) targets C, D heals itself;
the tally holds one vote for C, and both C and V die. -/
theorem mafia_tally_and_killer_witness :
    (nightVars killerChance killerGame).mafiaVotes = [("C", 1)]
    ∧ (nightVars killerChance killerGame).mafiaVictim = "C"
    ∧ (nightVars killerChance killerGame).killerVictim = "V"
    ∧ (∃ (j : Nat) (q q' : Player), killerGame.players[j]? = some q ∧ q.playerName = "V"
        ∧ q.alive = true ∧ (playNightPhase killerChance killerGame).players[j]? = some q'
        ∧ q'.alive = false) :=
  have h := ((mafia_tally_and_killer killerChance killerGame).2.2.2 0
    (Player.new "K" StrategyKind.Bot Role.Killer) "V" (by decide) (by decide)).2
    (by
      intro j p hj hp
      match j with
      | 0 => rfl
      | 1 => simp [killerGame, rosterOf] at hj; subst hj; simp [Player.new] at hp
      | 2 => simp [killerGame, rosterOf] at hj; subst hj; simp [Player.new] at hp
      | 3 => simp [killerGame, rosterOf] at hj; subst hj; simp [Player.new] at hp
      | 4 => simp [killerGame, rosterOf] at hj; subst hj; simp [Player.new] at hp
      | n + 5 => simp [killerGame, rosterOf] at hj)
    (by decide)
  ⟨by decide, by decide, h.1, h.2 (by decide) (by decide) (by decide)⟩

/-! ## Commissar knowledge only grows -/

theorem checkValue_congr {players players' : List Player}
    (h : players'.map (fun p => (p.playerName, p.role, p.checkedPlayers))
      = players.map (fun p => (p.playerName, p.role, p.checkedPlayers))) (name : String) :
    checkValue players' name = checkValue players name := by
  have hn : players'.map Player.playerName = players.map Player.playerName := by
    have := congrArg (List.map Prod.fst) h
    simpa [List.map_map, Function.comp] using this
  unfold checkValue
  rw [findPlayerByName_map_eq players' players name hn]
  cases hf : findPlayerByName players name with
  | none => rfl
  | some t =>
    simp only
    cases ht : players[t]? with
    | none =>
      have : players'[t]? = none := by
        rw [List.getElem?_eq_none_iff] at ht ⊢
        have hl := congrArg List.length h
        simp only [List.length_map] at hl
        omega
      rw [this]
    | some tp =>
      obtain ⟨tp', htp', he⟩ := getElem?_of_map_eq h ht
      simp only [Prod.mk.injEq] at he
      rw [htp']
      simp only [Player.isMafia, Player.isNinja, he.2.1]

/-- A change of the roster that keeps names, roles and knowledge maps keeps the
soundness of the maps and every entry. -/
theorem knowledge_frame {players players' : List Player}
    (h : players'.map (fun p => (p.playerName, p.role, p.checkedPlayers))
      = players.map (fun p => (p.playerName, p.role, p.checkedPlayers)))
    (hs : knowledgeSound players) :
    knowledgeSound players'
    ∧ ∀ (c : Nat) (cp : Player) (name : String) (b : Bool), players[c]? = some cp →
        mapFind cp.checkedPlayers name = some b →
        ∃ cp', players'[c]? = some cp' ∧ mapFind cp'.checkedPlayers name = some b := by
  constructor
  · intro c cp' name b hc hb
    obtain ⟨cp, hcp, he⟩ := getElem?_of_map_eq h.symm hc
    simp only [Prod.mk.injEq] at he
    rw [checkValue_congr h]
    exact hs c cp name b hcp (by rw [he.2.2]; exact hb)
  · intro c cp name b hc hb
    obtain ⟨cp', hcp', he⟩ := getElem?_of_map_eq h hc
    simp only [Prod.mk.injEq] at he
    exact ⟨cp', hcp', by rw [he.2.2]; exact hb⟩

/-- Storing the value a check computes keeps the soundness of the maps and
every entry. -/
theorem knowledge_check {players : List Player} (c : Nat) (target : String) (v : Bool)
    (hv : checkValue players target = some v) (hs : knowledgeSound players) :
    knowledgeSound (updateAt players c (addCheckedPlayer target v))
    ∧ ∀ (i : Nat) (p : Player) (name : String) (b : Bool), players[i]? = some p →
        mapFind p.checkedPlayers name = some b →
        ∃ p', (updateAt players c (addCheckedPlayer target v))[i]? = some p'
          ∧ mapFind p'.checkedPlayers name = some b := by
  have hcv : ∀ name, checkValue (updateAt players c (addCheckedPlayer target v)) name
      = checkValue players name := by
    intro name
    have hn : (updateAt players c (addCheckedPlayer target v)).map Player.playerName
        = players.map Player.playerName := map_updateAt _ players c _ (fun _ => rfl)
    unfold checkValue
    rw [findPlayerByName_map_eq _ players name hn]
    cases hf : findPlayerByName players name with
    | none => rfl
    | some t =>
      simp only
      rw [getElem?_updateAt]
      split_ifs
      · cases players[t]? with
        | none => rfl
        | some tp => rfl
      · rfl
  have hentry : ∀ (p : Player) (name : String) (b : Bool),
      (∃ i : Nat, players[i]? = some p) → mapFind p.checkedPlayers name = some b →
      mapFind (addCheckedPlayer target v p).checkedPlayers name = some b := by
    rintro p name b ⟨i, hi⟩ hb
    simp only [addCheckedPlayer]
    by_cases hn : name = target
    · subst hn
      rw [mapFind_mapAssign_self]
      have := hs i p name b hi hb
      rw [hv] at this
      exact this
    · rw [mapFind_mapAssign_ne _ _ _ _ hn]
      exact hb
  constructor
  · intro i p' name b hi hb
    rw [hcv]
    rw [getElem?_updateAt] at hi
    split_ifs at hi with hic
    · cases hp : players[i]? with
      | none => rw [hp] at hi; simp at hi
      | some p =>
        rw [hp] at hi
        simp only [Option.map_some', Option.some.injEq] at hi
        subst hi
        simp only [addCheckedPlayer] at hb
        by_cases hn : name = target
        · subst hn
          rw [mapFind_mapAssign_self] at hb
          rw [← hb]; exact hv
        · rw [mapFind_mapAssign_ne _ _ _ _ hn] at hb
          exact hs i p name b hp hb
    · exact hs i p' name b hi hb
  · intro i p name b hi hb
    rw [getElem?_updateAt]
    split_ifs with hic
    · rw [hi]
      exact ⟨_, rfl, hentry p name b ⟨i, hi⟩ hb⟩
    · exact ⟨p, hi, hb⟩

/-- The `check` branch leaves the roster as it is or stores, in one map, the
value a check of the target computes on that roster. -/
theorem commissarCheck_cases (v : NightVars) (s : GameMaster) :
    (commissarCheck v s).players = s.players
    ∨ ∃ (c : Nat) (b : Bool), checkValue s.players v.commissarTarget = some b
        ∧ (commissarCheck v s).players
            = updateAt s.players c (addCheckedPlayer v.commissarTarget b) := by
  unfold commissarCheck checkValue
  cases findPlayerByName s.players v.commissarTarget with
  | none => exact Or.inl rfl
  | some t =>
    simp only
    cases s.players[t]? with
    | none => exact Or.inl rfl
    | some tp =>
      simp only
      cases v.commissarPlayer with
      | none => exact Or.inl rfl
      | some c =>
        simp only
        cases s.players[c]? with
        | none => exact Or.inl rfl
        | some cp =>
          simp only
          split_ifs
          · exact Or.inr ⟨c, _, rfl, rfl⟩
          · exact Or.inl rfl

theorem commissarResolve_knowledge (v : NightVars) (s : GameMaster)
    (hs : knowledgeSound s.players) :
    knowledgeSound (commissarResolve v s).players
    ∧ ∀ (c : Nat) (cp : Player) (name : String) (b : Bool), s.players[c]? = some cp →
        mapFind cp.checkedPlayers name = some b →
        ∃ cp', (commissarResolve v s).players[c]? = some cp'
          ∧ mapFind cp'.checkedPlayers name = some b := by
  unfold commissarResolve
  split_ifs
  · exact knowledge_frame (map_killPlayer _ s.players _ (fun _ => rfl)) hs
  · rcases commissarCheck_cases v s with h | ⟨c, b, hb, h⟩
    · rw [h]; exact knowledge_frame rfl hs
    · rw [h]; exact knowledge_check c v.commissarTarget b hb hs
  · exact knowledge_frame rfl hs
  · exact knowledge_frame rfl hs

/-- One phase keeps the soundness of the knowledge maps and every entry. -/
theorem runPhase_knowledge (s : GameMaster) (ph : Phase) (hs : knowledgeSound s.players) :
    knowledgeSound (runPhase s ph).players
    ∧ ∀ (c : Nat) (cp : Player) (name : String) (b : Bool), s.players[c]? = some cp →
        mapFind cp.checkedPlayers name = some b →
        ∃ cp', (runPhase s ph).players[c]? = some cp'
          ∧ mapFind cp'.checkedPlayers name = some b := by
  cases ph with
  | day ch =>
    exact knowledge_frame
      (map_playDayPhase (fun p => (p.playerName, p.role, p.checkedPlayers)) (fun _ => rfl) ch s)
      hs
  | night ch =>
    have hstat := deaths_static ch s (nightVars ch s)
    obtain ⟨hs1, he1⟩ := knowledge_frame hstat hs
    obtain ⟨hs2, he2⟩ := commissarResolve_knowledge (nightVars ch s) _ hs1
    have hp : (runPhase s (Phase.night ch)).players
        = (commissarResolve (nightVars ch s)
            (killUnlessHealed (nightVars ch s) (nightVars ch s).maniacVictim
              (killUnlessHealed (nightVars ch s) (nightVars ch s).killerVictim
                (killUnlessHealed (nightVars ch s) (nightVars ch s).mafiaVictim
                  (recordSaved (nightVars ch s)
                    { s with players := nightRoster ch s }))))).players := rfl
    rw [hp]
    refine ⟨hs2, ?_⟩
    intro c cp name b hc hb
    obtain ⟨cp1, hc1, hb1⟩ := he1 c cp name b hc hb
    exact he2 c cp1 name b hc1 hb1

theorem runPhases_knowledgeSound (phases : List Phase) :
    ∀ s : GameMaster, knowledgeSound s.players →
      knowledgeSound (runPhases s phases).players := by
  induction phases with
  | nil => intro s h; exact h
  | cons ph rest ih =>
    intro s h
    simp only [runPhases, List.foldl_cons] at ih ⊢
    exact ih _ (runPhase_knowledge s ph h).1

theorem knowledgeSound_of_empty (players : List Player)
    (h : ∀ p ∈ players, p.checkedPlayers = []) : knowledgeSound players := by
  intro c cp name b hc hb
  rw [h cp (List.getElem?_mem hc)] at hb
  simp [mapFind] at hb

/-- C19: in a game that starts with empty knowledge maps, after any sequence of
phases, a further day or night phase keeps every entry of every knowledge map:
a (name, value) entry present before the phase is present with the same value
after it. -/
theorem knowledge_only_grows (s0 : GameMaster) (hinit : ∀ p ∈ s0.players, p.checkedPlayers = [])
    (phases : List Phase) (ph : Phase) (c : Nat) (cp : Player) (name : String) (b : Bool)
    (hc : (runPhases s0 phases).players[c]? = some cp)
    (hb : mapFind cp.checkedPlayers name = some b) :
    ∃ cp', (runPhase (runPhases s0 phases) ph).players[c]? = some cp'
      ∧ mapFind cp'.checkedPlayers name = some b :=
  (runPhase_knowledge (runPhases s0 phases) ph
    (runPhases_knowledgeSound phases s0 (knowledgeSound_of_empty s0.players hinit))).2
    c cp name b hc hb

/-- Witness for C19: after the first night of `ninjaGame` the Commissar C holds
N ↦ false, and the entry is still there after a further night in which C checks
again. -/
theorem knowledge_only_grows_witness :
    ∃ cp', (runPhase (runPhases ninjaGame [Phase.night ninjaChance])
        (Phase.night ninjaChance)).players[0]? = some cp'
      ∧ mapFind cp'.checkedPlayers "N" = some false :=
  knowledge_only_grows ninjaGame (by decide) [Phase.night ninjaChance] (Phase.night ninjaChance)
    0 { Player.new "C" StrategyKind.Bot Role.Commissar with checkedPlayers := [("N", false)] }
    "N" false (by decide) (by decide)

/-! ## The tables and the interactive provider at concrete inputs -/

/-- Witness for C11: a Commissar that holds N ↦ false, at position 0, may not
vote against the living N at position 1, and may vote against the living D. -/
theorem voteFilter_table_witness :
    (voteFilter 0
        { Player.new "C" StrategyKind.Bot Role.Commissar with checkedPlayers := [("N", false)] }
        (1, Player.new "N" StrategyKind.Bot Role.Ninja) = true ↔
      ((Player.new "N" StrategyKind.Bot Role.Ninja).alive = true ∧ 1 ≠ 0
        ∧ mapFind [("N", false)] "N" ≠ some false))
    ∧ voteFilter 0
        { Player.new "C" StrategyKind.Bot Role.Commissar with checkedPlayers := [("N", false)] }
        (2, Player.new "D" StrategyKind.Bot Role.Doctor) = true :=
  ⟨(voteFilter_table 0
      { Player.new "C" StrategyKind.Bot Role.Commissar with checkedPlayers := [("N", false)] }
      1 (Player.new "N" StrategyKind.Bot Role.Ninja)).2.2.1 rfl,
    ((voteFilter_table 0
      { Player.new "C" StrategyKind.Bot Role.Commissar with checkedPlayers := [("N", false)] }
      2 (Player.new "D" StrategyKind.Bot Role.Doctor)).2.2.1 rfl).2
      ⟨by decide, by decide, by decide⟩⟩

/-- Witness for C12: a Doctor at position 1 whose `lastHealed` is P5 offers
`heal`, may heal itself and may not heal P5; a Civilian abstains. -/
theorem nightAction_table_witness :
    ((({ Player.new "P2" StrategyKind.Bot Role.Doctor with lastHealed := "P5" } :
          Player).nightAction 1 scenarioGame.players (scenarioChance.choice 1)).1
        = strategyChooseAction StrategyKind.Bot scenarioGame.players ["heal"]
            (nightFilter 1 { Player.new "P2" StrategyKind.Bot Role.Doctor with
                              lastHealed := "P5" }) (scenarioChance.choice 1))
    ∧ nightFilter 1 { Player.new "P2" StrategyKind.Bot Role.Doctor with lastHealed := "P5" }
        (1, { Player.new "P2" StrategyKind.Bot Role.Doctor with lastHealed := "P5" }) = true
    ∧ (Player.new "P5" StrategyKind.Bot Role.Civilian).nightAction 4 scenarioGame.players
        (scenarioChance.choice 4) = (("", ""), Player.new "P5" StrategyKind.Bot Role.Civilian) :=
  have hd := (nightAction_table 1
    { Player.new "P2" StrategyKind.Bot Role.Doctor with lastHealed := "P5" }
    scenarioGame.players (scenarioChance.choice 1) 4
    (Player.new "P5" StrategyKind.Bot Role.Civilian)).2.1 rfl
  have hc := (nightAction_table 4 (Player.new "P5" StrategyKind.Bot Role.Civilian)
    scenarioGame.players (scenarioChance.choice 4) 0
    (Player.new "P1" StrategyKind.Bot Role.Mafia)).1 rfl
  ⟨hd.1, hd.2.2.2 ⟨by decide, by decide⟩, hc scenarioGame.players (scenarioChance.choice 4)⟩

/-- Witness for C15: over the scenario roster the interactive Commissar P3
typing `P1` and `kill` decides (kill, P1); typing its own name it abstains. -/
theorem userStrategy_validates_witness :
    UserStrategy.chooseAction scenarioGame.players ["check", "kill"]
        (nightFilter 2 (Player.new "P3" StrategyKind.User Role.Commissar)) "P1" "kill"
      = ("kill", "P1")
    ∧ UserStrategy.vote scenarioGame.players
        (voteFilter 2 (Player.new "P3" StrategyKind.User Role.Commissar)) "P3" = "" :=
  have h := userStrategy_validates scenarioGame.players ["check", "kill"]
    (nightFilter 2 (Player.new "P3" StrategyKind.User Role.Commissar)) "P1" "kill"
  have h' := userStrategy_validates scenarioGame.players ["check", "kill"]
    (voteFilter 2 (Player.new "P3" StrategyKind.User Role.Commissar)) "P3" "kill"
  ⟨h.1 ⟨⟨0, Player.new "P1" StrategyKind.Bot Role.Mafia, by decide, by decide, by decide⟩,
      by decide⟩,
    h'.2.2.2 (by
      rintro ⟨j, q, hq, hn, hf⟩
      match j with
      | 0 => simp [scenarioGame] at hq; subst hq; simp [Player.new] at hn
      | 1 => simp [scenarioGame] at hq; subst hq; simp [Player.new] at hn
      | 2 => simp [scenarioGame] at hq; subst hq; simp [voteFilter, Player.new] at hf
      | 3 => simp [scenarioGame] at hq; subst hq; simp [Player.new] at hn
      | 4 => simp [scenarioGame] at hq; subst hq; simp [Player.new] at hn
      | n + 5 => simp [scenarioGame] at hq)⟩

/-! ## Decisions are functions of the pre-phase state -/

theorem map_enumFrom_congr {β : Type} (F : Nat × Player → β)
    (hF : ∀ (j : Nat) (q q0 : Player), q.core = q0.core → F (j, q) = F (j, q0)) :
    ∀ (l l0 : List Player) (n : Nat), l.map Player.core = l0.map Player.core →
      (l.enumFrom n).map F = (l0.enumFrom n).map F := by
  intro l
  induction l with
  | nil =>
    intro l0 n h
    cases l0 with
    | nil => rfl
    | cons _ _ => simp at h
  | cons p rest ih =>
    intro l0 n h
    cases l0 with
    | nil => simp at h
    | cons p0 rest0 =>
      simp only [List.map_cons, List.cons.injEq] at h
      simp only [List.enumFrom_cons, List.map_cons, List.cons.injEq]
      exact ⟨hF n p p0 h.1, ih rest0 (n + 1) h.2⟩

theorem any_enum_congr (P : Nat × Player → Bool)
    (hP : ∀ (j : Nat) (q q0 : Player), q.core = q0.core → P (j, q) = P (j, q0))
    (l l0 : List Player) (h : l.map Player.core = l0.map Player.core) :
    l.enum.any P = l0.enum.any P := by
  have h1 : ∀ xs : List (Nat × Player), xs.any P = (xs.map P).any id := by
    intro xs
    induction xs with
    | nil => rfl
    | cons x xs ih => simp [List.any_cons, ih]
  rw [h1, h1]
  unfold List.enum
  rw [map_enumFrom_congr P hP l l0 0 h]

theorem map_filter_eq_filterMap {α β : Type} (f : α → Bool) (G : α → β) (xs : List α) :
    (xs.filter f).map G = (xs.map (fun e => if f e then some (G e) else none)).filterMap id := by
  induction xs with
  | nil => rfl
  | cons x xs ih =>
    cases hx : f x <;> simp [List.filter_cons, hx, ih]

/-- The names of the candidates a filter accepts are the same on two rosters
that differ in `lastHealed` only. -/
theorem candidate_names_congr (filt : Nat × Player → Bool)
    (hf : ∀ (j : Nat) (q q0 : Player), q.core = q0.core → filt (j, q) = filt (j, q0))
    (l l0 : List Player) (h : l.map Player.core = l0.map Player.core) :
    (l.enum.filter filt).map (fun e => e.2.playerName)
      = (l0.enum.filter filt).map (fun e => e.2.playerName) := by
  rw [map_filter_eq_filterMap, map_filter_eq_filterMap]
  unfold List.enum
  rw [map_enumFrom_congr _ _ l l0 0 h]
  intro j q q0 hq
  have hn : q.playerName = q0.playerName := congrArg Prod.fst hq
  simp only [hf j q q0 hq, hn]

theorem getRandomPlayer_name (cands : List (Nat × Player)) (draw : Nat) :
    (getRandomPlayer cands draw).map (fun e => e.2.playerName)
      = if (cands.map (fun e => e.2.playerName)).isEmpty then none
        else (cands.map (fun e => e.2.playerName))[draw
          % (cands.map (fun e => e.2.playerName)).length]? := by
  unfold getRandomPlayer
  cases cands with
  | nil => rfl
  | cons c rest =>
    simp only [List.isEmpty_cons, Bool.false_eq_true, if_false, List.map_cons, List.length_cons,
      List.length_map]
    rw [← List.map_cons (fun e : Nat × Player => e.2.playerName), List.getElem?_map]

theorem getRandomPlayer_congr (filt : Nat × Player → Bool)
    (hf : ∀ (j : Nat) (q q0 : Player), q.core = q0.core → filt (j, q) = filt (j, q0))
    (l l0 : List Player) (h : l.map Player.core = l0.map Player.core) (draw : Nat) :
    (getRandomPlayer (l.enum.filter filt) draw).map (fun e => e.2.playerName)
      = (getRandomPlayer (l0.enum.filter filt) draw).map (fun e => e.2.playerName) := by
  rw [getRandomPlayer_name, getRandomPlayer_name, candidate_names_congr filt hf l l0 h]

theorem strategyVote_congr (k : StrategyKind) (filt : Nat × Player → Bool)
    (hf : ∀ (j : Nat) (q q0 : Player), q.core = q0.core → filt (j, q) = filt (j, q0))
    (l l0 : List Player) (h : l.map Player.core = l0.map Player.core) (c : Choice) :
    strategyVote k l filt c = strategyVote k l0 filt c := by
  cases k with
  | Bot =>
    simp only [strategyVote, BotStrategy.vote]
    have key := getRandomPlayer_congr filt hf l l0 h c.pick
    cases h1 : getRandomPlayer (List.filter filt l.enum) c.pick <;>
      cases h2 : getRandomPlayer (List.filter filt l0.enum) c.pick <;>
      rw [h1, h2] at key <;> simp at key ⊢
    exact key
  | User =>
    simp only [strategyVote, UserStrategy.vote]
    rw [any_enum_congr _ _ l l0 h]
    intro j q q0 hq
    have hn : q.playerName = q0.playerName := congrArg Prod.fst hq
    simp only [hf j q q0 hq, hn]

theorem strategyChooseAction_congr (k : StrategyKind) (acts : List String)
    (filt : Nat × Player → Bool)
    (hf : ∀ (j : Nat) (q q0 : Player), q.core = q0.core → filt (j, q) = filt (j, q0))
    (l l0 : List Player) (h : l.map Player.core = l0.map Player.core) (c : Choice) :
    strategyChooseAction k l acts filt c = strategyChooseAction k l0 acts filt c := by
  cases k with
  | Bot =>
    simp only [strategyChooseAction, BotStrategy.chooseAction]
    have key := getRandomPlayer_congr filt hf l l0 h c.pick
    cases h1 : getRandomPlayer (List.filter filt l.enum) c.pick <;>
      cases h2 : getRandomPlayer (List.filter filt l0.enum) c.pick <;>
      rw [h1, h2] at key <;> simp at key ⊢
    rw [key]
  | User =>
    simp only [strategyChooseAction, UserStrategy.chooseAction]
    rw [any_enum_congr _ _ l l0 h]
    intro j q q0 hq
    have hn : q.playerName = q0.playerName := congrArg Prod.fst hq
    simp only [hf j q q0 hq, hn]

/-- A night decision request reads the roster only through the fields no
decision request writes. -/
theorem nightAction_congr (me : Player) (self : Nat) (l l0 : List Player)
    (h : l.map Player.core = l0.map Player.core) (c : Choice) :
    me.nightAction self l c = me.nightAction self l0 c := by
  have key := strategyChooseAction_congr me.strategy (nightActions me.role)
    (nightFilter self me) (fun j q q0 hq => nightFilter_core self me j q q0 hq) l l0 h c
  unfold Player.nightAction
  rw [key]

/-- Every collected night decision is what the participant at that position,
as it was before the phase, returns on the pre-phase roster for its own input. -/
theorem collectNight_decision (choice : Nat → Choice) (alive : List Nat) :
    ∀ (players : List Player), alive.Nodup → ∀ (e : Nat × (String × String)),
      e ∈ (collectNight choice alive players).1 →
      ∃ p0, players[e.1]? = some p0
        ∧ e.2 = (p0.nightAction e.1 players (choice e.1)).1 := by
  induction alive with
  | nil => intro players _ e h; simp [collectNight] at h
  | cons i rest ih =>
    intro players hnd e h
    rw [List.nodup_cons] at hnd
    unfold collectNight at h
    cases hme : players[i]? with
    | none =>
      rw [hme] at h
      exact ih players hnd.2 e h
    | some me =>
      rw [hme] at h
      simp only [List.mem_cons] at h
      rcases h with rfl | h
      · exact ⟨me, hme, rfl⟩
      · have hcore : (updateAt players i
            (fun _ => (me.nightAction i players (choice i)).2)).map Player.core
              = players.map Player.core :=
          map_updateAt_at Player.core players i _ me hme (nightAction_core me i players _)
        have hne : e.1 ≠ i := by
          intro heq
          exact hnd.1 (heq ▸ collectNight_fst choice rest _ e h)
        obtain ⟨p1, hp1, hd⟩ := ih _ hnd.2 e h
        rw [getElem?_updateAt, if_neg hne] at hp1
        refine ⟨p1, hp1, ?_⟩
        rw [hd, nightAction_congr p1 e.1 _ players hcore]

/-- The batch of a night holds the pair `(i, d)` exactly when position `i` holds
a living participant and `d` is the decision that participant returns on the
pre-phase roster for its own input. -/
theorem nightDecisions_entry (ch : Chance) (s : GameMaster) (i : Nat) (d : String × String) :
    (i, d) ∈ nightDecisions ch s ↔
      ∃ p, s.players[i]? = some p ∧ p.alive = true
        ∧ d = (p.nightAction i s.players (ch.choice i)).1 := by
  constructor
  · intro h
    obtain ⟨p0, hp0, hd⟩ := collectNight_decision ch.choice (aliveIndices s.players) s.players
      (nodup_aliveIndices _) (i, d) h
    have hi := collectNight_fst ch.choice _ _ _ h
    rw [mem_aliveIndices] at hi
    obtain ⟨p, hp, ha⟩ := hi
    have hpp : p = p0 := by
      have h1 : s.players[i]? = some p0 := hp0
      rw [hp] at h1
      exact Option.some.inj h1
    subst hpp
    exact ⟨p, hp, ha, hd⟩
  · rintro ⟨p, hp, ha, hd⟩
    have hi : i ∈ aliveIndices s.players := (mem_aliveIndices _ _).2 ⟨p, hp, ha⟩
    have hpos : (nightDecisions ch s).map Prod.fst = aliveIndices s.players :=
      nightDecisions_positions ch s
    rw [← hpos, List.mem_map] at hi
    obtain ⟨⟨j, d1⟩, he, hj⟩ := hi
    simp only at hj
    subst hj
    obtain ⟨p0, hp0, hd0⟩ := collectNight_decision ch.choice (aliveIndices s.players) s.players
      (nodup_aliveIndices _) (j, d1) he
    have h1 : s.players[j]? = some p0 := hp0
    rw [hp] at h1
    have hpp := Option.some.inj h1
    subst hpp
    have : d = d1 := by rw [hd]; exact hd0.symm
    rw [this]
    exact he

/-! ## One decision per living participant -/

theorem pairwise_aliveIndices (players : List Player) :
    (aliveIndices players).Pairwise (fun a b => a < b) := by
  unfold aliveIndices alivePlayers
  have h : (players.enum.map Prod.fst).Pairwise (fun a b => a < b) := by
    rw [List.enum_map_fst]
    exact List.pairwise_lt_range _
  exact List.Pairwise.sublist ((List.filter_sublist _).map Prod.fst) h

theorem eq_map_of_tagged {β : Type} (g : Nat → β) :
    ∀ (batch : List (Nat × β)) (idx : List Nat), batch.map Prod.fst = idx →
      (∀ e ∈ batch, e.2 = g e.1) → batch = idx.map (fun i => (i, g i)) := by
  intro batch
  induction batch with
  | nil => intro idx h _; subst h; rfl
  | cons e rest ih =>
    intro idx h hall
    cases idx with
    | nil => simp at h
    | cons i idx =>
      simp only [List.map_cons, List.cons.injEq] at h
      simp only [List.map_cons, List.cons.injEq]
      refine ⟨?_, ih idx h.2 (fun e he => hall e (List.mem_cons_of_mem _ he))⟩
      have h2 := hall e (List.mem_cons_self _ _)
      rw [← h.1, ← h2]

/-- The votes of a day, position by position of the living participants. -/
theorem dayResults_eq_map (choice : Nat → Choice) (players : List Player) :
    dayResults choice players
      = (aliveIndices players).map (fun i =>
          match players[i]? with
          | some p => p.vote i players (choice i)
          | none => "") := by
  unfold dayResults aliveIndices
  rw [List.map_map]
  apply List.map_congr_left
  rintro ⟨i, p⟩ he
  have hp : players[i]? = some p :=
    List.mk_mem_enum_iff_getElem?.1 (List.mem_filter.1 he).1
  simp only [Function.comp, hp]

/-- The decisions of a night, position by position of the living participants. -/
theorem nightDecisions_eq_map (ch : Chance) (s : GameMaster) :
    nightDecisions ch s
      = (aliveIndices s.players).map (fun i =>
          (i, match s.players[i]? with
              | some p => (p.nightAction i s.players (ch.choice i)).1
              | none => ("", ""))) := by
  apply eq_map_of_tagged _ _ _ (nightDecisions_positions ch s)
  rintro ⟨i, d⟩ he
  obtain ⟨p, hp, _, hd⟩ := (nightDecisions_entry ch s i d).1 he
  simp only [hp, hd]

/-- C21: in the day phase and in the night phase the decision batch holds one
decision for each participant alive at the start of the phase and none for a
dead one, in roster order, and the decision stored for a position is the one
the participant at that position returned for its own input. -/
theorem batch_one_decision_per_living (ch : Chance) (s : GameMaster) :
    (∀ i : Nat, i ∈ aliveIndices s.players ↔ ∃ p, s.players[i]? = some p ∧ p.alive = true)
    ∧ (aliveIndices s.players).Pairwise (fun a b => a < b)
    ∧ dayResults ch.choice s.players
        = (aliveIndices s.players).map (fun i =>
            match s.players[i]? with
            | some p => p.vote i s.players (ch.choice i)
            | none => "")
    ∧ nightDecisions ch s
        = (aliveIndices s.players).map (fun i =>
            (i, match s.players[i]? with
                | some p => (p.nightAction i s.players (ch.choice i)).1
                | none => ("", ""))) :=
  ⟨mem_aliveIndices s.players, pairwise_aliveIndices s.players,
    dayResults_eq_map ch.choice s.players, nightDecisions_eq_map ch s⟩

/-! ## Decisions of one phase are simultaneous -/

/-- C25: two runs of the same phase from the same pre-phase state that give
the participant at position `i` the same input give it the same decision,
whatever the inputs of the other participants are: the night batches hold the
same pairs for `i`, and the day votes agree at the position of `i`. -/
theorem decisions_simultaneous (ch ch' : Chance) (s : GameMaster) (i : Nat)
    (h : ch.choice i = ch'.choice i) :
    (∀ d, (i, d) ∈ nightDecisions ch s ↔ (i, d) ∈ nightDecisions ch' s)
    ∧ (∀ k : Nat, (aliveIndices s.players)[k]? = some i →
        (dayResults ch.choice s.players)[k]? = (dayResults ch'.choice s.players)[k]?) := by
  constructor
  · intro d
    rw [nightDecisions_entry, nightDecisions_entry, h]
  · intro k hk
    rw [dayResults_eq_map, dayResults_eq_map, List.getElem?_map, List.getElem?_map, hk]
    simp only [Option.map_some', h]

theorem decisions_simultaneous_witness :
    scenarioChance.choice 1 = commissarKillChance.choice 1
    ∧ (1, ("heal", "P5")) ∈ nightDecisions scenarioChance botGame
    ∧ (1, ("heal", "P5")) ∈ nightDecisions commissarKillChance botGame
    ∧ (dayResults scenarioChance.choice botGame.players)[1]? = some "P1"
    ∧ (dayResults commissarKillChance.choice botGame.players)[1]? = some "P1" :=
  ⟨rfl, by decide,
    ((decisions_simultaneous scenarioChance commissarKillChance botGame 1 rfl).1 _).1 (by decide),
    by decide,
    ((decisions_simultaneous scenarioChance commissarKillChance botGame 1 rfl).2 1
      (by decide)).symm.trans (by decide)⟩

/-! ## Liveness is one-way -/

theorem later_refl (p : Player) : Player.later p p := ⟨rfl, rfl, id⟩

theorem later_die (p : Player) : Player.later p p.die :=
  ⟨rfl, rfl, fun h => by simp [Player.die] at h⟩

theorem later_addCheckedPlayer (k : String) (b : Bool) (p : Player) :
    Player.later p (addCheckedPlayer k b p) := ⟨rfl, rfl, id⟩

theorem forall₂_later_refl (ps : List Player) : List.Forall₂ Player.later ps ps := by
  induction ps with
  | nil => exact List.Forall₂.nil
  | cons p rest ih => exact List.Forall₂.cons (later_refl p) ih

theorem forall₂_later_trans {a b c : List Player} (h1 : List.Forall₂ Player.later a b)
    (h2 : List.Forall₂ Player.later b c) : List.Forall₂ Player.later a c := by
  induction h1 generalizing c with
  | nil => cases h2; exact List.Forall₂.nil
  | cons hab _ ih =>
    cases h2 with
    | cons hbc htl =>
      exact List.Forall₂.cons
        ⟨hbc.1.trans hab.1, hbc.2.1.trans hab.2.1, fun h => hab.2.2 (hbc.2.2 h)⟩ (ih htl)

theorem forall₂_later_updateAt (f : Player → Player) (hf : ∀ p, Player.later p (f p)) :
    ∀ (ps : List Player) (i : Nat), List.Forall₂ Player.later ps (updateAt ps i f) := by
  intro ps
  induction ps with
  | nil => intro i; exact List.Forall₂.nil
  | cons p rest ih =>
    intro i
    cases i with
    | zero => exact List.Forall₂.cons (hf p) (forall₂_later_refl rest)
    | succ i => exact List.Forall₂.cons (later_refl p) (ih i)

theorem forall₂_later_of_core : ∀ (ps ps' : List Player),
    ps'.map Player.core = ps.map Player.core → List.Forall₂ Player.later ps ps' := by
  intro ps
  induction ps with
  | nil =>
    intro ps' h
    cases ps' with
    | nil => exact List.Forall₂.nil
    | cons _ _ => simp at h
  | cons p rest ih =>
    intro ps' h
    cases ps' with
    | nil => simp at h
    | cons p' rest' =>
      simp only [List.map_cons, List.cons.injEq] at h
      simp only [Player.core, Prod.mk.injEq] at h
      obtain ⟨⟨hn, ha, _, hr, _⟩, ht⟩ := h
      exact List.Forall₂.cons ⟨hn, hr, fun h => ha ▸ h⟩ (ih rest' ht)

theorem forall₂_later_killPlayer (ps : List Player) (name : String) :
    List.Forall₂ Player.later ps (killPlayer ps name) := by
  unfold killPlayer
  cases findPlayerByName ps name with
  | none => exact forall₂_later_refl ps
  | some i => exact forall₂_later_updateAt _ later_die ps i

theorem forall₂_later_killUnlessHealed (v : NightVars) (x : String) (s : GameMaster) :
    List.Forall₂ Player.later s.players (killUnlessHealed v x s).players := by
  unfold killUnlessHealed
  split_ifs
  · exact forall₂_later_killPlayer s.players x
  · exact forall₂_later_refl _

theorem forall₂_later_commissarResolve (v : NightVars) (s : GameMaster) :
    List.Forall₂ Player.later s.players (commissarResolve v s).players := by
  unfold commissarResolve
  split_ifs
  · exact forall₂_later_killPlayer s.players _
  · rcases (commissarCheck_players v s).1 with h | ⟨c, b, h⟩
    · rw [h]; exact forall₂_later_refl _
    · rw [h]; exact forall₂_later_updateAt _ (later_addCheckedPlayer _ b) s.players c
  · exact forall₂_later_refl _
  · exact forall₂_later_refl _

theorem forall₂_later_resolveNight (v : NightVars) (s : GameMaster) :
    List.Forall₂ Player.later s.players (resolveNight v s).players := by
  rw [resolveNight_eq]
  refine forall₂_later_trans ?_ (forall₂_later_commissarResolve v _)
  refine forall₂_later_trans ?_ (forall₂_later_killUnlessHealed v _ _)
  refine forall₂_later_trans ?_ (forall₂_later_killUnlessHealed v _ _)
  refine forall₂_later_trans ?_ (forall₂_later_killUnlessHealed v _ _)
  rw [(recordSaved_players v s).1]
  exact forall₂_later_refl _

theorem forall₂_later_playNightPhase (ch : Chance) (s : GameMaster) :
    List.Forall₂ Player.later s.players (playNightPhase ch s).players := by
  unfold playNightPhase
  exact forall₂_later_trans (forall₂_later_of_core _ _ (nightRoster_core ch s))
    (forall₂_later_resolveNight (nightVars ch s) { s with players := nightRoster ch s })

theorem forall₂_later_playDayPhase (ch : Chance) (s : GameMaster) :
    List.Forall₂ Player.later s.players (playDayPhase ch s).players := by
  unfold playDayPhase
  simp only
  split_ifs
  · cases findPlayerByName s.players
        (tieBreak ch.coins (ch.order (countVotes (dayResults ch.choice s.players)))).name with
    | none => exact forall₂_later_refl _
    | some it => exact forall₂_later_updateAt _ later_die s.players it
  · exact forall₂_later_refl _

theorem forall₂_later_runPhase (s : GameMaster) (ph : Phase) :
    List.Forall₂ Player.later s.players (runPhase s ph).players := by
  cases ph with
  | day ch => exact forall₂_later_playDayPhase ch s
  | night ch => exact forall₂_later_playNightPhase ch s

theorem forall₂_later_getElem? {ps ps' : List Player} (h : List.Forall₂ Player.later ps ps') :
    ∀ (i : Nat) (p p' : Player), ps[i]? = some p → ps'[i]? = some p' → Player.later p p' := by
  induction h with
  | nil => intro i p p' hp; simp at hp
  | cons hab _ ih =>
    intro i p p' hp hp'
    cases i with
    | zero =>
      simp at hp hp'
      subst hp; subst hp'
      exact hab
    | succ i =>
      simp at hp hp'
      exact ih i p p' hp hp'

theorem forall₂_later_names {ps ps' : List Player} (h : List.Forall₂ Player.later ps ps') :
    ps'.map (fun p => p.playerName) = ps.map (fun p => p.playerName)
      ∧ ps'.map (fun p => p.role) = ps.map (fun p => p.role) := by
  induction h with
  | nil => exact ⟨rfl, rfl⟩
  | cons hab _ ih =>
    simp only [List.map_cons, List.cons.injEq]
    exact ⟨⟨hab.1, ih.1⟩, ⟨hab.2.1, ih.2⟩⟩

theorem forall₂_later_countP {ps ps' : List Player} (h : List.Forall₂ Player.later ps ps') :
    ps'.countP (fun p => p.alive) ≤ ps.countP (fun p => p.alive) := by
  induction h with
  | nil => exact Nat.le_refl _
  | @cons a b l1 l2 hab _ ih =>
    simp only [List.countP_cons]
    have : (if b.alive = true then 1 else 0) ≤ (if a.alive = true then 1 else 0) := by
      by_cases hb : b.alive = true
      · simp [hb, hab.2.2 hb]
      · simp [hb]
    omega

/-- C22: for every day phase and every night phase, as `runGame` runs them, the
roster keeps its length and every participant keeps its name and its role;
every participant that is dead before the phase is dead after it, and the
number of living participants after the phase is at most the number before. -/
theorem liveness_one_way (s : GameMaster) (ph : Phase) :
    (runPhase s ph).players.length = s.players.length
    ∧ (runPhase s ph).players.map (fun p => p.playerName) = s.players.map (fun p => p.playerName)
    ∧ (runPhase s ph).players.map (fun p => p.role) = s.players.map (fun p => p.role)
    ∧ (∀ (i : Nat) (p p' : Player), s.players[i]? = some p →
        (runPhase s ph).players[i]? = some p' → p.alive = false → p'.alive = false)
    ∧ (runPhase s ph).players.countP (fun p => p.alive)
        ≤ s.players.countP (fun p => p.alive) := by
  have h := forall₂_later_runPhase s ph
  refine ⟨h.length_eq.symm, (forall₂_later_names h).1, (forall₂_later_names h).2, ?_,
    forall₂_later_countP h⟩
  intro i p p' hp hp' hdead
  have hl := forall₂_later_getElem? h i p p' hp hp'
  cases ha : p'.alive with
  | false => rfl
  | true => rw [hl.2.2 ha] at hdead; exact absurd hdead (by decide)

/-! ## What producing a decision writes -/

/-- The Doctor P2 of the five-participant game has an empty `lastHealed`; its
`nightAction` returns (heal, P5) and has set `lastHealed` to P5 when it
returns, so the roster holds the new value when the tasks have completed,
before any resolution step has run. -/
theorem nightAction_writes_lastHealed :
    scenarioGame.players[1]? = some (Player.new "P2" StrategyKind.Bot Role.Doctor)
    ∧ (Player.new "P2" StrategyKind.Bot Role.Doctor).lastHealed = ""
    ∧ ((Player.new "P2" StrategyKind.Bot Role.Doctor).nightAction 1 scenarioGame.players
        (scenarioChance.choice 1)).1 = ("heal", "P5")
    ∧ ((Player.new "P2" StrategyKind.Bot Role.Doctor).nightAction 1 scenarioGame.players
        (scenarioChance.choice 1)).2.lastHealed = "P5"
    ∧ (nightRoster scenarioChance scenarioGame)[1]?.map (fun p => p.lastHealed) = some "P5" := by
  decide

/-- C24, amended: a night decision request changes no liveness flag and no
Commissar knowledge; the only field it writes is `lastHealed` of the Doctor
that is asked, set to the target when that Doctor returns `heal`. So when all
decisions of a night have been collected, every participant that returned a
decision is as before the phase except for that field, and every participant
that was not asked is unchanged. -/
theorem decision_writes_doctor_memory_only (ch : Chance) (s : GameMaster) :
    (∀ (me : Player) (self : Nat) (players : List Player) (c : Choice),
        (me.nightAction self players c).2
          = if me.role = Role.Doctor ∧ (me.nightAction self players c).1.1 = "heal"
            then { me with lastHealed := (me.nightAction self players c).1.2 } else me)
    ∧ (nightRoster ch s).map Player.core = s.players.map Player.core
    ∧ (∀ (i : Nat) (p0 : Player), s.players[i]? = some p0 →
        (∀ d, (i, d) ∈ nightDecisions ch s →
          (nightRoster ch s)[i]? = some
            (if p0.role = Role.Doctor ∧ d.1 = "heal" then { p0 with lastHealed := d.2 } else p0))
        ∧ (p0.alive = false → (nightRoster ch s)[i]? = some p0)) := by
  refine ⟨nightAction_object, nightRoster_core ch s, ?_⟩
  intro i p0 hp0
  obtain ⟨h1, h2⟩ := collectNight_object ch.choice (aliveIndices s.players) s.players
    (nodup_aliveIndices _) i p0 hp0
  refine ⟨h1, fun hdead => h2 ?_⟩
  intro hi
  obtain ⟨p, hp, ha⟩ := (mem_aliveIndices _ _).1 hi
  rw [hp0] at hp
  have := Option.some.inj hp
  subst this
  rw [hdead] at ha
  exact absurd ha (by decide)

/-! ## The healed participant survives -/

theorem classify_doctor_frame (players : List Player) (v : NightVars)
    (e : Nat × (String × String))
    (h : ∀ me, players[e.1]? = some me → me.isDoctor = false) :
    (classify players v e).doctorHeal = v.doctorHeal := by
  rcases classify_cases players v e with hc | ⟨me, hme, hc | hc | hc | hc | hc⟩
  · rw [hc]
  · rw [hc.2.2.2]
  · rw [hc.2.2]
  · rw [hc.2.2.2]
  · rw [hc.2.2]
  · have := h me hme
    rw [hc.2.1] at this
    exact Bool.noConfusion this

theorem foldl_classify_doctor_frame (players : List Player)
    (batch : List (Nat × (String × String)))
    (h : ∀ e ∈ batch, ∀ me, players[e.1]? = some me → me.isDoctor = false) :
    ∀ v : NightVars, (batch.foldl (classify players) v).doctorHeal = v.doctorHeal := by
  induction batch with
  | nil => intro v; rfl
  | cons e rest ih =>
    intro v
    simp only [List.foldl_cons]
    rw [ih (fun x hx => h x (List.mem_cons_of_mem _ hx)),
      classify_doctor_frame players v e (h e (List.mem_cons_self _ _))]

/-- With a single Doctor in the roster, the target of its `heal` decision is
the heal target after the classification loop. -/
theorem classifiedVars_single_doctor (ch : Chance) (s : GameMaster) (d : Nat) (dp : Player)
    (target : String) (hd : s.players[d]? = some dp) (hrole : dp.role = Role.Doctor)
    (honly : ∀ (j : Nat) (p : Player), s.players[j]? = some p → p.role = Role.Doctor → j = d)
    (hdec : (d, ("heal", target)) ∈ nightDecisions ch s) :
    (classifiedVars ch s).doctorHeal = target := by
  have hnd : ((nightDecisions ch s).map Prod.fst).Nodup := by
    rw [nightDecisions_positions]; exact nodup_aliveIndices s.players
  obtain ⟨pre, post, hsplit⟩ := List.append_of_mem hdec
  obtain ⟨d1, hd1, hdc⟩ := nightRoster_getElem? ch s hd
  have hd1r : d1.role = Role.Doctor := by
    simp only [Player.core, Prod.mk.injEq] at hdc
    rw [hdc.2.2.2.1]; exact hrole
  have hpost : ∀ e ∈ post, ∀ me, (nightRoster ch s)[e.1]? = some me →
      me.isDoctor = false := by
    intro e he me hme
    have hne : e.1 ≠ d := by
      rw [hsplit, List.map_append, List.map_cons, List.nodup_append] at hnd
      have h2 := hnd.2.1
      rw [List.nodup_cons] at h2
      intro heq
      exact h2.1 (List.mem_map.2 ⟨e, he, heq⟩)
    cases hb : me.isDoctor with
    | false => rfl
    | true =>
      exfalso
      have hlt : e.1 < s.players.length := by
        rw [← nightRoster_length ch s]
        exact (List.getElem?_eq_some.1 hme).1
      obtain ⟨p1, hp1, hpc⟩ := nightRoster_getElem? ch s (List.getElem?_eq_getElem hlt)
      rw [hme] at hp1
      simp only [Option.some.injEq] at hp1
      subst hp1
      simp only [Player.core, Prod.mk.injEq] at hpc
      apply hne
      apply honly e.1 _ (List.getElem?_eq_getElem hlt)
      rw [← hpc.2.2.2.1]
      simpa [Player.isDoctor] using hb
  unfold classifiedVars
  rw [hsplit, List.foldl_append, List.foldl_cons, foldl_classify_doctor_frame _ post hpost]
  unfold classify
  simp only [hd1]
  simp [Player.isDoctor, hd1r]

theorem killPlayer_keeps_other (ps : List Player) (x : String) (i : Nat) (p : Player)
    (hp : ps[i]? = some p) (hne : p.playerName ≠ x) : (killPlayer ps x)[i]? = some p := by
  unfold killPlayer
  cases hf : findPlayerByName ps x with
  | none => exact hp
  | some k =>
    simp only
    obtain ⟨q, hq, hn⟩ := findPlayerByName_some hf
    have hik : i ≠ k := by
      intro h
      subst h
      rw [hp] at hq
      have := Option.some.inj hq
      subst this
      exact hne hn
    rw [getElem?_updateAt, if_neg hik, hp]

theorem killUnlessHealed_keeps_healed (v : NightVars) (x : String) (s : GameMaster) (i : Nat)
    (p : Player) (hp : s.players[i]? = some p) (hn : p.playerName = v.doctorHeal) :
    (killUnlessHealed v x s).players[i]? = some p := by
  unfold killUnlessHealed
  split_ifs with h
  · exact killPlayer_keeps_other s.players x i p hp (fun he => h.2 (he.symm.trans hn))
  · exact hp

theorem commissarResolve_keeps_healed (v : NightVars) (s : GameMaster) (i : Nat)
    (p : Player) (hp : s.players[i]? = some p) (hn : p.playerName = v.doctorHeal) :
    ∃ p', (commissarResolve v s).players[i]? = some p' ∧ p'.alive = p.alive
      ∧ p'.playerName = p.playerName := by
  unfold commissarResolve
  split_ifs with h1 h2 h3
  · exact ⟨p, killPlayer_keeps_other s.players _ i p hp (fun he => h2.2 (he.symm.trans hn)),
      rfl, rfl⟩
  · rcases (commissarCheck_players v s).1 with h | ⟨c, b, h⟩
    · rw [h]; exact ⟨p, hp, rfl, rfl⟩
    · rw [h, getElem?_updateAt, hp]
      by_cases hic : i = c
      · rw [if_pos hic]; exact ⟨_, rfl, rfl, rfl⟩
      · rw [if_neg hic]; exact ⟨p, rfl, rfl, rfl⟩
  · exact ⟨p, hp, rfl, rfl⟩
  · exact ⟨p, hp, rfl, rfl⟩

/-- A participant whose name is the heal target of the night is, after
`playNightPhase`, as alive as it was before. -/
theorem playNightPhase_keeps_healed (ch : Chance) (s : GameMaster) (i : Nat) (p : Player)
    (hp : s.players[i]? = some p) (hn : p.playerName = (nightVars ch s).doctorHeal) :
    ∃ p', (playNightPhase ch s).players[i]? = some p' ∧ p'.alive = p.alive
      ∧ p'.playerName = p.playerName := by
  obtain ⟨p1, hp1, hc⟩ := nightRoster_getElem? ch s hp
  simp only [Player.core, Prod.mk.injEq] at hc
  have hn1 : p1.playerName = (nightVars ch s).doctorHeal := hc.1.trans hn
  have h0 : (recordSaved (nightVars ch s) { s with players := nightRoster ch s }).players[i]?
      = some p1 := by
    rw [(recordSaved_players _ _).1]; exact hp1
  have h1 := killUnlessHealed_keeps_healed (nightVars ch s) (nightVars ch s).mafiaVictim _ i p1
    h0 hn1
  have h2 := killUnlessHealed_keeps_healed (nightVars ch s) (nightVars ch s).killerVictim _ i p1
    h1 hn1
  have h3 := killUnlessHealed_keeps_healed (nightVars ch s) (nightVars ch s).maniacVictim _ i p1
    h2 hn1
  obtain ⟨p', hp', ha, hnm⟩ := commissarResolve_keeps_healed (nightVars ch s) _ i p1 h3 hn1
  refine ⟨p', ?_, ha.trans hc.2.1, hnm.trans hc.1⟩
  unfold playNightPhase
  rw [resolveNight_eq]
  exact hp'

/-- C28: over a roster with a single Doctor whose decision is (heal, H), every
participant named H that is alive at the start of the night is alive after
`playNightPhase`, whatever the other decisions of the night are, also when
that participant is the Doctor itself. -/
theorem healed_survives (ch : Chance) (s : GameMaster) (d : Nat) (dp : Player) (H : String)
    (hd : s.players[d]? = some dp) (hrole : dp.role = Role.Doctor)
    (honly : ∀ (j : Nat) (p : Player), s.players[j]? = some p → p.role = Role.Doctor → j = d)
    (hdec : (d, ("heal", H)) ∈ nightDecisions ch s)
    (i : Nat) (p : Player) (hp : s.players[i]? = some p) (hname : p.playerName = H)
    (halive : p.alive = true) :
    ∃ p', (playNightPhase ch s).players[i]? = some p' ∧ p'.alive = true
      ∧ p'.playerName = H := by
  have hheal : (nightVars ch s).doctorHeal = H :=
    classifiedVars_single_doctor ch s d dp H hd hrole honly hdec
  obtain ⟨p', hp', ha, hn⟩ := playNightPhase_keeps_healed ch s i p hp (hname.trans hheal.symm)
  exact ⟨p', hp', ha.trans halive, hn.trans hname⟩

/-- Witness for C28: the Mafia P1, the Commissar P3 and the Maniac P4 all
decide to kill the Doctor P2, P2 heals itself, and P2 is alive after the night. -/
theorem healed_survives_witness :
    (nightVars healChance botGame).mafiaVictim = "P2"
    ∧ (nightVars healChance botGame).maniacVictim = "P2"
    ∧ (nightVars healChance botGame).commissarAction = "kill"
    ∧ (nightVars healChance botGame).commissarTarget = "P2"
    ∧ ∃ p', (playNightPhase healChance botGame).players[1]? = some p' ∧ p'.alive = true
        ∧ p'.playerName = "P2" :=
  ⟨by decide, by decide, by decide, by decide,
    healed_survives healChance botGame 1 (Player.new "P2" StrategyKind.Bot Role.Doctor) "P2"
      (by decide) (by decide)
      (by
        intro j p hj hp
        match j with
        | 0 => simp [botGame, rosterOf] at hj; subst hj; simp [Player.new] at hp
        | 1 => rfl
        | 2 => simp [botGame, rosterOf] at hj; subst hj; simp [Player.new] at hp
        | 3 => simp [botGame, rosterOf] at hj; subst hj; simp [Player.new] at hp
        | 4 => simp [botGame, rosterOf] at hj; subst hj; simp [Player.new] at hp
        | k + 5 => simp [botGame, rosterOf] at hj)
      (by decide) 1 (Player.new "P2" StrategyKind.Bot Role.Doctor) (by decide) (by decide)
      (by decide)⟩

/-! ## The check writes one map entry -/

theorem commissarCheck_eq (v : NightVars) (s : GameMaster) :
    commissarCheck v s = s
    ∨ ∃ (c : Nat) (b : Bool), v.commissarPlayer = some c
        ∧ commissarCheck v s
            = { s with players := updateAt s.players c (addCheckedPlayer v.commissarTarget b) } := by
  unfold commissarCheck
  cases findPlayerByName s.players v.commissarTarget with
  | none => exact Or.inl rfl
  | some t =>
    simp only
    cases s.players[t]? with
    | none => exact Or.inl rfl
    | some tp =>
      simp only
      cases hcp : v.commissarPlayer with
      | none => exact Or.inl rfl
      | some c =>
        simp only
        cases s.players[c]? with
        | none => exact Or.inl rfl
        | some cp =>
          simp only
          split_ifs
          · exact Or.inr ⟨c, _, rfl, rfl⟩
          · exact Or.inl rfl

theorem playNightPhase_eq_commissarResolve (ch : Chance) (s : GameMaster) :
    playNightPhase ch s = commissarResolve (nightVars ch s) (beforeCommissar ch s) := rfl

theorem killPlayer_getElem? (ps : List Player) (x : String) (i : Nat) (q : Player)
    (hq : ps[i]? = some q) :
    (killPlayer ps x)[i]? = some q
      ∨ (q.playerName = x ∧ (killPlayer ps x)[i]? = some q.die) := by
  unfold killPlayer
  cases hf : findPlayerByName ps x with
  | none => exact Or.inl hq
  | some k =>
    simp only
    obtain ⟨r, hr, hn⟩ := findPlayerByName_some hf
    rw [getElem?_updateAt, hq]
    by_cases hik : i = k
    · subst hik
      rw [hq] at hr
      have hqr := Option.some.inj hr
      subst hqr
      rw [if_pos rfl]
      exact Or.inr ⟨hn, rfl⟩
    · rw [if_neg hik]
      exact Or.inl rfl

theorem killUnlessHealed_getElem? (v : NightVars) (x : String) (s : GameMaster) (i : Nat)
    (q : Player) (hq : s.players[i]? = some q) :
    (killUnlessHealed v x s).players[i]? = some q
      ∨ (q.playerName = x ∧ x ≠ "" ∧ x ≠ v.doctorHeal
          ∧ (killUnlessHealed v x s).players[i]? = some q.die) := by
  unfold killUnlessHealed
  split_ifs with h
  · rcases killPlayer_getElem? s.players x i q hq with h1 | ⟨h1, h2⟩
    · exact Or.inl h1
    · exact Or.inr ⟨h1, h.1, h.2, h2⟩
  · exact Or.inl hq

theorem commissarResolve_getElem? (v : NightVars) (s : GameMaster) (i : Nat)
    (q : Player) (hq : s.players[i]? = some q) :
    (∃ q', (commissarResolve v s).players[i]? = some q' ∧ q'.alive = q.alive)
      ∨ (v.commissarAction = "kill" ∧ q.playerName = v.commissarTarget
          ∧ v.commissarTarget ≠ "" ∧ v.commissarTarget ≠ v.doctorHeal) := by
  unfold commissarResolve
  split_ifs with h1 h2 h3
  · rcases killPlayer_getElem? s.players v.commissarTarget i q hq with g | ⟨g1, _⟩
    · exact Or.inl ⟨q, g, rfl⟩
    · exact Or.inr ⟨h2.1, g1, h1, h2.2⟩
  · rcases (commissarCheck_players v s).1 with h | ⟨c, b, h⟩
    · rw [h]; exact Or.inl ⟨q, hq, rfl⟩
    · rw [h, getElem?_updateAt, hq]
      by_cases hic : i = c
      · rw [if_pos hic]; exact Or.inl ⟨_, rfl, rfl⟩
      · rw [if_neg hic]; exact Or.inl ⟨q, rfl, rfl⟩
  · exact Or.inl ⟨q, hq, rfl⟩
  · exact Or.inl ⟨q, hq, rfl⟩

/-- A participant that is dead after a night was dead before it or bears a
name that was queued for death; no assumption on the names of the roster. -/
theorem playNightPhase_dead_only_if (ch : Chance) (s : GameMaster) (i : Nat) (p p' : Player)
    (hp : s.players[i]? = some p) (hp' : (playNightPhase ch s).players[i]? = some p')
    (hdead : p'.alive = false) :
    p.alive = false ∨ queuedDeath (nightVars ch s) p.playerName := by
  by_contra hcon
  rw [not_or] at hcon
  obtain ⟨halive, hnq⟩ := hcon
  obtain ⟨p1, hp1, hc⟩ := nightRoster_getElem? ch s hp
  simp only [Player.core, Prod.mk.injEq] at hc
  have hn1 : p1.playerName = p.playerName := hc.1
  have ha1 : p1.alive = p.alive := hc.2.1
  have h0 : (recordSaved (nightVars ch s) { s with players := nightRoster ch s }).players[i]?
      = some p1 := by
    rw [(recordSaved_players _ _).1]; exact hp1
  have step : ∀ (x : String) (st : GameMaster),
      (x = (nightVars ch s).mafiaVictim ∨ x = (nightVars ch s).killerVictim
        ∨ x = (nightVars ch s).maniacVictim) →
      st.players[i]? = some p1 →
      (killUnlessHealed (nightVars ch s) x st).players[i]? = some p1 := by
    intro x st hx hst
    rcases killUnlessHealed_getElem? (nightVars ch s) x st i p1 hst with g | ⟨g1, g2, g3, _⟩
    · exact g
    · exfalso
      apply hnq
      rw [← hn1, g1]
      refine ⟨g2, g3, ?_⟩
      rcases hx with hx | hx | hx
      · exact Or.inl hx
      · exact Or.inr (Or.inl hx)
      · exact Or.inr (Or.inr (Or.inl hx))
  have h1 := step _ _ (Or.inl rfl) h0
  have h2 := step _ _ (Or.inr (Or.inl rfl)) h1
  have h3 := step _ _ (Or.inr (Or.inr rfl)) h2
  have h4 : (beforeCommissar ch s).players[i]? = some p1 := h3
  rcases commissarResolve_getElem? (nightVars ch s) (beforeCommissar ch s) i p1 h4 with
    ⟨q', hq', hqa⟩ | ⟨g1, g2, g3, g4⟩
  · rw [← playNightPhase_eq_commissarResolve, hp'] at hq'
    have := Option.some.inj hq'
    subst this
    rw [hqa, ha1] at hdead
    exact halive hdead
  · apply hnq
    rw [← hn1, g2]
    exact ⟨g3, g4, Or.inr (Or.inr (Or.inr ⟨g1, rfl⟩))⟩

/-- C27: when the roster's Commissar decides (check, T) in a night, the
Commissar's block of `playNightPhase` changes no liveness flag: every
participant is after the night as it was before that block except for the
entry for T in the knowledge map of that Commissar, and the two announcement
lists are as before the block. A participant (T among them) is dead after the
night only if it was dead before the night or its name is a non-empty mafia,
killer or maniac victim different from the heal target; the names of the
roster need not be distinct. -/
theorem commissar_check_frame (ch : Chance) (s : GameMaster) (c : Nat) (cp : Player)
    (T : String) (hc : s.players[c]? = some cp) (hrole : cp.role = Role.Commissar)
    (honly : ∀ (j : Nat) (p : Player), s.players[j]? = some p → p.role = Role.Commissar → j = c)
    (hdec : (c, ("check", T)) ∈ nightDecisions ch s) :
    (∀ (i : Nat) (p3 : Player), (beforeCommissar ch s).players[i]? = some p3 →
        ∃ p', (playNightPhase ch s).players[i]? = some p'
          ∧ p'.alive = p3.alive ∧ p'.playerName = p3.playerName ∧ p'.role = p3.role
          ∧ p'.strategy = p3.strategy ∧ p'.lastHealed = p3.lastHealed
          ∧ (∀ x, x ≠ T → mapFind p'.checkedPlayers x = mapFind p3.checkedPlayers x)
          ∧ (i ≠ c → p' = p3))
    ∧ (playNightPhase ch s).playersToReveal = (beforeCommissar ch s).playersToReveal
    ∧ (playNightPhase ch s).healedPlayers = (beforeCommissar ch s).healedPlayers
    ∧ (∀ (i : Nat) (p p' : Player), s.players[i]? = some p →
        (playNightPhase ch s).players[i]? = some p' → p'.alive = false →
        p.alive = false
        ∨ (p.playerName ≠ "" ∧ p.playerName ≠ (nightVars ch s).doctorHeal
            ∧ (p.playerName = (nightVars ch s).mafiaVictim
                ∨ p.playerName = (nightVars ch s).killerVictim
                ∨ p.playerName = (nightVars ch s).maniacVictim))) := by
  obtain ⟨h1, h2, h3⟩ := classifiedVars_single_commissar ch s c cp "check" T hc hrole honly
    (Or.inl rfl) hdec
  have hv1 : (nightVars ch s).commissarPlayer = some c := h1
  have hv2 : (nightVars ch s).commissarAction = "check" := h2
  have hv3 : (nightVars ch s).commissarTarget = T := h3
  have hnk : ¬ ((nightVars ch s).commissarAction = "kill"
      ∧ (nightVars ch s).commissarTarget ≠ (nightVars ch s).doctorHeal) := by
    rw [hv2]; exact fun h => absurd h.1 (by decide)
  have hres : playNightPhase ch s = beforeCommissar ch s
      ∨ ∃ b : Bool, playNightPhase ch s
          = { beforeCommissar ch s with
              players := updateAt (beforeCommissar ch s).players c (addCheckedPlayer T b) } := by
    rw [playNightPhase_eq_commissarResolve]
    unfold commissarResolve
    by_cases hT : (nightVars ch s).commissarTarget ≠ ""
    · rw [if_pos hT, if_neg hnk, if_pos hv2]
      rcases commissarCheck_eq (nightVars ch s) (beforeCommissar ch s) with h | ⟨c', b, hc', h⟩
      · exact Or.inl h
      · rw [hv1] at hc'
        have := Option.some.inj hc'
        subst this
        rw [hv3] at h
        exact Or.inr ⟨b, h⟩
    · rw [if_neg hT]; exact Or.inl rfl
  refine ⟨?_, ?_, ?_, ?_⟩
  · intro i p3 hp3
    rcases hres with h | ⟨b, h⟩
    · rw [h]; exact ⟨p3, hp3, rfl, rfl, rfl, rfl, rfl, fun _ _ => rfl, fun _ => rfl⟩
    · rw [h]
      simp only
      rw [getElem?_updateAt, hp3]
      by_cases hic : i = c
      · rw [if_pos hic]
        refine ⟨_, rfl, rfl, rfl, rfl, rfl, rfl, ?_, fun hne => absurd hic hne⟩
        intro x hx
        exact mapFind_mapAssign_ne _ _ _ _ hx
      · rw [if_neg hic]
        exact ⟨p3, rfl, rfl, rfl, rfl, rfl, rfl, fun _ _ => rfl, fun _ => rfl⟩
  · rcases hres with h | ⟨b, h⟩ <;> rw [h]
  · rcases hres with h | ⟨b, h⟩ <;> rw [h]
  · intro i p p' hp hp' hdead
    by_cases ha : p.alive = true
    · right
      have hqd : queuedDeath (nightVars ch s) p.playerName := by
        rcases playNightPhase_dead_only_if ch s i p p' hp hp' hdead with g | g
        · rw [ha] at g; exact absurd g (by decide)
        · exact g
      obtain ⟨g1, g2, g3 | g3 | g3 | g3⟩ := hqd
      · exact ⟨g1, g2, Or.inl g3⟩
      · exact ⟨g1, g2, Or.inr (Or.inl g3)⟩
      · exact ⟨g1, g2, Or.inr (Or.inr g3)⟩
      · rw [hv2] at g3; exact absurd g3.1 (by decide)
    · left
      cases hb : p.alive with
      | false => rfl
      | true => exact absurd hb ha

/-- Witness for C27: in the first night of the game that `twinSetup` builds,
whose roster holds the name X twice, the Commissar checks K; the check leaves
K as it was and the announcement lists as they were. -/
theorem commissar_check_frame_witness :
    twinGame.players.map Player.playerName = ["X", "X", "K", "D", "M"]
    ∧ (1, ("check", "K")) ∈ nightDecisions twinNight twinGame
    ∧ (∃ p', (playNightPhase twinNight twinGame).players[2]? = some p'
        ∧ p'.alive = true ∧ p'.playerName = "K")
    ∧ (playNightPhase twinNight twinGame).playersToReveal
        = (beforeCommissar twinNight twinGame).playersToReveal
    ∧ (playNightPhase twinNight twinGame).healedPlayers
        = (beforeCommissar twinNight twinGame).healedPlayers :=
  match commissar_check_frame twinNight twinGame 1
    (Player.new "X" StrategyKind.Bot Role.Commissar) "K" (by decide) (by decide)
    (by
      have hpl : twinGame.players
          = [(Player.new "X" StrategyKind.Bot Role.Civilian).die,
             Player.new "X" StrategyKind.Bot Role.Commissar,
             Player.new "K" StrategyKind.Bot Role.Killer,
             Player.new "D" StrategyKind.Bot Role.Doctor,
             Player.new "M" StrategyKind.Bot Role.Maniac] := by decide
      intro j p hj hp
      rw [hpl] at hj
      match j with
      | 0 => simp at hj; subst hj; simp [Player.new, Player.die] at hp
      | 1 => rfl
      | 2 => simp at hj; subst hj; simp [Player.new] at hp
      | 3 => simp at hj; subst hj; simp [Player.new] at hp
      | 4 => simp at hj; subst hj; simp [Player.new] at hp
      | k + 5 => simp at hj)
    (by decide) with
  | ⟨h1, h2, h3, _⟩ =>
    ⟨by decide, by decide,
      match h1 2 (Player.new "K" StrategyKind.Bot Role.Killer) (by decide) with
      | ⟨p', g1, g2, g3, _⟩ => ⟨p', g1, g2, g3⟩,
      h2, h3⟩

/-! ## Setup -/

theorem sound_init (numPlayers : Nat) (h : 5 ≤ numPlayers) :
    (Assigning.init numPlayers).Sound numPlayers := by
  constructor <;> simp [Assigning.init, Assigning.remaining] <;> omega

theorem sound_take (numPlayers : Nat) (a : Assigning) (playerName : String)
    (strategy : StrategyKind) (role : Role) (hs : a.Sound numPlayers)
    (hb : 0 < a.budget role) (hf : a.free role) :
    (a.take playerName strategy role).Sound numPlayers
      ∧ (a.take playerName strategy role).players.length = a.players.length + 1
      ∧ (a.take playerName strategy role).moduli = a.moduli := by
  obtain ⟨h1, h2, h3, h4, h5, s1, s2, s3, s4, s5, s6, al, b1, b2, n1, n2, k1, k2, mo⟩ := hs
  have hal : ∀ p ∈ a.players ++ [Player.new playerName strategy role], p.alive = true := by
    intro p hp
    rw [List.mem_append, List.mem_singleton] at hp
    rcases hp with hp | hp
    · exact al p hp
    · rw [hp]; rfl
  cases role <;>
    simp only [Assigning.budget, Assigning.free] at hb hf <;>
    (first
      | (have hx := b2 hf)
      | (have hx := n2 hf)
      | (have hx := k2 hf)
      | skip) <;>
    refine ⟨⟨?_, ?_, ?_, ?_, ?_, ?_, ?_, ?_, ?_, ?_, ?_, hal, ?_, ?_, ?_, ?_, ?_, ?_, mo⟩, ?_, rfl⟩ <;>
    simp only [Assigning.take, Assigning.push, Assigning.remaining, Player.new, Player.isMafia,
      Player.isDoctor, Player.isCommissar, Player.isManiac, Player.isBull, Player.isNinja,
      Player.isKiller, List.countP_append, List.countP_cons, List.countP_nil, List.length_append,
      List.length_singleton, Nat.cast_add, Nat.cast_one, beq_self_eq_true, if_true,
      Bool.false_eq_true, if_false, reduceCtorEq, beq_iff_eq, Nat.cast_zero, Nat.cast_ofNat,
      decide_True, decide_False, Bool.or_true, Bool.or_false, Bool.true_or, Bool.or_self,
      zero_add, add_zero] at * <;>
    (first
      | omega
      | assumption
      | (intro h; exact absurd h (by decide)))

theorem sound_record (numPlayers : Nat) (a : Assigning) (hs : a.Sound numPlayers)
    (hlt : a.players.length < numPlayers) :
    ({ a with moduli := a.moduli ++ [(a.remaining, a.players.length)] } : Assigning).Sound
      numPlayers := by
  obtain ⟨h1, h2, h3, h4, h5, s1, s2, s3, s4, s5, s6, al, b1, b2, n1, n2, k1, k2, mo⟩ := hs
  refine ⟨h1, h2, h3, h4, h5, s1, s2, s3, s4, s5, s6, al, b1, b2, n1, n2, k1, k2, ?_⟩
  intro e he
  rw [List.mem_append, List.mem_singleton] at he
  rcases he with he | he
  · exact mo e he
  · rw [he]
    simp only
    omega

/-- A call of `assignRandomRole` made while participants are still to be
created is defined and creates one automated participant of a role whose
counter is positive and whose subtype flag is not set. -/
theorem assignRandomRole_sound (numPlayers : Nat) (playerName : String) (roleDraw typeDraw : Nat)
    (a : Assigning) (hs : a.Sound numPlayers) (hlt : a.players.length < numPlayers) :
    ∃ a1, assignRandomRole playerName roleDraw typeDraw a = some a1 ∧ a1.Sound numPlayers
      ∧ a1.players.length = a.players.length + 1 := by
  have hrec := sound_record numPlayers a hs hlt
  have hpos : 0 < a.remaining := by
    have := hs.length_sum
    omega
  have hr0 : 0 ≤ Int.tmod roleDraw a.remaining := Int.tmod_nonneg _ (Int.ofNat_nonneg _)
  have hr1 : Int.tmod roleDraw a.remaining < a.remaining := Int.tmod_lt_of_pos _ hpos
  have key : ∃ role, assignRandomRole playerName roleDraw typeDraw a
      = some (({ a with moduli := a.moduli ++ [(a.remaining, a.players.length)] } : Assigning).take
          playerName StrategyKind.Bot role)
      ∧ 0 < ({ a with moduli := a.moduli ++ [(a.remaining, a.players.length)] }
          : Assigning).budget role
      ∧ ({ a with moduli := a.moduli ++ [(a.remaining, a.players.length)] }
          : Assigning).free role := by
    have hd := hs.doctors_nonneg
    have hc := hs.commissars_nonneg
    have hm := hs.maniacs_nonneg
    unfold assignRandomRole
    rw [if_neg (ne_of_gt hpos)]
    simp only [Assigning.remaining] at hr0 hr1 ⊢
    split_ifs with g1 g2 g3 g4 g5 g6 g7 g8
    · exact ⟨Role.Mafia, rfl, by simp only [Assigning.budget]; omega, trivial⟩
    · exact ⟨Role.Bull, rfl, by simp only [Assigning.budget]; omega, g3.2⟩
    · exact ⟨Role.Ninja, rfl, by simp only [Assigning.budget]; omega, g4.2⟩
    · exact ⟨Role.Killer, rfl, by simp only [Assigning.budget]; omega, g5.2⟩
    · exact ⟨Role.Mafia, rfl, by simp only [Assigning.budget]; omega, trivial⟩
    · exact ⟨Role.Doctor, rfl, by simp only [Assigning.budget]; omega, trivial⟩
    · exact ⟨Role.Commissar, rfl, by simp only [Assigning.budget]; omega, trivial⟩
    · exact ⟨Role.Maniac, rfl, by simp only [Assigning.budget]; omega, trivial⟩
    · exact ⟨Role.Civilian, rfl, by simp only [Assigning.budget]; omega, trivial⟩
  obtain ⟨role, he, hb, hf⟩ := key
  obtain ⟨t1, t2, _⟩ := sound_take numPlayers _ playerName StrategyKind.Bot role hrec hb hf
  exact ⟨_, he, t1, t2⟩

/-- The loop of `assignRoles` fills the roster when enough names are left. -/
theorem assignLoop_sound (numPlayers : Nat) (draws : Nat → Nat × Nat) (names : List String) :
    ∀ a : Assigning, a.Sound numPlayers → a.players.length < numPlayers →
      numPlayers ≤ a.players.length + names.length →
      ∃ a1, assignLoop numPlayers draws names a = some a1 ∧ a1.Sound numPlayers
        ∧ a1.players.length = numPlayers := by
  induction names with
  | nil =>
    intro a _ hlt hle
    simp only [List.length_nil] at hle
    omega
  | cons name rest ih =>
    intro a hs hlt hle
    obtain ⟨a1, he, hs1, hl1⟩ := assignRandomRole_sound numPlayers name
      (draws a.players.length).1 (draws a.players.length).2 a hs hlt
    unfold assignLoop
    rw [he]
    simp only
    by_cases hfull : a1.players.length = numPlayers
    · rw [if_pos hfull]
      exact ⟨a1, rfl, hs1, hfull⟩
    · rw [if_neg hfull]
      simp only [List.length_cons] at hle
      exact ih a1 hs1 (by omega) (by omega)

/-- The block for the interactive participant creates one participant. -/
theorem assignUser_sound (numPlayers : Nat) (h5 : 5 ≤ numPlayers) (inp : SetupInput) :
    ∃ a1, assignUser inp (Assigning.init numPlayers) = some a1 ∧ a1.Sound numPlayers
      ∧ a1.players.length = 1 := by
  have hs := sound_init numPlayers h5
  have hb : ∀ role, 0 < (Assigning.init numPlayers).budget role := by
    intro role
    cases role <;> simp only [Assigning.budget, Assigning.init] <;> omega
  have hf : ∀ role, (Assigning.init numPlayers).free role := by
    intro role
    cases role <;> simp [Assigning.free, Assigning.init]
  have htake : ∀ role, ∃ a1,
      some ((Assigning.init numPlayers).take inp.playerName StrategyKind.User role) = some a1
        ∧ a1.Sound numPlayers ∧ a1.players.length = 1 := by
    intro role
    obtain ⟨t1, t2, _⟩ := sound_take numPlayers _ inp.playerName StrategyKind.User role hs
      (hb role) (hf role)
    exact ⟨_, rfl, t1, t2⟩
  unfold assignUser
  split_ifs with g1 g2 g3 g4 g5 g6 g7 g8
  · exact htake Role.Mafia
  · exact htake Role.Bull
  · exact htake Role.Ninja
  · exact htake Role.Killer
  · exact htake Role.Doctor
  · exact htake Role.Commissar
  · exact htake Role.Maniac
  · exact htake Role.Civilian
  · obtain ⟨a1, he, hs1, hl1⟩ := assignRandomRole_sound numPlayers inp.playerName
      (inp.draws (Assigning.init numPlayers).players.length).1
      (inp.draws (Assigning.init numPlayers).players.length).2 _ hs
      (by simp only [Assigning.init, List.length_nil]; omega)
    exact ⟨a1, he, hs1, hl1⟩

theorem length_filter_ne_of_nodup (names : List String) (x : String) (h : names.Nodup) :
    names.length ≤ (names.filter (fun n => n != x)).length + 1 := by
  rw [← List.Nodup.erase_eq_filter h x, List.length_erase]
  split_ifs <;> omega

/-- With at least `numPlayers` distinct names, the body of `assignRoles` is
defined and ends in a state that satisfies the loop invariant with a full
roster. -/
theorem assignAll_sound (numPlayers : Nat) (isUserPlayer : Bool) (inp : SetupInput)
    (h5 : 5 ≤ numPlayers) (hnames : inp.names.Nodup) (hlen : numPlayers ≤ inp.names.length) :
    ∃ a, assignAll numPlayers isUserPlayer inp = some a ∧ a.Sound numPlayers
      ∧ a.players.length = numPlayers := by
  have hperm := inp.shuffle_perm inp.names
  have hnd : (inp.shuffle inp.names).Nodup := hperm.nodup_iff.2 hnames
  have hl : (inp.shuffle inp.names).length = inp.names.length := hperm.length_eq
  unfold assignAll
  cases isUserPlayer with
  | false =>
    simp only [Bool.false_eq_true, if_false]
    apply assignLoop_sound numPlayers inp.draws _ _ (sound_init numPlayers h5)
    · simp only [Assigning.init, List.length_nil]; omega
    · simp only [Assigning.init, List.length_nil]; omega
  | true =>
    simp only [if_true]
    obtain ⟨a1, he, hs1, hl1⟩ := assignUser_sound numPlayers h5 inp
    rw [he]
    simp only
    apply assignLoop_sound numPlayers inp.draws _ _ hs1
    · omega
    · have := length_filter_ne_of_nodup (inp.shuffle inp.names) inp.playerName hnd
      omega

/-- C30: for every `numPlayers` of at least 5, every list of at least
`numPlayers` distinct names, every typed name and role and all values of
`std::rand()`, `assignRoles` is defined and yields a roster of exactly
`numPlayers` participants, all alive, of which exactly `max(1, numPlayers / 5)`
are Mafia-aligned, with at most one Bull, one Ninja and one Killer, exactly
one is a Doctor, one a Commissar and one a Maniac, and
`numPlayers - max(1, numPlayers / 5) - 3` are Civilians; the modulus of every
role draw made was the number of participants still to be created and was not
zero. -/
theorem assignRoles_roster (numPlayers : Nat) (isUserPlayer : Bool) (inp : SetupInput)
    (h5 : 5 ≤ numPlayers) (hnames : inp.names.Nodup) (hlen : numPlayers ≤ inp.names.length) :
    ∃ a, assignAll numPlayers isUserPlayer inp = some a
      ∧ assignRoles numPlayers isUserPlayer inp = some a.players
      ∧ a.players.length = numPlayers
      ∧ (∀ p ∈ a.players, p.alive = true)
      ∧ a.players.countP Player.isMafia = max 1 (numPlayers / 5)
      ∧ a.players.countP Player.isBull ≤ 1
      ∧ a.players.countP Player.isNinja ≤ 1
      ∧ a.players.countP Player.isKiller ≤ 1
      ∧ a.players.countP Player.isDoctor = 1
      ∧ a.players.countP Player.isCommissar = 1
      ∧ a.players.countP Player.isManiac = 1
      ∧ a.players.countP (fun p => p.role == Role.Civilian)
          = numPlayers - max 1 (numPlayers / 5) - 3
      ∧ (∀ e ∈ a.moduli, e.1 = (numPlayers : Int) - e.2 ∧ e.1 ≠ 0) := by
  obtain ⟨a, he, hs, hl⟩ := assignAll_sound numPlayers isUserPlayer inp h5 hnames hlen
  obtain ⟨h1, h2, h3, h4, h5', s1, s2, s3, s4, s5, s6, al, b1, _, n1, _, k1, _, mo⟩ := hs
  have hroles : assignRoles numPlayers isUserPlayer inp = some a.players := by
    unfold assignRoles
    rw [if_neg (by omega), he]
    rfl
  simp only [Assigning.remaining] at s6
  refine ⟨a, he, hroles, hl, al, ?_, b1, n1, k1, ?_, ?_, ?_, ?_, mo⟩ <;> omega

/-- Witness for C30: six names and six automated participants. -/
theorem assignRoles_roster_witness :
    ∃ a, assignAll 6 false sixSetup = some a
      ∧ assignRoles 6 false sixSetup = some a.players
      ∧ a.players.length = 6
      ∧ (∀ p ∈ a.players, p.alive = true)
      ∧ a.players.countP Player.isMafia = max 1 (6 / 5)
      ∧ a.players.countP Player.isBull ≤ 1
      ∧ a.players.countP Player.isNinja ≤ 1
      ∧ a.players.countP Player.isKiller ≤ 1
      ∧ a.players.countP Player.isDoctor = 1
      ∧ a.players.countP Player.isCommissar = 1
      ∧ a.players.countP Player.isManiac = 1
      ∧ a.players.countP (fun p => p.role == Role.Civilian) = 6 - max 1 (6 / 5) - 3
      ∧ (∀ e ∈ a.moduli, e.1 = ((6 : Nat) : Int) - e.2 ∧ e.1 ≠ 0) :=
  assignRoles_roster 6 false sixSetup (by decide) (by decide) (by decide)

/-- The run of `assignRoles` on `sixSetup`: the roster and the recorded draws. -/
theorem sixSetup_roster :
    assignRoles 6 false sixSetup
      = some (rosterOf [("A", Role.Mafia), ("B", Role.Doctor), ("C", Role.Commissar),
          ("D", Role.Maniac), ("E", Role.Civilian), ("F", Role.Civilian)])
    ∧ (assignAll 6 false sixSetup).map (fun a => a.moduli)
      = some [(6, 0), (5, 1), (4, 2), (3, 3), (2, 4), (1, 5)] := by
  decide

/-! ## Setup without enough names -/

/-- C26: when the name source supplies fewer names than `numPlayers`,
`assignRoles` leaves the roster empty, and `runGame` on the game so
constructed leaves its loop at the first test, having run no day phase and no
night phase (the test succeeds because `isGameOver` finds zero Mafia members
and zero others, which it announces as a win of the Mafia). -/
theorem setup_fails_without_names (numPlayers : Nat) (isUserPlayer : Bool) (inp : SetupInput)
    (h : inp.names.length < numPlayers) :
    assignRoles numPlayers isUserPlayer inp = some []
    ∧ ∃ g, GameMaster.new numPlayers isUserPlayer inp = some g ∧ g.players = []
        ∧ announcedWinner g.players = some Winner.MafiaWin
        ∧ ∀ (fuel : Nat) (input : Nat → Chance), runGame (fuel + 1) input g = some (g, 0) := by
  have hr : assignRoles numPlayers isUserPlayer inp = some [] := by
    unfold assignRoles
    rw [if_pos h]
  have hw : announcedWinner [] = some Winner.MafiaWin := by decide
  refine ⟨hr, _, by unfold GameMaster.new; rw [hr]; rfl, rfl, hw, ?_⟩
  intro fuel input
  have hover : isGameOver [] = true := by decide
  simp only [runGame, runGameFrom, hover, if_true]

/-- Witness for C26: seven participants requested, six names supplied. -/
theorem setup_fails_without_names_witness :
    assignRoles 7 false sixSetup = some []
    ∧ ∃ g, GameMaster.new 7 false sixSetup = some g ∧ g.players = []
        ∧ announcedWinner g.players = some Winner.MafiaWin
        ∧ ∀ (fuel : Nat) (input : Nat → Chance), runGame (fuel + 1) input g = some (g, 0) :=
  setup_fails_without_names 7 false sixSetup (by decide)

/-! ## The Maniac alone -/

/-- A roster whose counts are (0 Mafia, 1 Maniac, 0 others) is a living Maniac
between dead participants. -/
theorem lone_split : ∀ players : List Player, mafiaAlive players = 0 →
    maniacAlive players = 1 → otherAlive players = 0 →
    ∃ (pre : List Player) (m : Player) (post : List Player), players = pre ++ m :: post
      ∧ m.role = Role.Maniac ∧ m.alive = true
      ∧ (∀ p ∈ pre, p.alive = false) ∧ (∀ p ∈ post, p.alive = false) := by
  intro players
  induction players with
  | nil => intro _ h _; simp [maniacAlive] at h
  | cons p rest ih =>
    intro hm hn ho
    unfold mafiaAlive at hm
    unfold maniacAlive at hn
    unfold otherAlive at ho
    rw [List.countP_cons] at hm hn ho
    cases ha : p.alive with
    | false =>
      simp only [ha, Bool.false_and, Bool.false_eq_true, if_false, add_zero] at hm hn ho
      obtain ⟨pre, m, post, he, h1, h2, h3, h4⟩ := ih hm hn ho
      refine ⟨p :: pre, m, post, by rw [he]; rfl, h1, h2, ?_, h4⟩
      intro q hq
      rw [List.mem_cons] at hq
      rcases hq with hq | hq
      · rw [hq]; exact ha
      · exact h3 q hq
    | true =>
      simp only [ha, Bool.true_and] at hm hn ho
      have hpm : p.isMafia = false := by
        cases h : p.isMafia with
        | false => rfl
        | true => rw [h] at hm; simp at hm
      have hpn : p.isManiac = true := by
        cases h : p.isManiac with
        | true => rfl
        | false => rw [hpm, h] at ho; simp at ho
      rw [hpn] at hn
      rw [hpm] at hm
      simp only [if_true, Bool.false_eq_true, if_false, add_zero] at hm hn
      have hn0 : List.countP (fun p => p.alive && p.isManiac) rest = 0 := by omega
      have ho0 : List.countP (fun p => p.alive && !p.isMafia && !p.isManiac) rest = 0 := by
        omega
      rw [List.countP_eq_zero] at hm hn0 ho0
      refine ⟨[], p, rest, rfl, ?_, ha, fun _ h => absurd h (List.not_mem_nil _), ?_⟩
      · simpa [Player.isManiac] using hpn
      · intro q hq
        have g1 := hm q hq
        have g2 := hn0 q hq
        have g3 := ho0 q hq
        cases hq1 : q.alive with
        | false => rfl
        | true =>
          exfalso
          rw [hq1] at g1 g2 g3
          cases hq2 : q.isMafia <;> cases hq3 : q.isManiac <;> rw [hq2] at g1 g3 <;>
            rw [hq3] at g2 g3 <;> simp at g1 g2 g3

theorem filter_alive_enumFrom_dead (l : List Player) (n : Nat)
    (h : ∀ p ∈ l, p.alive = false) :
    (l.enumFrom n).filter (fun e => e.2.alive) = [] := by
  rw [List.filter_eq_nil_iff]
  rintro ⟨i, q⟩ he
  have hq := (List.mem_enumFrom he).2.2
  have hmem : q ∈ l := by rw [hq]; exact List.getElem_mem _
  simp [h q hmem]

theorem alivePlayers_lone (pre post : List Player) (m : Player) (ha : m.alive = true)
    (hpre : ∀ p ∈ pre, p.alive = false) (hpost : ∀ p ∈ post, p.alive = false) :
    alivePlayers (pre ++ m :: post) = [(pre.length, m)] := by
  unfold alivePlayers
  rw [List.enum_append, List.filter_append, List.enumFrom_cons, List.filter_cons]
  unfold List.enum
  rw [filter_alive_enumFrom_dead pre 0 hpre, filter_alive_enumFrom_dead post _ hpost]
  simp [ha]

theorem updateAt_self : ∀ (players : List Player) (i : Nat) (p : Player),
    players[i]? = some p → updateAt players i (fun _ => p) = players := by
  intro players
  induction players with
  | nil => intro i p _; rfl
  | cons q rest ih =>
    intro i p hp
    cases i with
    | zero =>
      simp at hp
      simp [updateAt, hp]
    | succ i =>
      simp at hp
      simp [updateAt, ih i p hp]

theorem strategyVote_none (k : StrategyKind) (players : List Player)
    (filt : Nat × Player → Bool) (c : Choice)
    (h : ∀ (j : Nat) (q : Player), players[j]? = some q → filt (j, q) = false) :
    strategyVote k players filt c = "" := by
  rcases strategyVote_spec k players filt c with h0 | ⟨⟨j, q⟩, he, hf, _⟩
  · exact h0
  · rw [h j q (List.mk_mem_enum_iff_getElem?.1 he)] at hf
    exact absurd hf (by decide)

theorem strategyChooseAction_none (k : StrategyKind) (players : List Player)
    (acts : List String) (filt : Nat × Player → Bool) (c : Choice)
    (h : ∀ (j : Nat) (q : Player), players[j]? = some q → filt (j, q) = false) :
    strategyChooseAction k players acts filt c = ("", "") := by
  rcases strategyChooseAction_spec k players acts filt c with h0 | ⟨_, ⟨j, q⟩, he, hf, _⟩
  · exact h0
  · rw [h j q (List.mk_mem_enum_iff_getElem?.1 he)] at hf
    exact absurd hf (by decide)

theorem lone_filters (pre post : List Player) (m : Player) (hr : m.role = Role.Maniac)
    (ha : m.alive = true) (hpre : ∀ p ∈ pre, p.alive = false)
    (hpost : ∀ p ∈ post, p.alive = false) (j : Nat) (q : Player)
    (hq : (pre ++ m :: post)[j]? = some q) :
    voteFilter pre.length m (j, q) = false ∧ nightFilter pre.length m (j, q) = false := by
  unfold voteFilter nightFilter
  rw [hr]
  simp only
  cases hqa : q.alive with
  | false => simp
  | true =>
    have hmem : (j, q) ∈ alivePlayers (pre ++ m :: post) :=
      List.mem_filter.2 ⟨List.mk_mem_enum_iff_getElem?.2 hq, hqa⟩
    rw [alivePlayers_lone pre post m ha hpre hpost, List.mem_singleton] at hmem
    have hj : j = pre.length := (Prod.mk.inj hmem).1
    simp [hj]

theorem lone_getElem? (pre post : List Player) (m : Player) :
    (pre ++ m :: post)[pre.length]? = some m := by
  rw [List.getElem?_append_right (Nat.le_refl _)]
  simp

/-- With only the Maniac alive the one vote of a day is empty and the day
phase changes nothing. -/
theorem lone_day (ch : Chance) (s : GameMaster) (pre post : List Player) (m : Player)
    (hs : s.players = pre ++ m :: post) (hr : m.role = Role.Maniac) (ha : m.alive = true)
    (hpre : ∀ p ∈ pre, p.alive = false) (hpost : ∀ p ∈ post, p.alive = false) :
    dayResults ch.choice s.players = [""] ∧ playDayPhase ch s = s := by
  have hres : dayResults ch.choice s.players = [""] := by
    unfold dayResults
    rw [hs, alivePlayers_lone pre post m ha hpre hpost]
    simp only [List.map_cons, List.map_nil, Player.vote]
    rw [strategyVote_none _ _ _ _
      (fun j q hq => (lone_filters pre post m hr ha hpre hpost j q hq).1)]
  refine ⟨hres, ?_⟩
  have hord : ch.order [] = [] := List.perm_nil.1 (ch.order_perm [])
  have hc : countVotes [""] = [] := by simp [countVotes]
  unfold playDayPhase
  simp only [hres, hc, hord]
  rfl

/-- With only the Maniac alive the one decision of a night is the abstention
and the night phase changes nothing. -/
theorem lone_night (ch : Chance) (s : GameMaster) (pre post : List Player) (m : Player)
    (hs : s.players = pre ++ m :: post) (hr : m.role = Role.Maniac) (ha : m.alive = true)
    (hpre : ∀ p ∈ pre, p.alive = false) (hpost : ∀ p ∈ post, p.alive = false) :
    aliveIndices s.players = [pre.length]
    ∧ nightDecisions ch s = [(pre.length, ("", ""))] ∧ playNightPhase ch s = s := by
  have hidx : aliveIndices s.players = [pre.length] := by
    unfold aliveIndices
    rw [hs, alivePlayers_lone pre post m ha hpre hpost]
    rfl
  have hm : s.players[pre.length]? = some m := by rw [hs]; exact lone_getElem? pre post m
  have hact : m.nightAction pre.length s.players (ch.choice pre.length) = (("", ""), m) := by
    unfold Player.nightAction
    rw [hr]
    simp only
    rw [strategyChooseAction_none _ _ _ _ _
      (fun j q hq => (lone_filters pre post m hr ha hpre hpost j q (hs ▸ hq)).2)]
  have hcol : collectNight ch.choice [pre.length] s.players
      = ([(pre.length, ("", ""))], s.players) := by
    simp only [collectNight, hm, hact]
    rw [updateAt_self s.players pre.length m hm]
  have hdec : nightDecisions ch s = [(pre.length, ("", ""))] := by
    unfold nightDecisions
    rw [hidx, hcol]
  have hros : nightRoster ch s = s.players := by
    unfold nightRoster
    rw [hidx, hcol]
  have hcl : classifiedVars ch s = NightVars.init := by
    unfold classifiedVars
    rw [hdec, hros]
    simp [classify, hm]
  have hord : ch.order [] = [] := List.perm_nil.1 (ch.order_perm [])
  have hv : nightVars ch s = NightVars.init := by
    unfold nightVars
    rw [hcl]
    simp only [NightVars.init, hord]
    rfl
  refine ⟨hidx, hdec, ?_⟩
  unfold playNightPhase
  rw [hv, hros]
  simp [resolveNight, recordSaved, killUnlessHealed, commissarResolve, NightVars.init]

/-- C29: in a state whose counts are 0 Mafia, 1 Maniac and 0 others,
`isGameOver` returns false; the Maniac's vote filter and night filter reject
every participant of the roster, its vote is empty and its night decision is
the abstention, and `playDayPhase` and `playNightPhase` return the state
unchanged. Such a state is reached in one night from the state in which the
Maniac M, the Commissar C and the Doctor D are alive, with decisions
M = (kill, C), C = (kill, D), D = (heal, M). -/
theorem lone_maniac_stuck (ch : Chance) (s : GameMaster) (hm : mafiaAlive s.players = 0)
    (hn : maniacAlive s.players = 1) (ho : otherAlive s.players = 0) :
    isGameOver s.players = false
    ∧ (∃ (k : Nat) (m : Player), s.players[k]? = some m ∧ m.role = Role.Maniac
        ∧ aliveIndices s.players = [k]
        ∧ (∀ (j : Nat) (q : Player), s.players[j]? = some q →
            voteFilter k m (j, q) = false ∧ nightFilter k m (j, q) = false)
        ∧ nightDecisions ch s = [(k, ("", ""))])
    ∧ dayResults ch.choice s.players = [""]
    ∧ playDayPhase ch s = s
    ∧ playNightPhase ch s = s
    ∧ (nightDecisions trioChance trioGame
          = [(0, ("kill", "C")), (1, ("kill", "D")), (2, ("heal", "M"))]
        ∧ (playNightPhase trioChance trioGame).players.map
            (fun p => (p.playerName, p.role, p.alive))
          = [("M", Role.Maniac, true), ("C", Role.Commissar, false), ("D", Role.Doctor, false)]
        ∧ mafiaAlive (playNightPhase trioChance trioGame).players = 0
        ∧ maniacAlive (playNightPhase trioChance trioGame).players = 1
        ∧ otherAlive (playNightPhase trioChance trioGame).players = 0) := by
  obtain ⟨pre, m, post, hs, hr, ha, hpre, hpost⟩ := lone_split s.players hm hn ho
  obtain ⟨d1, d2⟩ := lone_day ch s pre post m hs hr ha hpre hpost
  obtain ⟨n1, n2, n3⟩ := lone_night ch s pre post m hs hr ha hpre hpost
  refine ⟨?_, ⟨pre.length, m, ?_, hr, n1, ?_, n2⟩, d1, d2, n3, by decide⟩
  · unfold isGameOver announcedWinner
    rw [hm, hn, ho]
    rfl
  · rw [hs]; exact lone_getElem? pre post m
  · intro j q hq
    exact lone_filters pre post m hr ha hpre hpost j q (hs ▸ hq)

/-- Witness for C29: the game in which only the Maniac M is left. -/
theorem lone_maniac_stuck_witness :
    isGameOver loneGame.players = false
    ∧ dayResults scenarioChance.choice loneGame.players = [""]
    ∧ playDayPhase scenarioChance loneGame = loneGame
    ∧ playNightPhase scenarioChance loneGame = loneGame :=
  have h := lone_maniac_stuck scenarioChance loneGame (by decide) (by decide) (by decide)
  ⟨h.1, h.2.2.1, h.2.2.2.1, h.2.2.2.2.1⟩

/-! ## The game loop -/

theorem runGameFrom_succ (input : Nat → Chance) (fuel played : Nat) (s : GameMaster) :
    runGameFrom input (fuel + 1) played s
      = if isGameOver s.players then some (s, played)
        else if isGameOver (runPhase s (Phase.day (input played))).players then
          some (runPhase s (Phase.day (input played)), played + 1)
        else runGameFrom input fuel (played + 2)
          (runPhase (runPhase s (Phase.day (input played)))
            (Phase.night (input (played + 1)))) := rfl

theorem isGameOver_lone (players : List Player) (hm : mafiaAlive players = 0)
    (hn : maniacAlive players = 1) (ho : otherAlive players = 0) :
    isGameOver players = false := by
  unfold isGameOver announcedWinner
  rw [hm, hn, ho]
  rfl

/-- From a state whose counts are 0 Mafia, 1 Maniac and 0 others the loop of
`runGame` is not left, however many iterations are allowed. -/
theorem runGameFrom_lone (input : Nat → Chance) :
    ∀ (fuel played : Nat) (s : GameMaster), mafiaAlive s.players = 0 →
      maniacAlive s.players = 1 → otherAlive s.players = 0 →
      runGameFrom input fuel played s = none := by
  intro fuel
  induction fuel with
  | zero => intro played s _ _ _; rfl
  | succ fuel ih =>
    intro played s hm hn ho
    obtain ⟨pre, m, post, hs, hr, ha, hpre, hpost⟩ := lone_split s.players hm hn ho
    have hday : runPhase s (Phase.day (input played)) = s :=
      (lone_day (input played) s pre post m hs hr ha hpre hpost).2
    have hnight : (runPhase s (Phase.night (input (played + 1)))).players = s.players := by
      rw [runPhase_night_players,
        (lone_night (input (played + 1)) s pre post m hs hr ha hpre hpost).2.2]
    rw [runGameFrom_succ, hday, isGameOver_lone s.players hm hn ho]
    simp only [Bool.false_eq_true, if_false]
    apply ih
    · rw [hnight]; exact hm
    · rw [hnight]; exact hn
    · rw [hnight]; exact ho

/-- C23 (the code departs from the claim): the setup `sixSetup` succeeds and
builds a game of six participants; after two days and two nights of that game
only the Maniac D is alive, a state in which `isGameOver` returns false and
which no day phase and no night phase changes; and `runGame` on that game with
those inputs returns for no number of iterations of its loop. -/
theorem runGame_never_returns :
    GameMaster.new 6 false sixSetup = some sixGame
    ∧ sixStuck.players.map (fun p => (p.playerName, p.role, p.alive))
        = [("A", Role.Mafia, false), ("B", Role.Doctor, false), ("C", Role.Commissar, false),
           ("D", Role.Maniac, true), ("E", Role.Civilian, false), ("F", Role.Civilian, false)]
    ∧ isGameOver sixStuck.players = false
    ∧ (∀ ch : Chance, playDayPhase ch sixStuck = sixStuck ∧ playNightPhase ch sixStuck = sixStuck)
    ∧ ∀ fuel : Nat, runGame fuel sixInput sixGame = none := by
  have hm : mafiaAlive sixStuck.players = 0 := by decide
  have hn : maniacAlive sixStuck.players = 1 := by decide
  have ho : otherAlive sixStuck.players = 0 := by decide
  have h0 : isGameOver sixGame.players = false := by decide
  have h1 : isGameOver (runPhase sixGame (Phase.day (sixInput 0))).players = false := by decide
  have h2 : isGameOver (runPhase (runPhase sixGame (Phase.day (sixInput 0)))
      (Phase.night (sixInput 1))).players = false := by decide
  have h3 : isGameOver (runPhase (runPhase (runPhase sixGame (Phase.day (sixInput 0)))
      (Phase.night (sixInput 1))) (Phase.day (sixInput 2))).players = false := by decide
  obtain ⟨pre, m, post, hs, hr, ha, hpre, hpost⟩ := lone_split sixStuck.players hm hn ho
  refine ⟨?_, by decide, isGameOver_lone _ hm hn ho, ?_, ?_⟩
  · have hr : assignRoles 6 false sixSetup = some sixGame.players := by decide
    unfold GameMaster.new
    rw [hr]
    rfl
  · intro ch
    exact ⟨(lone_day ch sixStuck pre post m hs hr ha hpre hpost).2,
      (lone_night ch sixStuck pre post m hs hr ha hpre hpost).2.2⟩
  · intro fuel
    unfold runGame
    match fuel with
    | 0 => rfl
    | 1 =>
      rw [runGameFrom_succ, h0]
      simp only [Bool.false_eq_true, if_false]
      rw [h1]
      rfl
    | fuel + 2 =>
      rw [runGameFrom_succ, h0]
      simp only [Bool.false_eq_true, if_false]
      rw [h1]
      simp only [Bool.false_eq_true, if_false]
      rw [runGameFrom_succ, h2]
      simp only [Bool.false_eq_true, if_false]
      rw [h3]
      simp only [Bool.false_eq_true, if_false]
      exact runGameFrom_lone sixInput fuel 4 _ hm hn ho

/-! ## Rosters with an empty name or a repeated name -/

/-- The tie-break loop on a map whose only key is the empty name selects the
empty name. Such a map is the mafia tally of the first night of the game that
`eofSetup` builds, in which the Mafia member A decides to kill the nameless
participant: the mafia victim is the empty name. -/
theorem tieBreak_selects_empty_key :
    (tieBreak (fun _ => 0) [("", 1)]).name = ""
    ∧ assignRoles 5 true eofSetup = some eofStart.players
    ∧ isGameOver eofStart.players = false
    ∧ isGameOver eofGame.players = false
    ∧ (1, ("kill", "")) ∈ nightDecisions eofNight eofGame
    ∧ (nightVars eofNight eofGame).mafiaVotes = [("", 1)]
    ∧ (nightVars eofNight eofGame).mafiaVictim = "" := by
  decide

/-- In the first night of the game that `eofSetup` builds, the Commissar C
decides (check, nameless); the empty name is the name of the roster's first
participant, a Civilian; after `playNightPhase` the knowledge map of C is
empty, so nothing is recorded for the checked name. -/
theorem check_of_empty_name_not_recorded :
    assignRoles 5 true eofSetup = some eofStart.players
    ∧ isGameOver eofStart.players = false
    ∧ isGameOver eofGame.players = false
    ∧ (3, ("check", "")) ∈ nightDecisions eofNight eofGame
    ∧ findPlayerByName eofGame.players "" = some 0
    ∧ eofGame.players[0]?.map (fun p => (p.playerName, p.role, p.alive))
        = some ("", Role.Civilian, true)
    ∧ (playNightPhase eofNight eofGame).players[3]?.map
          (fun p => (p.role, p.checkedPlayers, mapFind p.checkedPlayers ""))
        = some (Role.Commissar, [], none) := by
  decide

/-- In the first night of the game that `dupSetup` builds, the Maniac M draws
the Bull, whose name X is also the name of the Civilian before it in the
roster, and decides (kill, X). The lookup of the name finds the Civilian, so X
is queued as the maniac victim, and the Civilian dies. -/
theorem maniac_kill_on_bull_with_namesake :
    assignRoles 5 false dupSetup = some dupStart.players
    ∧ isGameOver dupStart.players = false
    ∧ isGameOver dupGame.players = false
    ∧ dupGame.players.map (fun p => (p.playerName, p.role, p.alive))
        = [("X", Role.Civilian, true), ("X", Role.Bull, true), ("M", Role.Maniac, true),
           ("D", Role.Doctor, true), ("C", Role.Commissar, false)]
    ∧ (getRandomPlayer (dupGame.players.enum.filter
          (nightFilter 2 (Player.new "M" StrategyKind.Bot Role.Maniac)))
        (dupNight.choice 2).pick).map (fun e => (e.1, e.2.playerName, e.2.role))
        = some (1, "X", Role.Bull)
    ∧ (2, ("kill", "X")) ∈ nightDecisions dupNight dupGame
    ∧ (nightVars dupNight dupGame).maniacVictim = "X"
    ∧ (playNightPhase dupNight dupGame).players.map (fun p => (p.playerName, p.role, p.alive))
        = [("X", Role.Civilian, false), ("X", Role.Bull, true), ("M", Role.Maniac, true),
           ("D", Role.Doctor, true), ("C", Role.Commissar, false)] := by
  decide

/-- In the first night of the game that `twinSetup` builds, the Killer K draws
the living Commissar, whose name X is also the name of the Civilian eliminated
by day, and decides (kill, X). The killer victim X differs from the mafia
victim (none) and from the heal target D, yet `killPlayer` finds the dead
Civilian: the Killer's target is alive after the night and nobody has died. -/
theorem killer_target_with_namesake_survives :
    assignRoles 5 false twinSetup = some twinStart.players
    ∧ isGameOver twinStart.players = false
    ∧ isGameOver twinGame.players = false
    ∧ twinGame.players.map (fun p => (p.playerName, p.role, p.alive))
        = [("X", Role.Civilian, false), ("X", Role.Commissar, true), ("K", Role.Killer, true),
           ("D", Role.Doctor, true), ("M", Role.Maniac, true)]
    ∧ (getRandomPlayer (twinGame.players.enum.filter
          (nightFilter 2 (Player.new "K" StrategyKind.Bot Role.Killer)))
        (twinNight.choice 2).pick).map (fun e => (e.1, e.2.playerName, e.2.role))
        = some (1, "X", Role.Commissar)
    ∧ (2, ("kill", "X")) ∈ nightDecisions twinNight twinGame
    ∧ (nightVars twinNight twinGame).killerVictim = "X"
    ∧ (nightVars twinNight twinGame).mafiaVictim = ""
    ∧ (nightVars twinNight twinGame).doctorHeal = "D"
    ∧ (playNightPhase twinNight twinGame).players.map (fun p => (p.playerName, p.role, p.alive))
        = [("X", Role.Civilian, false), ("X", Role.Commissar, true), ("K", Role.Killer, true),
           ("D", Role.Doctor, true), ("M", Role.Maniac, true)] := by
  decide

end MafiaGame
